import Mathlib

/-!
Verification development for the Quiz-it document-to-quiz pipeline.

Strings are modelled as `List Char`.  JavaScript float quantities that the
code only ever builds from multiples of 0.05 (section confidence, chunk
importance) are modelled in exact hundredths as `Int`; at that granularity
JS double arithmetic is exact order-isomorphic to the integer model.
JS stable `Array.prototype.sort` is modelled by `List.insertionSort`,
which is also stable, and a stable sort is determined by the comparator.
-/

namespace QuizIt

/-! ### Character classes (JS regex classes, ASCII as in the source regexes) -/

/-- JS `\s` class (the whitespace characters recognised by JavaScript),
stated on code points. -/
def isWsChar (c : Char) : Bool :=
  c.toNat = 0x20 || c.toNat = 0x09 || c.toNat = 0x0A || c.toNat = 0x0D ||
  c.toNat = 0x0B || c.toNat = 0x0C || c.toNat = 0xA0 || c.toNat = 0x1680 ||
  (0x2000 ≤ c.toNat && c.toNat ≤ 0x200A) || c.toNat = 0x2028 ||
  c.toNat = 0x2029 || c.toNat = 0x202F || c.toNat = 0x205F ||
  c.toNat = 0x3000 || c.toNat = 0xFEFF

/-- JS `\w` class: `[A-Za-z0-9_]`, stated on code points. -/
def isWordChar (c : Char) : Bool :=
  (0x61 ≤ c.toNat && c.toNat ≤ 0x7A) || (0x41 ≤ c.toNat && c.toNat ≤ 0x5A) ||
  (0x30 ≤ c.toNat && c.toNat ≤ 0x39) || c.toNat = 0x5F

/-- JS `\d` class: `[0-9]`. -/
def isDigitChar (c : Char) : Bool :=
  0x30 ≤ c.toNat && c.toNat ≤ 0x39

/-- Punctuation counted by `estimateTokens`: the regex class
`[.,;:!?'"()[\]{}]` of `chunking.ts`, stated on code points. -/
def isPunctChar (c : Char) : Bool :=
  c.toNat = 0x2E || c.toNat = 0x2C || c.toNat = 0x3B || c.toNat = 0x3A ||
  c.toNat = 0x21 || c.toNat = 0x3F || c.toNat = 0x27 || c.toNat = 0x22 ||
  c.toNat = 0x28 || c.toNat = 0x29 || c.toNat = 0x5B || c.toNat = 0x5D ||
  c.toNat = 0x7B || c.toNat = 0x7D

/-! ### Word / punctuation / number-run counting for `estimateTokens` -/

/-- Counts maximal non-whitespace runs; `prev` records whether the previous
character was whitespace (or the start of the string).  This is the length of
`text.split(/\s+/).filter(w => w.length > 0)`. -/
def cwAux (prev : Bool) : List Char → Nat
  | [] => 0
  | c :: cs => (if !isWsChar c && prev then 1 else 0) + cwAux (isWsChar c) cs

/-- Number of words of a string in the sense of `chunking.ts`. -/
def countWords (l : List Char) : Nat := cwAux true l

/-- Number of punctuation characters (`text.match(/[.,;:!?'"()[\]{}]/g)`). -/
def countPunct (l : List Char) : Nat := l.countP isPunctChar

/-- Counts maximal digit runs, i.e. the matches of `/\d+/g`; `prev` records
whether the previous character was a digit. -/
def drAux (prev : Bool) : List Char → Nat
  | [] => 0
  | c :: cs => (if isDigitChar c && !prev then 1 else 0) + drAux (isDigitChar c) cs

/-- Number of digit runs of a string. -/
def countNums (l : List Char) : Nat := drAux false l

/-- Ten times the weighted sum inside `estimateTokens`
(`words*1.3 + punctuation*0.5 + numbers`), kept in tenths so the arithmetic
is exact. -/
def tokWeight (l : List Char) : Nat :=
  13 * countWords l + 5 * countPunct l + 10 * countNums l

/-- `estimateTokens` of `src/lib/chunking.ts`:
`Math.ceil(words.length * 1.3 + punctuation * 0.5 + numbers)`. -/
def estimateTokens (l : List Char) : Nat :=
  (tokWeight l + 9) / 10

/-! ### The six stages of `smartNormalizeText` (`src/lib/text-extract.ts`) -/

/-- Space or horizontal tab, the class `[ \t]` of the first replace. -/
def isSpaceTab (c : Char) : Bool := c = ' ' || c = '\t'

/-- Stage 1, `.replace(/[ \t]+/g, ' ')`: each maximal run of spaces/tabs
becomes one space.  `inRun` records whether the previous character belonged
to a run that has already emitted its space. -/
def collapseSpaceTab (inRun : Bool) : List Char → List Char
  | [] => []
  | c :: cs =>
    if isSpaceTab c then
      (if inRun then [] else [' ']) ++ collapseSpaceTab true cs
    else
      c :: collapseSpaceTab false cs

/-- Stage 2a, `.replace(/\r\n/g, '\n')`.  Since the replacement text equals
the second character of the match, this deletes every carriage return that is
immediately followed by a newline. -/
def crlfToLf : List Char → List Char
  | [] => []
  | c :: cs =>
    if c = '\u000D' && cs.head? = some '\n' then crlfToLf cs
    else c :: crlfToLf cs

/-- Stage 2b, `.replace(/\r/g, '\n')`. -/
def crToLf (l : List Char) : List Char :=
  l.map (fun c => if c = '\u000D' then '\n' else c)

/-- Emits the collapsed form of a newline run of length `run` (runs of three
or more newlines become exactly two). -/
def emitNl (run : Nat) : List Char :=
  List.replicate (min run 2) '\n'

/-- Stage 3, `.replace(/\n{3,}/g, '\n\n')`; `run` counts the newline run
currently being read. -/
def collapseNlAux (run : Nat) : List Char → List Char
  | [] => emitNl run
  | c :: cs =>
    if c = '\n' then collapseNlAux (run + 1) cs
    else emitNl run ++ c :: collapseNlAux 0 cs

/-- Stage 3 entry point. -/
def collapseNl (l : List Char) : List Char := collapseNlAux 0 l

/-- State of the scanner for stage 4, `.replace(/(\w+)-\s*\n\s*(\w+)/g, '$1$2')`.
`base pw` scans normally (`pw`: the previous character was a word character
still eligible as the first capture group); `afterHyphen buf nl` has read a
word character followed by `-` and buffers the whitespace run (`nl`: the run
contains a newline); `w2` is inside the second capture group, whose
characters were consumed by the match and cannot start a new one. -/
inductive H4State : Type
  | base (pw : Bool)
  | afterHyphen (buf : List Char) (nl : Bool)
  | w2
deriving DecidableEq

/-- Scanner for stage 4: leftmost, non-overlapping matches of
`(\w+)-\s*\n\s*(\w+)` are replaced by the two word groups, which deletes the
hyphen and the newline-containing whitespace run between them. -/
def h4 : H4State → List Char → List Char
  | .base _, [] => []
  | .afterHyphen buf _, [] => '-' :: buf.reverse
  | .w2, [] => []
  | .base pw, c :: cs =>
    if isWordChar c then c :: h4 (.base true) cs
    else if c = '-' && pw then h4 (.afterHyphen [] false) cs
    else c :: h4 (.base false) cs
  | .afterHyphen buf nl, c :: cs =>
    if isWsChar c then h4 (.afterHyphen (c :: buf) (nl || c = '\n')) cs
    else if isWordChar c && nl then c :: h4 .w2 cs
    else if isWordChar c then ('-' :: buf.reverse) ++ c :: h4 (.base true) cs
    else ('-' :: buf.reverse) ++ c :: h4 (.base false) cs
  | .w2, c :: cs =>
    if isWordChar c then c :: h4 .w2 cs
    else c :: h4 (.base false) cs

/-- Stage 4 entry point (rejoin hyphen-broken words across a line wrap). -/
def fixHyphenBreaks (l : List Char) : List Char := h4 (.base false) l

/-- The control characters stripped by stage 5:
`[\u0000-\u0008\u000B\u000C\u000E-\u001F\u007F]` (stated on code points). -/
def isStrippedCtrl (c : Char) : Bool :=
  (c.toNat ≤ 0x08) || c.toNat = 0x0B || c.toNat = 0x0C ||
  (0x0E ≤ c.toNat && c.toNat ≤ 0x1F) || c.toNat = 0x7F

/-- Stage 5, `.replace(/[\u0000-\u0008\u000B\u000C\u000E-\u001F\u007F]/g, '')`. -/
def stripCtrl (l : List Char) : List Char :=
  l.filter (fun c => !isStrippedCtrl c)

/-- JS `String.prototype.trim`. -/
def jsTrim (l : List Char) : List Char :=
  ((l.dropWhile isWsChar).reverse.dropWhile isWsChar).reverse

/-- `smartNormalizeText` of `src/lib/text-extract.ts`: the six chained
replaces followed by `trim()`. -/
def smartNormalizeText (l : List Char) : List Char :=
  jsTrim (stripCtrl (fixHyphenBreaks (collapseNl (crToLf (crlfToLf
    (collapseSpaceTab false l))))))

/-! ### Predicates about normalizer outputs -/

/-- `true` iff the string contains three consecutive newline characters. -/
def hasTriple : List Char → Bool
  | a :: b :: c :: tl =>
    (a = '\n' && b = '\n' && c = '\n') || hasTriple (b :: c :: tl)
  | _ => false

/-- First two characters are both newlines. -/
def headNN : List Char → Bool
  | a :: b :: _ => a = '\n' && b = '\n'
  | _ => false

/-- Length of the leading newline run. -/
def nlHead (l : List Char) : Nat :=
  (l.takeWhile (fun c => c = '\n')).length

/-- `true` iff no two adjacent characters are both spaces-or-tabs. -/
def noDbl : List Char → Bool
  | a :: b :: tl => !(isSpaceTab a && isSpaceTab b) && noDbl (b :: tl)
  | _ => true

/-- First character is a space or tab. -/
def startsSt : List Char → Bool
  | [] => false
  | c :: _ => isSpaceTab c

/-- C0 control characters and DEL: the ASCII-range control characters. -/
def isC0orDel (c : Char) : Bool :=
  c.toNat ≤ 0x1F || c.toNat = 0x7F

/-- Reconstruction of the input still owed by the stage-4 scanner in a given
state: a pending hyphen and buffered whitespace precede the unread input. -/
def h4recon : H4State → List Char → List Char
  | .base _, cs => cs
  | .afterHyphen buf _, cs => '-' :: (buf.reverse ++ cs)
  | .w2, cs => cs

/-! ### Basic lemmas about the predicates -/

theorem char_eq_of_toNat {c d : Char} (h : c.toNat = d.toNat) : c = d :=
  Char.eq_of_val_eq (UInt32.toNat.inj h)

theorem isWordChar_ne_nl {c : Char} (h : isWordChar c = true) : c ≠ '\n' := by
  rintro rfl
  exact absurd h (by decide)

theorem isWordChar_not_st {c : Char} (h : isWordChar c = true) :
    isSpaceTab c = false := by
  by_cases h1 : c = ' '
  · subst h1; exact absurd h (by decide)
  · by_cases h2 : c = '\t'
    · subst h2; exact absurd h (by decide)
    · simp [isSpaceTab, h1, h2]

theorem hasTriple_cons_eq (a : Char) (w : List Char) :
    hasTriple (a :: w) = ((decide (a = '\n') && headNN w) || hasTriple w) := by
  match w with
  | [] => simp [hasTriple, headNN]
  | [x] => simp [hasTriple, headNN]
  | x :: y :: tl => simp [hasTriple, headNN, Bool.and_assoc]

theorem hasTriple_cons_of_ne {a : Char} (ha : a ≠ '\n') (w : List Char) :
    hasTriple (a :: w) = hasTriple w := by
  rw [hasTriple_cons_eq]; simp [ha]

theorem hasTriple_mono_cons {a : Char} {w : List Char}
    (h : hasTriple w = true) : hasTriple (a :: w) = true := by
  rw [hasTriple_cons_eq, h, Bool.or_true]

theorem hasTriple_append_right {v : List Char} (u : List Char)
    (h : hasTriple v = true) : hasTriple (u ++ v) = true := by
  induction u with
  | nil => simpa using h
  | cons a u ih => exact hasTriple_mono_cons ih

theorem hasTriple_append_left {u : List Char} (v : List Char)
    (h : hasTriple u = true) : hasTriple (u ++ v) = true := by
  induction u with
  | nil => simp [hasTriple] at h
  | cons a u ih =>
    rw [hasTriple_cons_eq] at h
    rcases Bool.or_eq_true_iff.mp h with h1 | h1
    · have ha := (Bool.and_eq_true_iff.mp h1).1
      have hh := (Bool.and_eq_true_iff.mp h1).2
      rw [List.cons_append, hasTriple_cons_eq]
      have hnn : headNN (u ++ v) = true := by
        match u, hh with
        | x :: y :: tl, hh => simpa [headNN] using hh
        | [x], hh => simp [headNN] at hh
        | [], hh => simp [headNN] at hh
      rw [ha, hnn]; rfl
    · exact hasTriple_mono_cons (ih h1)

theorem hasTriple_suffix_false {u v : List Char}
    (h : hasTriple (u ++ v) = false) : hasTriple v = false := by
  cases h' : hasTriple v with
  | false => rfl
  | true => rw [hasTriple_append_right u h'] at h; cases h

theorem hasTriple_prefix_false {u v : List Char}
    (h : hasTriple (u ++ v) = false) : hasTriple u = false := by
  cases h' : hasTriple u with
  | false => rfl
  | true => rw [hasTriple_append_left v h'] at h; cases h

theorem headNN_mid {c : Char} (hc : c ≠ '\n') (u v : List Char) :
    headNN (u ++ c :: v) = headNN (u ++ [c]) := by
  match u with
  | [] => cases v <;> simp [headNN, hc]
  | [x] => simp [headNN]
  | x :: y :: tl => simp [headNN]

theorem hasTriple_append_mid {c : Char} (hc : c ≠ '\n') {u v : List Char}
    (h1 : hasTriple (u ++ [c]) = false) (h2 : hasTriple (c :: v) = false) :
    hasTriple (u ++ c :: v) = false := by
  induction u with
  | nil => simpa using h2
  | cons a u ih =>
    rw [List.cons_append, hasTriple_cons_eq]
    rw [List.cons_append, hasTriple_cons_eq, Bool.or_eq_false_iff] at h1
    rw [headNN_mid hc, Bool.or_eq_false_iff]
    exact ⟨h1.1, ih h1.2⟩

theorem startsSt_mid (c : Char) (u v : List Char) :
    startsSt (u ++ c :: v) = startsSt (u ++ [c]) := by
  match u with
  | [] => simp [startsSt]
  | x :: tl => simp [startsSt]

theorem noDbl_cons_eq (a : Char) (w : List Char) :
    noDbl (a :: w) = (!(isSpaceTab a && startsSt w) && noDbl w) := by
  match w with
  | [] => simp [noDbl, startsSt]
  | x :: tl => simp [noDbl, startsSt]

theorem noDbl_tail {a : Char} {w : List Char} (h : noDbl (a :: w) = true) :
    noDbl w = true := by
  rw [noDbl_cons_eq, Bool.and_eq_true_iff] at h; exact h.2

theorem noDbl_suffix {u v : List Char} (h : noDbl (u ++ v) = true) :
    noDbl v = true := by
  induction u with
  | nil => simpa using h
  | cons a u ih => exact ih (noDbl_tail h)

theorem noDbl_prefix {u v : List Char} (h : noDbl (u ++ v) = true) :
    noDbl u = true := by
  induction u with
  | nil => simp [noDbl]
  | cons a u ih =>
    rw [List.cons_append, noDbl_cons_eq, Bool.and_eq_true_iff] at h
    rw [noDbl_cons_eq, Bool.and_eq_true_iff]
    refine ⟨?_, ih h.2⟩
    rcases u with _ | ⟨x, tl⟩
    · simp [startsSt]
    · simpa [startsSt] using h.1

theorem noDbl_append_mid {c : Char} {u v : List Char}
    (h1 : noDbl (u ++ [c]) = true) (h2 : noDbl (c :: v) = true) :
    noDbl (u ++ c :: v) = true := by
  induction u with
  | nil => simpa using h2
  | cons a u ih =>
    rw [List.cons_append, noDbl_cons_eq, Bool.and_eq_true_iff] at h1
    rw [List.cons_append, noDbl_cons_eq, Bool.and_eq_true_iff]
    rw [startsSt_mid]
    exact ⟨h1.1, ih h1.2⟩

theorem nlHead_cons (c : Char) (cs : List Char) :
    nlHead (c :: cs) = if c = '\n' then nlHead cs + 1 else 0 := by
  by_cases h : c = '\n' <;> simp [nlHead, List.takeWhile_cons, h]

theorem headNN_eq_nlHead (w : List Char) :
    headNN w = decide (2 ≤ nlHead w) := by
  match w with
  | [] => simp [headNN, nlHead]
  | [x] => by_cases hx : x = '\n' <;> simp [headNN, nlHead, hx, List.takeWhile]
  | x :: y :: tl =>
    by_cases hx : x = '\n' <;> by_cases hy : y = '\n' <;>
      simp [headNN, nlHead_cons, hx, hy]

/-! ### Stage 1: collapseSpaceTab -/

theorem collapseSpaceTab_st {c : Char} {cs : List Char} (b : Bool)
    (hc : isSpaceTab c = true) :
    collapseSpaceTab b (c :: cs) =
      (if b then [] else [' ']) ++ collapseSpaceTab true cs := by
  simp [collapseSpaceTab, hc]

theorem collapseSpaceTab_not_st {c : Char} {cs : List Char} (b : Bool)
    (hc : isSpaceTab c = false) :
    collapseSpaceTab b (c :: cs) = c :: collapseSpaceTab false cs := by
  simp [collapseSpaceTab, hc]

theorem mem_collapseSpaceTab {x : Char} :
    ∀ {l : List Char} {b : Bool}, x ∈ collapseSpaceTab b l → x ∈ l ∨ x = ' '
  | [], _, h => by simp [collapseSpaceTab] at h
  | c :: cs, b, h => by
    cases hc : isSpaceTab c with
    | true =>
      rw [collapseSpaceTab_st b hc] at h
      rcases List.mem_append.mp h with h1 | h1
      · cases b with
        | true => simp at h1
        | false => simp at h1; exact Or.inr h1
      · rcases mem_collapseSpaceTab h1 with h2 | h2
        · exact Or.inl (List.mem_cons_of_mem _ h2)
        · exact Or.inr h2
    | false =>
      rw [collapseSpaceTab_not_st b hc] at h
      rcases List.mem_cons.mp h with h1 | h1
      · exact Or.inl (h1 ▸ List.mem_cons_self _ _)
      · rcases mem_collapseSpaceTab h1 with h2 | h2
        · exact Or.inl (List.mem_cons_of_mem _ h2)
        · exact Or.inr h2

theorem noTab_collapseSpaceTab :
    ∀ (l : List Char) (b : Bool), '\t' ∉ collapseSpaceTab b l
  | [], _ => by simp [collapseSpaceTab]
  | c :: cs, b => by
    intro h
    cases hc : isSpaceTab c with
    | true =>
      rw [collapseSpaceTab_st b hc] at h
      rcases List.mem_append.mp h with h1 | h1
      · cases b with
        | true => simp at h1
        | false => simp at h1
      · exact noTab_collapseSpaceTab cs true h1
    | false =>
      rw [collapseSpaceTab_not_st b hc] at h
      rcases List.mem_cons.mp h with h1 | h1
      · rw [← h1] at hc; simp [isSpaceTab] at hc
      · exact noTab_collapseSpaceTab cs false h1

theorem startsSt_collapseSpaceTab_true :
    ∀ (l : List Char), startsSt (collapseSpaceTab true l) = false
  | [] => rfl
  | c :: cs => by
    cases hc : isSpaceTab c with
    | true =>
      rw [collapseSpaceTab_st true hc]
      simpa using startsSt_collapseSpaceTab_true cs
    | false =>
      rw [collapseSpaceTab_not_st true hc, startsSt, hc]

theorem noDbl_collapseSpaceTab :
    ∀ (l : List Char) (b : Bool), noDbl (collapseSpaceTab b l) = true
  | [], _ => rfl
  | c :: cs, b => by
    cases hc : isSpaceTab c with
    | true =>
      cases b with
      | true =>
        rw [collapseSpaceTab_st true hc]
        simpa using noDbl_collapseSpaceTab cs true
      | false =>
        rw [collapseSpaceTab_st false hc]
        have he : (if false then ([] : List Char) else [' ']) = [' '] := rfl
        rw [he, List.singleton_append, noDbl_cons_eq,
          startsSt_collapseSpaceTab_true cs]
        simpa using noDbl_collapseSpaceTab cs true
    | false =>
      rw [collapseSpaceTab_not_st b hc, noDbl_cons_eq, hc]
      simpa using noDbl_collapseSpaceTab cs false

theorem collapseSpaceTab_id :
    ∀ (l : List Char), noDbl l = true → '\t' ∉ l →
      collapseSpaceTab false l = l ∧
      (startsSt l = false → collapseSpaceTab true l = l)
  | [] , _, _ => ⟨rfl, fun _ => rfl⟩
  | c :: cs, hd, ht => by
    have hd' : noDbl cs = true := noDbl_tail hd
    have ht' : '\t' ∉ cs := fun h => ht (List.mem_cons_of_mem _ h)
    have ih := collapseSpaceTab_id cs hd' ht'
    cases hc : isSpaceTab c with
    | true =>
      have hsp : c = ' ' := by
        have h1 : c = ' ' ∨ c = '\t' := by simpa [isSpaceTab] using hc
        rcases h1 with h1 | h1
        · exact h1
        · exfalso; apply ht; rw [← h1]; exact List.mem_cons_self _ _
      have hst : startsSt cs = false := by
        rw [noDbl_cons_eq, Bool.and_eq_true_iff] at hd
        have h1 := hd.1
        cases h' : startsSt cs with
        | false => rfl
        | true => rw [hc, h'] at h1; simp at h1
      constructor
      · rw [collapseSpaceTab_st false hc]
        have he : (if false then ([] : List Char) else [' ']) = [' '] := rfl
        rw [he, List.singleton_append, ih.2 hst, hsp]
      · intro hstart
        exfalso
        rw [startsSt, hc] at hstart
        cases hstart
    | false =>
      refine ⟨?_, fun _ => ?_⟩ <;>
        · rw [collapseSpaceTab_not_st _ hc, ih.1]

/-! ### Stage 2: carriage returns -/

theorem crlfToLf_cons_pos {c : Char} {cs : List Char}
    (hc : (c = '\u000D' && cs.head? = some '\n') = true) :
    crlfToLf (c :: cs) = crlfToLf cs := by
  simp [crlfToLf, hc]

theorem crlfToLf_cons_neg {c : Char} {cs : List Char}
    (hc : (c = '\u000D' && cs.head? = some '\n') = false) :
    crlfToLf (c :: cs) = c :: crlfToLf cs := by
  simp [crlfToLf, hc]

theorem mem_crlfToLf {x : Char} :
    ∀ {l : List Char}, x ∈ crlfToLf l → x ∈ l
  | [], h => by simp [crlfToLf] at h
  | c :: cs, h => by
    cases hc : (c = '\u000D' && cs.head? = some '\n') with
    | true =>
      rw [crlfToLf_cons_pos hc] at h
      exact List.mem_cons_of_mem _ (mem_crlfToLf h)
    | false =>
      rw [crlfToLf_cons_neg hc] at h
      rcases List.mem_cons.mp h with h1 | h1
      · exact h1 ▸ List.mem_cons_self _ _
      · exact List.mem_cons_of_mem _ (mem_crlfToLf h1)

theorem crlfToLf_id :
    ∀ {l : List Char}, '\u000D' ∉ l → crlfToLf l = l
  | [], _ => rfl
  | c :: cs, h => by
    have hc : c ≠ '\u000D' := fun hh => h (hh ▸ List.mem_cons_self _ _)
    have hcond : (c = '\u000D' && cs.head? = some '\n') = false := by
      simp [hc]
    rw [crlfToLf_cons_neg hcond,
      crlfToLf_id (fun hh => h (List.mem_cons_of_mem _ hh))]

theorem noDbl_crlfToLf :
    ∀ {l : List Char}, noDbl l = true →
      noDbl (crlfToLf l) = true ∧
      (startsSt (crlfToLf l) = true → startsSt l = true)
  | [], _ => ⟨rfl, fun h => h⟩
  | c :: cs, hd => by
    have ih := noDbl_crlfToLf (noDbl_tail hd)
    cases hc : (c = '\u000D' && cs.head? = some '\n') with
    | true =>
      obtain ⟨cs', hcs⟩ : ∃ cs', cs = '\n' :: cs' := by
        have h2 := (Bool.and_eq_true_iff.mp hc).2
        cases cs with
        | nil => simp at h2
        | cons d ds =>
          refine ⟨ds, ?_⟩
          simp only [List.head?, Option.some.injEq, decide_eq_true_eq] at h2
          rw [h2]
      rw [crlfToLf_cons_pos hc]
      refine ⟨ih.1, ?_⟩
      intro hs
      exfalso
      subst hcs
      rw [show crlfToLf ('\n' :: cs') = '\n' :: crlfToLf cs' from
        crlfToLf_cons_neg (by simp)] at hs
      rw [startsSt] at hs
      simp [isSpaceTab] at hs
    | false =>
      rw [crlfToLf_cons_neg hc]
      constructor
      · rw [noDbl_cons_eq, Bool.and_eq_true_iff]
        refine ⟨?_, ih.1⟩
        cases hso : startsSt (crlfToLf cs) with
        | false => simp [hso]
        | true =>
          have h1 := ih.2 hso
          rw [noDbl_cons_eq, Bool.and_eq_true_iff] at hd
          rw [h1] at hd
          simpa using hd.1
      · intro hs
        rw [startsSt] at hs ⊢
        exact hs

theorem mem_crToLf {x : Char} {l : List Char} (h : x ∈ crToLf l) :
    x ∈ l ∨ x = '\n' := by
  rcases List.mem_map.mp h with ⟨c, hc, hx⟩
  by_cases h1 : c = '\u000D'
  · right; rw [← hx]; simp [h1]
  · left; rw [← hx]; simpa [h1] using hc

theorem noCr_crToLf (l : List Char) : '\u000D' ∉ crToLf l := by
  intro h
  rcases List.mem_map.mp h with ⟨c, _, hx⟩
  by_cases h1 : c = '\u000D'
  · rw [if_pos h1] at hx; exact absurd hx (by decide)
  · rw [if_neg h1] at hx; exact h1 hx

theorem crToLf_id {l : List Char} (h : '\u000D' ∉ l) : crToLf l = l := by
  induction l with
  | nil => rfl
  | cons c cs ih =>
    have h1 : c ≠ '\u000D' := fun hh => h (hh ▸ List.mem_cons_self _ _)
    show (if c = '\u000D' then '\n' else c) :: crToLf cs = c :: cs
    rw [if_neg h1, ih (fun hh => h (List.mem_cons_of_mem _ hh))]

theorem noDbl_crToLf {l : List Char} (hd : noDbl l = true) :
    noDbl (crToLf l) = true ∧ startsSt (crToLf l) = startsSt l := by
  induction l with
  | nil => exact ⟨rfl, rfl⟩
  | cons c cs ih =>
    have ih' := ih (noDbl_tail hd)
    have hstc : isSpaceTab (if c = '\u000D' then '\n' else c) = isSpaceTab c := by
      by_cases h1 : c = '\u000D' <;> simp [h1, isSpaceTab]
    have hmap : crToLf (c :: cs) =
        (if c = '\u000D' then '\n' else c) :: crToLf cs := rfl
    constructor
    · rw [hmap, noDbl_cons_eq, Bool.and_eq_true_iff, hstc]
      refine ⟨?_, ih'.1⟩
      rw [noDbl_cons_eq, Bool.and_eq_true_iff] at hd
      rw [ih'.2]
      exact hd.1
    · rw [hmap, startsSt, hstc]; rfl

/-! ### Stage 3: collapseNl -/

theorem collapseNlAux_nl {cs : List Char} (run : Nat) :
    collapseNlAux run ('\n' :: cs) = collapseNlAux (run + 1) cs := by
  simp [collapseNlAux]

theorem collapseNlAux_other {c : Char} {cs : List Char} (run : Nat)
    (hc : c ≠ '\n') :
    collapseNlAux run (c :: cs) = emitNl run ++ c :: collapseNlAux 0 cs := by
  simp [collapseNlAux, hc]

theorem mem_collapseNlAux {x : Char} :
    ∀ {l : List Char} {run : Nat}, x ∈ collapseNlAux run l → x ∈ l ∨ x = '\n'
  | [], run, h => by
    right
    simp only [collapseNlAux, emitNl] at h
    exact List.eq_of_mem_replicate h
  | c :: cs, run, h => by
    by_cases hc : c = '\n'
    · subst hc
      rw [collapseNlAux_nl] at h
      rcases mem_collapseNlAux h with h1 | h1
      · exact Or.inl (List.mem_cons_of_mem _ h1)
      · exact Or.inr h1
    · rw [collapseNlAux_other run hc] at h
      rcases List.mem_append.mp h with h1 | h1
      · exact Or.inr (List.eq_of_mem_replicate h1)
      · rcases List.mem_cons.mp h1 with h2 | h2
        · exact Or.inl (h2 ▸ List.mem_cons_self _ _)
        · rcases mem_collapseNlAux h2 with h3 | h3
          · exact Or.inl (List.mem_cons_of_mem _ h3)
          · exact Or.inr h3

theorem hasTriple_replicate_le {k : Nat} (hk : k ≤ 2) :
    hasTriple (List.replicate k '\n') = false := by
  match k, hk with
  | 0, _ => rfl
  | 1, _ => rfl
  | 2, _ => rfl

theorem hasTriple_replicate_cons {k : Nat} (hk : k ≤ 2) {c : Char}
    (hc : c ≠ '\n') :
    hasTriple (List.replicate k '\n' ++ [c]) = false := by
  match k, hk with
  | 0, _ => rfl
  | 1, _ => simp [hasTriple]
  | 2, _ => simp [List.replicate, hasTriple, hc]

theorem nlHead_replicate_append {k : Nat} {c : Char} (hc : c ≠ '\n')
    (w : List Char) :
    nlHead (List.replicate k '\n' ++ c :: w) = k := by
  induction k with
  | zero => simp [nlHead_cons, hc]
  | succ n ih => simp [List.replicate_succ, nlHead_cons, ih]

theorem nlHead_replicate (k : Nat) :
    nlHead (List.replicate k '\n') = k := by
  induction k with
  | zero => rfl
  | succ n ih => simp [List.replicate_succ, nlHead_cons, ih]

theorem collapseNlAux_bounds :
    ∀ (l : List Char) (run : Nat),
      hasTriple (collapseNlAux run l) = false ∧
      nlHead (collapseNlAux run l) ≤ 2
  | [], run => by
    constructor
    · exact hasTriple_replicate_le (Nat.min_le_right run 2)
    · show nlHead (List.replicate (min run 2) '\n') ≤ 2
      rw [nlHead_replicate]
      exact Nat.min_le_right run 2
  | c :: cs, run => by
    by_cases hc : c = '\n'
    · subst hc
      rw [collapseNlAux_nl]
      exact collapseNlAux_bounds cs (run + 1)
    · rw [collapseNlAux_other run hc]
      have ih := collapseNlAux_bounds cs 0
      constructor
      · refine hasTriple_append_mid hc (hasTriple_replicate_cons (Nat.min_le_right run 2) hc) ?_
        rw [hasTriple_cons_of_ne hc]
        exact ih.1
      · rw [emitNl, nlHead_replicate_append hc]
        exact Nat.min_le_right run 2

theorem startsSt_collapseNlAux_pos :
    ∀ (l : List Char) (run : Nat), 1 ≤ run →
      startsSt (collapseNlAux run l) = false
  | [], run, hrun => by
    show startsSt (List.replicate (min run 2) '\n') = false
    have : min run 2 = (min run 2 - 1) + 1 := by omega
    rw [this, List.replicate_succ, startsSt]
    decide
  | c :: cs, run, hrun => by
    by_cases hc : c = '\n'
    · subst hc
      rw [collapseNlAux_nl]
      exact startsSt_collapseNlAux_pos cs (run + 1) (by omega)
    · rw [collapseNlAux_other run hc]
      have : min run 2 = (min run 2 - 1) + 1 := by omega
      rw [emitNl, this, List.replicate_succ, List.cons_append, startsSt]
      decide

theorem noDbl_replicate_nl_append (k : Nat) (w : List Char) :
    noDbl (List.replicate k '\n' ++ w) = noDbl w := by
  induction k with
  | zero => rfl
  | succ n ih =>
    rw [List.replicate_succ, List.cons_append, noDbl_cons_eq, ih]
    have : isSpaceTab '\n' = false := rfl
    rw [this]
    simp

theorem noDbl_collapseNlAux :
    ∀ (l : List Char) (run : Nat), noDbl l = true →
      noDbl (collapseNlAux run l) = true ∧
      (startsSt (collapseNlAux run l) = true → startsSt l = true)
  | [], run, _ => by
    constructor
    · show noDbl (List.replicate (min run 2) '\n') = true
      rw [← List.append_nil (List.replicate (min run 2) '\n'),
        noDbl_replicate_nl_append]
      rfl
    · intro hs
      exfalso
      rcases Nat.eq_zero_or_pos run with h0 | h0
      · subst h0; cases hs
      · rw [startsSt_collapseNlAux_pos [] run h0] at hs; cases hs
  | c :: cs, run, hd => by
    by_cases hc : c = '\n'
    · subst hc
      rw [collapseNlAux_nl]
      have ih := noDbl_collapseNlAux cs (run + 1) (noDbl_tail hd)
      refine ⟨ih.1, ?_⟩
      intro hs
      rw [startsSt_collapseNlAux_pos cs (run + 1) (by omega)] at hs
      cases hs
    · rw [collapseNlAux_other run hc]
      have ih := noDbl_collapseNlAux cs 0 (noDbl_tail hd)
      constructor
      · rw [emitNl, noDbl_replicate_nl_append, noDbl_cons_eq, Bool.and_eq_true_iff]
        refine ⟨?_, ih.1⟩
        cases hso : startsSt (collapseNlAux 0 cs) with
        | false => simp [hso]
        | true =>
          have h1 := ih.2 hso
          rw [noDbl_cons_eq, Bool.and_eq_true_iff] at hd
          rw [h1] at hd
          simpa using hd.1
      · intro hs
        rcases Nat.eq_zero_or_pos run with h0 | h0
        · subst h0
          rw [emitNl] at hs
          simp only [Nat.zero_min, List.replicate_zero, List.nil_append] at hs
          rw [startsSt] at hs ⊢
          exact hs
        · rw [emitNl] at hs
          have : min run 2 = (min run 2 - 1) + 1 := by omega
          rw [this, List.replicate_succ, List.cons_append, startsSt] at hs
          cases hs

theorem collapseNlAux_id :
    ∀ (l : List Char) (run : Nat), run ≤ 2 →
      hasTriple (List.replicate run '\n' ++ l) = false →
      collapseNlAux run l = List.replicate run '\n' ++ l
  | [], run, hrun, _ => by
    show List.replicate (min run 2) '\n' = _
    rw [Nat.min_eq_left hrun, List.append_nil]
  | c :: cs, run, hrun, ht => by
    by_cases hc : c = '\n'
    · subst hc
      have hr1 : run ≤ 1 := by
        rcases Nat.lt_or_ge run 2 with h2 | h2
        · omega
        · exfalso
          have : run = 2 := by omega
          subst this
          simp [hasTriple, List.replicate] at ht
      have heq : List.replicate run '\n' ++ '\n' :: cs =
          List.replicate (run + 1) '\n' ++ cs := by
        rw [List.replicate_succ']
        simp
      rw [collapseNlAux_nl, collapseNlAux_id cs (run + 1) (by omega) (by rw [← heq]; exact ht), heq]
    · rw [collapseNlAux_other run hc, emitNl, Nat.min_eq_left hrun]
      have hsuf : hasTriple cs = false := by
        have h1 := hasTriple_suffix_false (u := List.replicate run '\n') ht
        rw [hasTriple_cons_of_ne hc] at h1
        exact h1
      rw [collapseNlAux_id cs 0 (by omega) (by simpa using hsuf)]
      simp

/-! ### Stage 4: the hyphen-break scanner -/

theorem isWsChar_nl : isWsChar '\n' = true := by decide

theorem notWs_ne_nl {c : Char} (h : isWsChar c = false) : c ≠ '\n' := by
  rintro rfl
  exact absurd h (by decide)

theorem notWs_not_st {c : Char} (h : isWsChar c = false) :
    isSpaceTab c = false := by
  by_cases h1 : c = ' '
  · subst h1; cases h
  · by_cases h2 : c = '\t'
    · subst h2; cases h
    · simp [isSpaceTab, h1, h2]

theorem h4_base_cons (pw : Bool) (c : Char) (cs : List Char) :
    h4 (.base pw) (c :: cs) =
      if isWordChar c then c :: h4 (.base true) cs
      else if c = '-' && pw then h4 (.afterHyphen [] false) cs
      else c :: h4 (.base false) cs := rfl

theorem h4_after_cons (buf : List Char) (nl : Bool) (c : Char) (cs : List Char) :
    h4 (.afterHyphen buf nl) (c :: cs) =
      if isWsChar c then h4 (.afterHyphen (c :: buf) (nl || c = '\n')) cs
      else if isWordChar c && nl then c :: h4 .w2 cs
      else if isWordChar c then ('-' :: buf.reverse) ++ c :: h4 (.base true) cs
      else ('-' :: buf.reverse) ++ c :: h4 (.base false) cs := rfl

theorem h4_w2_cons (c : Char) (cs : List Char) :
    h4 .w2 (c :: cs) =
      if isWordChar c then c :: h4 .w2 cs
      else c :: h4 (.base false) cs := rfl

/-- The conjunction of properties carried through the stage-4 scanner:
triple-newline-freedom with a head-run bound, double-space-freedom with a
head-character bound, and character membership. -/
def H4Good (inp out : List Char) : Prop :=
  (hasTriple inp = false → hasTriple out = false ∧ nlHead out ≤ nlHead inp) ∧
  (noDbl inp = true → noDbl out = true ∧
    (startsSt out = true → startsSt inp = true)) ∧
  (∀ x ∈ out, x ∈ inp)

theorem h4good_keep {c : Char} {cs out : List Char}
    (ih : H4Good cs out) : H4Good (c :: cs) (c :: out) := by
  obtain ⟨ihA, ihB, ihC⟩ := ih
  refine ⟨?_, ?_, ?_⟩
  · intro ht
    rw [hasTriple_cons_eq, Bool.or_eq_false_iff] at ht
    obtain ⟨ho, hn⟩ := ihA ht.2
    constructor
    · rw [hasTriple_cons_eq, Bool.or_eq_false_iff]
      refine ⟨?_, ho⟩
      rw [Bool.and_eq_false_iff] at ht ⊢
      rcases ht.1 with h1 | h1
      · exact Or.inl h1
      · right
        rw [headNN_eq_nlHead] at h1 ⊢
        simp only [decide_eq_false_iff_not] at h1 ⊢
        omega
    · rw [nlHead_cons, nlHead_cons]
      by_cases hc : c = '\n' <;> simp [hc] <;> omega
  · intro hd
    rw [noDbl_cons_eq, Bool.and_eq_true_iff] at hd
    obtain ⟨hdo, hso⟩ := ihB hd.2
    constructor
    · rw [noDbl_cons_eq, Bool.and_eq_true_iff]
      refine ⟨?_, hdo⟩
      rw [Bool.not_eq_true', Bool.and_eq_false_iff] at hd ⊢
      rcases hd.1 with h1 | h1
      · exact Or.inl h1
      · cases hs : startsSt out with
        | false => exact Or.inr rfl
        | true => exact absurd (hso hs) (by simp [h1])
    · intro hs
      rw [startsSt] at hs ⊢
      exact hs
  · intro x hx
    rcases List.mem_cons.mp hx with h1 | h1
    · exact h1 ▸ List.mem_cons_self _ _
    · exact List.mem_cons_of_mem _ (ihC x h1)

theorem h4good_flush {c : Char} {cs buf out : List Char}
    (hcw : isWsChar c = false) (ih : H4Good cs out) :
    H4Good ('-' :: (buf.reverse ++ c :: cs))
      (('-' :: buf.reverse) ++ c :: out) := by
  obtain ⟨ihA, ihB, ihC⟩ := ih
  have hcn : c ≠ '\n' := notWs_ne_nl hcw
  have hcst : isSpaceTab c = false := notWs_not_st hcw
  have hrec : '-' :: (buf.reverse ++ c :: cs) =
      ('-' :: buf.reverse) ++ c :: cs := by simp
  refine ⟨?_, ?_, ?_⟩
  · intro ht
    rw [hrec] at ht
    have hpre : hasTriple (('-' :: buf.reverse) ++ [c]) = false := by
      refine hasTriple_prefix_false (v := cs) ?_
      rw [List.append_assoc, List.singleton_append]
      exact ht
    have hsuf := hasTriple_suffix_false ht
    rw [hasTriple_cons_of_ne hcn] at hsuf
    obtain ⟨ho, hn⟩ := ihA hsuf
    constructor
    · exact hasTriple_append_mid hcn hpre
        (by rw [hasTriple_cons_of_ne hcn]; exact ho)
    · rw [List.cons_append, nlHead_cons, hrec, List.cons_append, nlHead_cons]
      simp
  · intro hd
    rw [hrec] at hd
    have hpre : noDbl (('-' :: buf.reverse) ++ [c]) = true := by
      refine noDbl_prefix (v := cs) ?_
      rw [List.append_assoc, List.singleton_append]
      exact hd
    have hsuf := noDbl_suffix hd
    obtain ⟨hdo, hso⟩ := ihB (noDbl_tail hsuf)
    have h2 : noDbl (c :: out) = true := by
      rw [noDbl_cons_eq, Bool.and_eq_true_iff, hcst]
      refine ⟨by simp, hdo⟩
    constructor
    · exact noDbl_append_mid hpre h2
    · intro hs
      rw [List.cons_append, startsSt] at hs
      rw [hrec, List.cons_append, startsSt]
      exact hs
  · intro x hx
    rw [hrec]
    rcases List.mem_append.mp hx with h1 | h1
    · exact List.mem_append.mpr (Or.inl h1)
    · rcases List.mem_cons.mp h1 with h2 | h2
      · exact List.mem_append.mpr (Or.inr (h2 ▸ List.mem_cons_self _ _))
      · exact List.mem_append.mpr
          (Or.inr (List.mem_cons_of_mem _ (ihC x h2)))

theorem h4good_match {c : Char} {cs buf out : List Char}
    (hw : isWordChar c = true) (ih : H4Good cs out) :
    H4Good ('-' :: (buf.reverse ++ c :: cs)) (c :: out) := by
  obtain ⟨ihA, ihB, ihC⟩ := ih
  have hcn : c ≠ '\n' := isWordChar_ne_nl hw
  have hcst : isSpaceTab c = false := isWordChar_not_st hw
  have hrec : '-' :: (buf.reverse ++ c :: cs) =
      ('-' :: buf.reverse) ++ c :: cs := by simp
  refine ⟨?_, ?_, ?_⟩
  · intro ht
    rw [hrec] at ht
    have hsuf := hasTriple_suffix_false ht
    rw [hasTriple_cons_of_ne hcn] at hsuf
    obtain ⟨ho, _⟩ := ihA hsuf
    constructor
    · rw [hasTriple_cons_of_ne hcn]; exact ho
    · rw [nlHead_cons, hrec, List.cons_append, nlHead_cons]
      simp [hcn]
  · intro hd
    rw [hrec] at hd
    have hsuf := noDbl_suffix hd
    obtain ⟨hdo, _⟩ := ihB (noDbl_tail hsuf)
    constructor
    · rw [noDbl_cons_eq, Bool.and_eq_true_iff, hcst]
      exact ⟨by simp, hdo⟩
    · intro hs
      rw [startsSt, hcst] at hs
      cases hs
  · intro x hx
    rcases List.mem_cons.mp hx with h1 | h1
    · subst h1
      exact List.mem_cons_of_mem _
        (List.mem_append.mpr (Or.inr (List.mem_cons_self _ _)))
    · exact List.mem_cons_of_mem _
        (List.mem_append.mpr (Or.inr (List.mem_cons_of_mem _ (ihC x h1))))

theorem h4_main : ∀ (cs : List Char) (s : H4State),
    H4Good (h4recon s cs) (h4 s cs)
  | [], .base pw => ⟨fun h => ⟨h, Nat.le_refl _⟩, fun h => ⟨h, fun h1 => h1⟩,
      fun x hx => hx⟩
  | [], .w2 => ⟨fun h => ⟨h, Nat.le_refl _⟩, fun h => ⟨h, fun h1 => h1⟩,
      fun x hx => hx⟩
  | [], .afterHyphen buf nl => by
    show H4Good ('-' :: (buf.reverse ++ [])) ('-' :: buf.reverse)
    rw [List.append_nil]
    exact ⟨fun h => ⟨h, Nat.le_refl _⟩, fun h => ⟨h, fun h1 => h1⟩,
      fun x hx => hx⟩
  | c :: cs, .base pw => by
    rw [h4_base_cons]
    by_cases hw : isWordChar c = true
    · rw [if_pos hw]
      exact h4good_keep (h4_main cs (.base true))
    · rw [if_neg (by simp [hw])]
      by_cases hh : (c = '-' && pw) = true
      · rw [if_pos hh]
        have hc : c = '-' := by
          have := (Bool.and_eq_true_iff.mp hh).1
          exact decide_eq_true_eq.mp this
        subst hc
        have ih := h4_main cs (.afterHyphen [] false)
        show H4Good ('-' :: cs) (h4 (.afterHyphen [] false) cs)
        simpa [h4recon] using ih
      · rw [if_neg (by simp at hh ⊢; exact hh)]
        exact h4good_keep (h4_main cs (.base false))
  | c :: cs, .w2 => by
    rw [h4_w2_cons]
    by_cases hw : isWordChar c = true
    · rw [if_pos hw]
      exact h4good_keep (h4_main cs .w2)
    · rw [if_neg (by simp [hw])]
      exact h4good_keep (h4_main cs (.base false))
  | c :: cs, .afterHyphen buf nl => by
    rw [h4_after_cons]
    by_cases hws : isWsChar c = true
    · rw [if_pos hws]
      have ih := h4_main cs (.afterHyphen (c :: buf) (nl || c = '\n'))
      show H4Good ('-' :: (buf.reverse ++ c :: cs)) _
      have hrw : '-' :: ((c :: buf).reverse ++ cs) =
          '-' :: (buf.reverse ++ c :: cs) := by simp
      rw [← hrw]
      exact ih
    · rw [if_neg (by simp [hws])]
      have hwsf : isWsChar c = false := by simpa using hws
      by_cases hwn : (isWordChar c && nl) = true
      · rw [if_pos hwn]
        exact h4good_match (Bool.and_eq_true_iff.mp hwn).1
          (h4_main cs .w2)
      · rw [if_neg (by simp at hwn ⊢; tauto)]
        by_cases hw : isWordChar c = true
        · rw [if_pos hw]
          exact h4good_flush hwsf (h4_main cs (.base true))
        · rw [if_neg (by simp [hw])]
          exact h4good_flush hwsf (h4_main cs (.base false))

theorem h4_id : ∀ (cs : List Char) (pw : Bool), '-' ∉ cs →
    h4 (.base pw) cs = cs
  | [], _, _ => rfl
  | c :: cs, pw, h => by
    have hc : c ≠ '-' := fun hh => h (hh ▸ List.mem_cons_self _ _)
    have h' : '-' ∉ cs := fun hh => h (List.mem_cons_of_mem _ hh)
    rw [h4_base_cons]
    by_cases hw : isWordChar c = true
    · rw [if_pos hw, h4_id cs true h']
    · rw [if_neg (by simp [hw]), if_neg (by simp [hc]), h4_id cs false h']

/-! ### Stages 5 and 6: stripCtrl and jsTrim -/

theorem mem_stripCtrl {x : Char} {l : List Char} (h : x ∈ stripCtrl l) :
    x ∈ l ∧ isStrippedCtrl x = false := by
  have h1 := List.mem_filter.mp h
  exact ⟨h1.1, by simpa using h1.2⟩

theorem stripCtrl_id {l : List Char}
    (h : ∀ x ∈ l, isStrippedCtrl x = false) : stripCtrl l = l := by
  rw [stripCtrl, List.filter_eq_self]
  intro x hx
  simp [h x hx]

theorem dropWhile_head_not {p : Char → Bool} :
    ∀ {l c w}, List.dropWhile p l = c :: w → p c = false
  | [], c, w, h => by simp at h
  | a :: l, c, w, h => by
    by_cases ha : p a = true
    · rw [List.dropWhile_cons, if_pos ha] at h
      exact dropWhile_head_not h
    · rw [List.dropWhile_cons, if_neg ha] at h
      rw [← (List.cons.injEq .. |>.mp h).1]
      simpa using ha

theorem dropWhile_dropWhile (p : Char → Bool) (l : List Char) :
    List.dropWhile p (List.dropWhile p l) = List.dropWhile p l := by
  cases h : List.dropWhile p l with
  | nil => rfl
  | cons c w =>
    rw [List.dropWhile_cons, if_neg (by rw [dropWhile_head_not h]; simp)]

theorem jsTrim_decomp (l : List Char) :
    ∃ u v, l = u ++ jsTrim l ++ v := by
  refine ⟨List.takeWhile isWsChar l,
    (List.takeWhile isWsChar (List.dropWhile isWsChar l).reverse).reverse, ?_⟩
  conv_lhs => rw [← List.takeWhile_append_dropWhile (p := isWsChar) (l := l)]
  rw [List.append_assoc]
  congr 1
  conv_lhs => rw [show List.dropWhile isWsChar l =
    (List.dropWhile isWsChar l).reverse.reverse by rw [List.reverse_reverse]]
  conv_lhs => rw [← List.takeWhile_append_dropWhile (p := isWsChar)
    (l := (List.dropWhile isWsChar l).reverse)]
  rw [List.reverse_append]
  rfl

theorem mem_jsTrim {x : Char} {l : List Char} (h : x ∈ jsTrim l) : x ∈ l := by
  obtain ⟨u, v, hl⟩ := jsTrim_decomp l
  rw [hl]
  exact List.mem_append.mpr (Or.inl (List.mem_append.mpr (Or.inr h)))

theorem hasTriple_jsTrim {l : List Char} (h : hasTriple l = false) :
    hasTriple (jsTrim l) = false := by
  obtain ⟨u, v, hl⟩ := jsTrim_decomp l
  rw [hl] at h
  exact hasTriple_prefix_false (hasTriple_suffix_false (by rwa [← List.append_assoc]))

theorem noDbl_jsTrim {l : List Char} (h : noDbl l = true) :
    noDbl (jsTrim l) = true := by
  obtain ⟨u, v, hl⟩ := jsTrim_decomp l
  rw [hl] at h
  exact noDbl_prefix (noDbl_suffix (by rwa [← List.append_assoc]))

theorem jsTrim_idem (l : List Char) : jsTrim (jsTrim l) = jsTrim l := by
  have hdrop : List.dropWhile isWsChar (jsTrim l) = jsTrim l := by
    cases ht : jsTrim l with
    | nil => rfl
    | cons c w =>
      have hd : List.dropWhile isWsChar l =
          jsTrim l ++ (List.takeWhile isWsChar
            (List.dropWhile isWsChar l).reverse).reverse := by
        conv_lhs => rw [show List.dropWhile isWsChar l =
          (List.dropWhile isWsChar l).reverse.reverse by rw [List.reverse_reverse]]
        conv_lhs => rw [← List.takeWhile_append_dropWhile (p := isWsChar)
          (l := (List.dropWhile isWsChar l).reverse)]
        rw [List.reverse_append]
        rfl
      rw [ht] at hd
      have hc : isWsChar c = false := dropWhile_head_not (w := w ++ _) (by rw [hd]; rfl)
      rw [List.dropWhile_cons, if_neg (by rw [hc]; simp)]
  show ((List.dropWhile isWsChar (jsTrim l)).reverse.dropWhile isWsChar).reverse = _
  rw [hdrop]
  have h2 : (jsTrim l).reverse =
      List.dropWhile isWsChar (List.dropWhile isWsChar l).reverse := by
    simp only [jsTrim, List.reverse_reverse]
  rw [h2, dropWhile_dropWhile]
  rfl

/-! ### Resolving ASCII control characters -/

/-- Unicode Cc control characters (C0 plus DEL plus the C1 range). -/
def isCcCtrl (c : Char) : Bool :=
  c.toNat ≤ 0x1F || (0x7F ≤ c.toNat && c.toNat ≤ 0x9F)

theorem ctrl_resolve {x : Char} (h1 : isC0orDel x = true)
    (h2 : isStrippedCtrl x = false) (h3 : x ≠ '\u000D') (h4 : x ≠ '\t') :
    x = '\n' := by
  apply char_eq_of_toNat
  show x.toNat = 10
  have hn3 : x.toNat ≠ 13 := fun hh => h3 (char_eq_of_toNat hh)
  have hn4 : x.toNat ≠ 9 := fun hh => h4 (char_eq_of_toNat hh)
  rw [isC0orDel, Bool.or_eq_true_iff] at h1
  rw [isStrippedCtrl] at h2
  simp only [Bool.or_eq_false_iff, Bool.and_eq_false_iff, decide_eq_false_iff_not,
    decide_eq_true_eq, Nat.not_le] at h1 h2
  omega

theorem stripped_is_ctrl {x : Char} (h : isStrippedCtrl x = true) :
    isC0orDel x = true ∧ x ≠ '\n' ∧ x ≠ '\t' := by
  rw [isStrippedCtrl] at h
  simp only [Bool.or_eq_true_iff, Bool.and_eq_true_iff, decide_eq_true_eq] at h
  refine ⟨?_, ?_, ?_⟩
  · rw [isC0orDel, Bool.or_eq_true_iff]
    simp only [decide_eq_true_eq]
    omega
  · intro hh; rw [hh] at h; exact absurd h (by decide)
  · intro hh; rw [hh] at h; exact absurd h (by decide)

theorem cr_is_ctrl : isC0orDel '\u000D' = true := by decide

/-! ### Claims C5 and C6: the text normalizer -/

/-- C6 (amended).  For every input, the normalizer output contains no ASCII
control character (C0 or DEL) other than newline and tab; and when the input
contains none of the control characters of the stripped class, the output
contains no run of three or more newlines.  (The original claim fails: a
stripped control character sitting between two double newlines is removed
after newline collapsing, creating a four-newline run, and C1 controls such
as U+0085 are not control characters of the stripped class and survive.) -/
theorem C6_normalizer_output_clean (l : List Char) :
    (∀ x ∈ smartNormalizeText l, isC0orDel x = true → x = '\n' ∨ x = '\t') ∧
    ((∀ x ∈ l, isStrippedCtrl x = false) →
      hasTriple (smartNormalizeText l) = false) := by
  have hz1mem : ∀ x ∈ collapseSpaceTab false l, x ∈ l ∨ x = ' ' :=
    fun x hx => mem_collapseSpaceTab hx
  have hmain := h4_main (collapseNl (crToLf (crlfToLf (collapseSpaceTab false l))))
    (.base false)
  have hnorm : smartNormalizeText l =
      jsTrim (stripCtrl (h4 (.base false)
        (collapseNl (crToLf (crlfToLf (collapseSpaceTab false l)))))) := rfl
  constructor
  · intro x hx hctrl
    rw [hnorm] at hx
    have hx6 := mem_jsTrim hx
    obtain ⟨hx5, hnstrip⟩ := mem_stripCtrl hx6
    have hx4 := hmain.2.2 x hx5
    rcases mem_collapseNlAux hx4 with hx3 | hxeq
    · have hcr : x ≠ '\u000D' := fun hh =>
        noCr_crToLf (crlfToLf (collapseSpaceTab false l)) (hh ▸ hx3)
      have htab : x ≠ '\t' := by
        rintro rfl
        rcases mem_crToLf hx3 with h2 | h2
        · exact noTab_collapseSpaceTab l false (mem_crlfToLf h2)
        · exact absurd h2 (by decide)
      exact Or.inl (ctrl_resolve hctrl hnstrip hcr htab)
    · exact Or.inl hxeq
  · intro hno
    have hno4 : ∀ x ∈ collapseNl (crToLf (crlfToLf (collapseSpaceTab false l))),
        isStrippedCtrl x = false := by
      intro x hx
      rcases mem_collapseNlAux hx with h1 | h1
      · rcases mem_crToLf h1 with h2 | h2
        · rcases hz1mem x (mem_crlfToLf h2) with h3 | h3
          · exact hno x h3
          · rw [h3]; decide
        · rw [h2]; decide
      · rw [h1]; decide
    have hno5 : ∀ x ∈ h4 (.base false)
        (collapseNl (crToLf (crlfToLf (collapseSpaceTab false l)))),
        isStrippedCtrl x = false := fun x hx => hno4 x (hmain.2.2 x hx)
    have hT4 : hasTriple (collapseNl (crToLf (crlfToLf
        (collapseSpaceTab false l)))) = false :=
      (collapseNlAux_bounds (crToLf (crlfToLf (collapseSpaceTab false l))) 0).1
    have hT5 := (hmain.1 hT4).1
    rw [hnorm, stripCtrl_id hno5]
    exact hasTriple_jsTrim hT5

/-- C6 counterexample.  On the input `a\n\n\u0001\n\n\u0085b` the
normalizer output contains a run of four newlines (the stripped control
character was removed only after newline collapsing) and still contains the
C1 control character U+0085, so the claim as stated is false. -/
theorem C6_normalizer_claim_false :
    ¬ (hasTriple (smartNormalizeText ("a\n\n\u0001\n\n\u0085b".toList)) = false ∧
       ∀ x ∈ smartNormalizeText ("a\n\n\u0001\n\n\u0085b".toList),
         isCcCtrl x = true → x = '\n' ∨ x = '\t') := by
  decide

/-- Witness for C6 at a concrete clean input. -/
theorem C6_clean_witness :
    (∀ x ∈ smartNormalizeText ("ok\n\n\n text".toList),
      isC0orDel x = true → x = '\n' ∨ x = '\t') ∧
    hasTriple (smartNormalizeText ("ok\n\n\n text".toList)) = false :=
  ⟨(C6_normalizer_output_clean _).1,
   (C6_normalizer_output_clean _).2 (by decide)⟩

/-- C5 (amended).  The normalizer is idempotent on inputs that contain no
ASCII control characters other than newline and tab, and no hyphen-minus.
(The original claim fails: removing a stripped control character can merge
two whitespace runs only after the space-collapsing pass has run, and a
chain of hyphenated line breaks is only partially rejoined per pass.) -/
theorem C5_normalizer_idempotent_on_clean (l : List Char)
    (hctrl : ∀ x ∈ l, isC0orDel x = true → x = '\n' ∨ x = '\t')
    (hhyp : '-' ∉ l) :
    smartNormalizeText (smartNormalizeText l) = smartNormalizeText l := by
  have hnos : ∀ x ∈ l, isStrippedCtrl x = false := by
    intro x hx
    cases hsx : isStrippedCtrl x with
    | false => rfl
    | true =>
      obtain ⟨h1, h2, h3⟩ := stripped_is_ctrl hsx
      rcases hctrl x hx h1 with h4 | h4
      · exact absurd h4 h2
      · exact absurd h4 h3
  have hnor : '\u000D' ∉ l := by
    intro hx
    rcases hctrl _ hx cr_is_ctrl with h1 | h1 <;> exact absurd h1 (by decide)
  have hz1mem : ∀ x ∈ collapseSpaceTab false l, x ∈ l ∨ x = ' ' :=
    fun x hx => mem_collapseSpaceTab hx
  have hnorz1 : '\u000D' ∉ collapseSpaceTab false l := by
    intro hx
    rcases hz1mem _ hx with h1 | h1
    · exact hnor h1
    · exact absurd h1 (by decide)
  have h2eq : crlfToLf (collapseSpaceTab false l) = collapseSpaceTab false l :=
    crlfToLf_id hnorz1
  have h3eq : crToLf (collapseSpaceTab false l) = collapseSpaceTab false l :=
    crToLf_id hnorz1
  have hz4mem : ∀ x ∈ collapseNl (collapseSpaceTab false l),
      x ∈ l ∨ x = ' ' ∨ x = '\n' := by
    intro x hx
    rcases mem_collapseNlAux hx with h1 | h1
    · rcases hz1mem x h1 with h2 | h2
      · exact Or.inl h2
      · exact Or.inr (Or.inl h2)
    · exact Or.inr (Or.inr h1)
  have hnoh4 : '-' ∉ collapseNl (collapseSpaceTab false l) := by
    intro hx
    rcases hz4mem _ hx with h1 | h1 | h1
    · exact hhyp h1
    · exact absurd h1 (by decide)
    · exact absurd h1 (by decide)
  have h5eq : fixHyphenBreaks (collapseNl (collapseSpaceTab false l)) =
      collapseNl (collapseSpaceTab false l) :=
    h4_id _ false hnoh4
  have hno6 : ∀ x ∈ collapseNl (collapseSpaceTab false l),
      isStrippedCtrl x = false := by
    intro x hx
    rcases hz4mem _ hx with h1 | h1 | h1
    · exact hnos x h1
    · rw [h1]; decide
    · rw [h1]; decide
  have h6eq : stripCtrl (collapseNl (collapseSpaceTab false l)) =
      collapseNl (collapseSpaceTab false l) :=
    stripCtrl_id hno6
  have hy : smartNormalizeText l = jsTrim (collapseNl (collapseSpaceTab false l)) := by
    rw [smartNormalizeText, h2eq, h3eq, h5eq, h6eq]
  -- facts about y
  have hnd1 : noDbl (collapseSpaceTab false l) = true := noDbl_collapseSpaceTab l false
  have hnd4 : noDbl (collapseNl (collapseSpaceTab false l)) = true :=
    (noDbl_collapseNlAux (collapseSpaceTab false l) 0 hnd1).1
  have hndy : noDbl (smartNormalizeText l) = true := by
    rw [hy]; exact noDbl_jsTrim hnd4
  have hTy : hasTriple (smartNormalizeText l) = false := by
    rw [hy]
    exact hasTriple_jsTrim (collapseNlAux_bounds (collapseSpaceTab false l) 0).1
  have hymem : ∀ x ∈ smartNormalizeText l, x ∈ l ∨ x = ' ' ∨ x = '\n' := by
    intro x hx
    rw [hy] at hx
    exact hz4mem x (mem_jsTrim hx)
  have htaby : '\t' ∉ smartNormalizeText l := by
    intro hx
    rw [hy] at hx
    rcases mem_collapseNlAux (mem_jsTrim hx) with h1 | h1
    · exact noTab_collapseSpaceTab l false h1
    · exact absurd h1 (by decide)
  have hcry : '\u000D' ∉ smartNormalizeText l := by
    intro hx
    rcases hymem _ hx with h1 | h1 | h1
    · exact hnor h1
    · exact absurd h1 (by decide)
    · exact absurd h1 (by decide)
  have hhy : '-' ∉ smartNormalizeText l := by
    intro hx
    rcases hymem _ hx with h1 | h1 | h1
    · exact hhyp h1
    · exact absurd h1 (by decide)
    · exact absurd h1 (by decide)
  have hnosy : ∀ x ∈ smartNormalizeText l, isStrippedCtrl x = false := by
    intro x hx
    rcases hymem _ hx with h1 | h1 | h1
    · exact hnos x h1
    · rw [h1]; decide
    · rw [h1]; decide
  -- now the second pass is the identity
  have e1 : collapseSpaceTab false (smartNormalizeText l) = smartNormalizeText l :=
    (collapseSpaceTab_id _ hndy htaby).1
  have e2 : crlfToLf (smartNormalizeText l) = smartNormalizeText l :=
    crlfToLf_id hcry
  have e3 : crToLf (smartNormalizeText l) = smartNormalizeText l :=
    crToLf_id hcry
  have e4 : collapseNl (smartNormalizeText l) = smartNormalizeText l := by
    have := collapseNlAux_id (smartNormalizeText l) 0 (by omega) (by simpa using hTy)
    simpa [collapseNl] using this
  have e5 : fixHyphenBreaks (smartNormalizeText l) = smartNormalizeText l :=
    h4_id _ false hhy
  have e6 : stripCtrl (smartNormalizeText l) = smartNormalizeText l :=
    stripCtrl_id hnosy
  have e7 : jsTrim (smartNormalizeText l) = smartNormalizeText l := by
    rw [hy]; exact jsTrim_idem _
  calc smartNormalizeText (smartNormalizeText l)
      = jsTrim (stripCtrl (fixHyphenBreaks (collapseNl (crToLf (crlfToLf
          (collapseSpaceTab false (smartNormalizeText l))))))) := rfl
    _ = smartNormalizeText l := by rw [e1, e2, e3, e4, e5, e6, e7]

/-- C5 counterexample.  `a \u0001 b` normalizes to `a  b` (two spaces: the
control character is removed after space collapsing), and a second pass
collapses them to one, so the normalizer is not idempotent. -/
theorem C5_normalizer_not_idempotent :
    smartNormalizeText (smartNormalizeText ("a \u0001 b".toList)) ≠
      smartNormalizeText ("a \u0001 b".toList) := by
  decide

/-- Witness for C5 at a concrete clean input. -/
theorem C5_idempotent_witness :
    smartNormalizeText (smartNormalizeText ("some text\n\n\nnext line".toList)) =
      smartNormalizeText ("some text\n\n\nnext line".toList) :=
  C5_normalizer_idempotent_on_clean _ (by decide) (by decide)

/-! ### Data model of `text-extract.ts` / `chunking.ts` -/

/-- Section classification of `ExtractedContent.sections[].type`. -/
inductive SectionType : Type
  | heading | paragraph | listType | table | unknown
deriving DecidableEq

/-- Quality level of `ExtractedContent.metadata.quality`. -/
inductive Quality : Type
  | high | medium | low
deriving DecidableEq

/-- One entry of `ExtractedContent.sections`.  `confidence` (a JS float in
[0,1] built from multiples of 0.05) is modelled in exact hundredths. -/
structure DocSection : Type where
  title : Option (List Char)
  content : List Char
  stype : SectionType
  confidence : Int
deriving DecidableEq

/-- `ExtractedContent.metadata`. -/
structure ContentMetadata : Type where
  wordCount : Nat
  pageCount : Option Nat
  hasImages : Bool
  hasStructure : Bool
  language : Option (List Char)
  quality : Quality
  warnings : List (List Char)
deriving DecidableEq

/-- `ExtractedContent` of `src/lib/text-extract.ts`. -/
structure ExtractedContent : Type where
  text : List Char
  metadata : ContentMetadata
  sections : List DocSection
deriving DecidableEq

/-- `ContentChunk.metadata.type`. -/
inductive ChunkType : Type
  | heading | paragraph | listType | table | mixed
deriving DecidableEq

/-- `ContentChunk.metadata`; `importance` (JS float in [0,1], always a
multiple of 0.05) is modelled in exact hundredths. -/
structure ChunkMetadata : Type where
  tokenCount : Nat
  wordCount : Nat
  ctype : ChunkType
  importance : Int
  topics : List (List Char)
  context : Option (List Char)
deriving DecidableEq

/-- `ContentChunk` of `src/lib/chunking.ts`. -/
structure ContentChunk : Type where
  id : List Char
  content : List Char
  metadata : ChunkMetadata
  sourceSection : Option DocSection
deriving DecidableEq

/-- `ChunkingOptions` (all fields optional at the call site). -/
structure ChunkingOptions : Type where
  targetTokens : Option Nat
  maxTokens : Option Nat
  minTokens : Option Nat
  overlapTokens : Option Nat
  preserveStructure : Option Bool
  prioritizeImportant : Option Bool
deriving DecidableEq

/-- The fully populated options after `{ ...DEFAULT_OPTIONS, ...options }`. -/
structure ResolvedOptions : Type where
  targetTokens : Nat
  maxTokens : Nat
  minTokens : Nat
  overlapTokens : Nat
  preserveStructure : Bool
  prioritizeImportant : Bool
deriving DecidableEq

/-- `DEFAULT_OPTIONS` of `chunking.ts` merged with the caller's options. -/
def resolveOptions (o : ChunkingOptions) : ResolvedOptions where
  targetTokens := o.targetTokens.getD 1500
  maxTokens := o.maxTokens.getD 2000
  minTokens := o.minTokens.getD 300
  overlapTokens := o.overlapTokens.getD 150
  preserveStructure := o.preserveStructure.getD true
  prioritizeImportant := o.prioritizeImportant.getD true

/-! ### Splitters used by the chunker -/

/-- Sentence-ending punctuation of the lookbehind `(?<=[.!?])`. -/
def isSentEnd (c : Char) : Bool := c = '.' || c = '!' || c = '?'

/-- Splitter for `text.split(/(?<=[.!?])\s+/)`: a maximal whitespace run
whose first character directly follows `.`, `!` or `?` is a split point and
is consumed.  `skip` is true while consuming such a run; `acc` is the
current piece reversed; `prev` is the previous character. -/
def sentGo : Bool → List Char → Option Char → List Char → List (List Char)
  | _, acc, _, [] => [acc.reverse]
  | true, acc, prev, c :: cs =>
    if isWsChar c then sentGo true acc prev cs
    else sentGo false [c] (some c) cs
  | false, acc, prev, c :: cs =>
    if isWsChar c && (match prev with | some p => isSentEnd p | none => false) then
      acc.reverse :: sentGo true [] none cs
    else sentGo false (c :: acc) (some c) cs

/-- `text.split(/(?<=[.!?])\s+/)` (no filtering). -/
def sentSplit (l : List Char) : List (List Char) := sentGo false [] none l

/-- Splitter for `text.split(/\n\s*\n/)` (fuel-based scanner): a maximal
whitespace run containing at least two newlines is cut from its first to its
last newline. -/
def paraSplitGo : Nat → List Char → List Char → List (List Char)
  | 0, acc, rest => [acc.reverse ++ rest]
  | _ + 1, acc, [] => [acc.reverse]
  | fuel + 1, acc, c :: cs =>
    if c = '\n' then
      let run := List.takeWhile isWsChar (c :: cs)
      if 2 ≤ run.countP (fun x => x = '\n') then
        let trailing := run.reverse.takeWhile (fun x => !(x = '\n'))
        acc.reverse ::
          paraSplitGo fuel [] (List.drop (run.length - trailing.length) (c :: cs))
      else paraSplitGo fuel (c :: acc) cs
    else paraSplitGo fuel (c :: acc) cs

/-- `text.split(/\n\s*\n/)`. -/
def paraSplit (l : List Char) : List (List Char) :=
  paraSplitGo (l.length + 1) [] l

/-- Splitter for `content.split(/[.!?]+/)`: split on maximal runs of
sentence-ending punctuation. -/
def punctRunGo : Bool → List Char → List Char → List (List Char)
  | _, acc, [] => [acc.reverse]
  | inRun, acc, c :: cs =>
    if isSentEnd c then
      if inRun then punctRunGo true acc cs
      else acc.reverse :: punctRunGo true [] cs
    else punctRunGo false (c :: acc) cs

/-- `content.split(/[.!?]+/)`. -/
def punctSplit (l : List Char) : List (List Char) := punctRunGo false [] l

/-- Number of maximal whitespace runs (used for the unfiltered
`content.split(/\s+/).length`, which is that count plus one). -/
def wsRunsAux (prev : Bool) : List Char → Nat
  | [] => 0
  | c :: cs => (if isWsChar c && !prev then 1 else 0) + wsRunsAux (isWsChar c) cs

/-- `content.split(/\s+/).length` including empty pieces. -/
def splitWsLen (l : List Char) : Nat := wsRunsAux true l + 1

/-- Pieces of `text.split(/\s+/)` without the empty ones (the maximal
non-whitespace runs, in order). -/
def wsPiecesGo : Bool → List Char → List Char → List (List Char)
  | inWord, acc, [] => if inWord then [acc.reverse] else []
  | inWord, acc, c :: cs =>
    if isWsChar c then
      (if inWord then [acc.reverse] else []) ++ wsPiecesGo false [] cs
    else wsPiecesGo true (c :: acc) cs

/-- The non-empty pieces of `text.split(/\s+/)`. -/
def wsPieces (l : List Char) : List (List Char) := wsPiecesGo false [] l

/-- Join a list of strings with a separator (JS `Array.prototype.join`). -/
def joinSep (sep : List Char) : List (List Char) → List Char
  | [] => []
  | [x] => x
  | x :: y :: xs => x ++ sep ++ joinSep sep (y :: xs)

/-- JS `parseInt` on a digit string segment: the value of the leading digit
run, or none (NaN) when there is no leading digit. -/
def parseIntLeading (l : List Char) : Option Nat :=
  match l.takeWhile isDigitChar with
  | [] => none
  | ds => some (ds.foldl (fun a c => 10 * a + (c.toNat - 48)) 0)

/-- `parseInt(chunk.id.split('-')[1] || '0')` of `selectOptimalChunks`. -/
def chunkNumId (id : List Char) : Option Nat :=
  let seg := (id.splitOn '-').getD 1 []
  parseIntLeading (if seg = [] then ['0'] else seg)

/-! ### Topic extraction (`extractTopics`) -/

/-- The stop-word set of `isStopWord`. -/
def stopWords : List (List Char) :=
  ["the", "and", "that", "have", "for", "not", "with", "you", "this", "but",
   "his", "from", "they", "she", "her", "been", "than", "its", "now", "find",
   "are", "was", "were", "what", "when", "where", "who", "how", "why", "could",
   "should", "would", "will", "can", "may", "might", "must", "shall", "does",
   "did", "has", "had", "having", "being", "very", "more", "most", "other",
   "such", "some", "any", "each", "every", "all", "both", "few", "many"
  ].map String.toList

/-- `isStopWord` of `chunking.ts`. -/
def isStopWord (w : List Char) : Bool := stopWords.contains w

/-- Word-frequency tally in first-occurrence order (JS `Map` iteration
order). -/
def tallyGo : List (List Char × Nat) → List (List Char) → List (List Char × Nat)
  | acc, [] => acc
  | acc, w :: ws =>
    if acc.any (fun e => e.1 = w) then
      tallyGo (acc.map (fun e => if e.1 = w then (e.1, e.2 + 1) else e)) ws
    else tallyGo (acc ++ [(w, 1)]) ws

/-- ASCII upper-case letter (the class `[A-Z]`). -/
def isUpperAZ (c : Char) : Bool := 'A' ≤ c && c ≤ 'Z'

/-- ASCII lower-case letter (the class `[a-z]`). -/
def isLowerAZ (c : Char) : Bool := 'a' ≤ c && c ≤ 'z'

/-- Greedy repetitions of `(?:\s[A-Z][a-z]+)*` with the trailing `\b`
checked per accepted repetition (equivalent to the regex backtracking). -/
def entRep : Nat → List Char → List Char → List Char × List Char
  | 0, cur, rest => (cur, rest)
  | fuel + 1, cur, rest =>
    match rest with
    | sp :: u :: tl =>
      if isWsChar sp && isUpperAZ u then
        let low := tl.takeWhile isLowerAZ
        if !low.isEmpty && (match (tl.drop low.length).head? with
            | some nxt => !isWordChar nxt
            | none => true) then
          entRep fuel (cur ++ sp :: u :: low) (tl.drop low.length)
        else (cur, rest)
      else (cur, rest)
    | _ => (cur, rest)

/-- Scanner for `text.match(/\b[A-Z][a-z]+(?:\s[A-Z][a-z]+)*\b/g)`:
`prevWord` tracks whether the previous character is a word character (the
`\b` assertion before the first capital). -/
def entScan : Nat → Bool → List Char → List (List Char)
  | 0, _, _ => []
  | _ + 1, _, [] => []
  | fuel + 1, prevWord, c :: cs =>
    if !prevWord && isUpperAZ c then
      let low := cs.takeWhile isLowerAZ
      if !low.isEmpty && (match (cs.drop low.length).head? with
          | some nxt => !isWordChar nxt
          | none => true) then
        let r := entRep fuel (c :: low) (cs.drop low.length)
        r.1 :: entScan fuel true r.2
      else entScan fuel (isWordChar c) cs
    else entScan fuel (isWordChar c) cs

/-- Deduplication keeping first occurrences (JS `[...new Set(xs)]`). -/
def dedupSeen : List (List Char) → List (List Char) → List (List Char)
  | _, [] => []
  | seen, x :: xs =>
    if seen.contains x then dedupSeen seen xs
    else x :: dedupSeen (x :: seen) xs

/-- JS `[...new Set(xs)]`. -/
def dedupKeepFirst (l : List (List Char)) : List (List Char) := dedupSeen [] l

/-- `extractTopics` of `chunking.ts`. -/
def extractTopics (text : List Char) : List (List Char) :=
  let words := (wsPieces ((text.map Char.toLower).map (fun c =>
      if !(isWordChar c || isWsChar c) then ' ' else c))).filter
      (fun w => 3 < w.length)
  let wordFreq := tallyGo [] words
  let sortedWords := ((List.insertionSort
      (fun a b : List Char × Nat => b.2 ≤ a.2)
      (wordFreq.filter (fun e => 1 < e.2 && !isStopWord e.1))).take 5).map
      (fun e => e.1)
  let entities := entScan (text.length + 1) false text
  let uniqueEntities := ((dedupKeepFirst entities).filter
      (fun e => 3 < e.length && e.length < 30)).take 3
  (dedupKeepFirst (sortedWords ++ uniqueEntities)).take 8

/-! ### Importance, chunk type, chunk construction -/

/-- `calculateImportance` of `chunking.ts`, in exact hundredths. -/
def calculateImportance (content : List Char) (topics : List (List Char))
    (src : Option DocSection) : Int :=
  let imp : Int := 50
  let imp := imp + (match src with
    | some sec => if sec.stype = SectionType.heading then 30 else 0
    | none => 0)
  let imp := imp + (match src with
    | some sec => if 80 < sec.confidence then 20 else 0
    | none => 0)
  let imp := imp + min ((topics.length : Int) * 5) 20
  let sentences := (punctSplit content).filter (fun s => 10 < (jsTrim s).length)
  let imp := if 3 ≤ sentences.length then imp + 10 else imp
  let wc := splitWsLen content
  let imp := if 50 ≤ wc ∧ wc ≤ 500 then imp + 10 else imp
  let imp := if wc < 20 then imp - 30 else imp
  max 0 (min 100 imp)

/-- Substring test (JS `String.prototype.includes` for a list pattern). -/
def containsSeq (pat : List Char) : List Char → Bool
  | [] => pat.isEmpty
  | c :: cs => List.isPrefixOf pat (c :: cs) || containsSeq pat cs

/-- The mojibake bullet `â€¢` looked for by `determineChunkType`. -/
def mojibakeBullet : List Char := ['â', '€', '¢']

/-- The test `/^\s*\d+\./.test(content)`. -/
def startsNumberDot (l : List Char) : Bool :=
  let r := l.dropWhile isWsChar
  let d := r.takeWhile isDigitChar
  !d.isEmpty && ((r.drop d.length).head? = some '.')

/-- `determineChunkType` of `chunking.ts`. -/
def determineChunkType (content : List Char) (src : Option DocSection) :
    ChunkType :=
  match src with
  | some sec =>
    match sec.stype with
    | SectionType.unknown => ChunkType.paragraph
    | SectionType.heading => ChunkType.heading
    | SectionType.paragraph => ChunkType.paragraph
    | SectionType.listType => ChunkType.listType
    | SectionType.table => ChunkType.table
  | none =>
    if content.length < 100 && !content.contains '.' then ChunkType.heading
    else if containsSeq mojibakeBullet content || startsNumberDot content then
      ChunkType.listType
    else if content.contains '|' || content.contains '\t' then ChunkType.table
    else ChunkType.paragraph

/-- `createChunkFromContent` of `chunking.ts`. -/
def createChunkFromContent (content : List Char) (index : Nat)
    (context : Option (List Char)) (src : Option DocSection) : ContentChunk :=
  { id := "chunk-".toList ++ Nat.toDigits 10 index
    content := content
    metadata :=
      { tokenCount := estimateTokens content
        wordCount := countWords content
        ctype := determineChunkType content src
        importance := calculateImportance content (extractTopics content) src
        topics := extractTopics content
        context := context }
    sourceSection := src }

/-! ### Overlap construction (`createOverlap`) -/

/-- Inner loop of `createOverlap`: walk sentences of the oversized last item
backwards, prepending the ones that fit. -/
def overlapSent (budget : Nat) : List (List Char) → List Char → Nat → List Char
  | [], ovl, _ => ovl
  | s :: rest, ovl, tokens =>
    if budget ≤ tokens then ovl
    else if tokens + estimateTokens s ≤ budget then
      overlapSent budget rest
        (s ++ (if ovl.isEmpty then [] else ' ' :: ovl))
        (tokens + estimateTokens s)
    else overlapSent budget rest ovl tokens

/-- Outer loop of `createOverlap`: walk the flushed buffer backwards,
prepending whole items that fit; on the first item that does not fit, take
its trailing sentences and stop. -/
def overlapGo (budget : Nat) : List (List Char) → List Char → Nat → List Char
  | [], ovl, _ => ovl
  | item :: rest, ovl, tokens =>
    if budget ≤ tokens then ovl
    else if tokens + estimateTokens item ≤ budget then
      overlapGo budget rest
        (item ++ (if ovl.isEmpty then [] else '\n' :: '\n' :: ovl))
        (tokens + estimateTokens item)
    else overlapSent budget (sentSplit item).reverse ovl tokens

/-- `createOverlap` of `chunking.ts`. -/
def createOverlap (chunks : List (List Char)) (budget : Nat) : List Char :=
  if chunks.isEmpty then [] else overlapGo budget chunks.reverse [] 0

/-! ### The three chunking strategies -/

/-- The separator `'\n\n'` used when joining buffered sections. -/
def nl2 : List Char := ['\n', '\n']

/-- The separator `' '` used when joining buffered sentences. -/
def sp1 : List Char := [' ']

/-- Loop of `splitLargeSection`: accumulate sentences under the target
budget, flushing with a two-sentence trailing overlap. -/
def slsLoop (sec : DocSection) (o : ResolvedOptions) (startIndex : Nat)
    (ctx : List Char) :
    List (List Char) → List (List Char) → Nat → Nat → List ContentChunk
  | [], buf, _, count =>
    if 0 < buf.length then
      [createChunkFromContent (joinSep sp1 buf) (startIndex + count)
        (some ctx) (some sec)]
    else []
  | s :: rest, buf, tokens, count =>
    if o.targetTokens < tokens + estimateTokens s ∧ 0 < buf.length then
      let flushed := createChunkFromContent (joinSep sp1 buf)
        (startIndex + count) (some ctx) (some sec)
      let buf' := List.drop (buf.length - 2) buf
      flushed :: slsLoop sec o startIndex ctx rest (buf' ++ [s])
        (estimateTokens (joinSep sp1 buf') + estimateTokens s) (count + 1)
    else
      slsLoop sec o startIndex ctx rest (buf ++ [s])
        (tokens + estimateTokens s) count

/-- `splitLargeSection` of `chunking.ts`. -/
def splitLargeSection (sec : DocSection) (o : ResolvedOptions)
    (startIndex : Nat) (ctx : List Char) : List ContentChunk :=
  slsLoop sec o startIndex ctx
    ((sentSplit sec.content).filter (fun s => 0 < (jsTrim s).length)) [] 0 0

/-- Context update at the top of the structure-aware loop: a heading section
with a truthy (non-empty) title becomes the current context. -/
def updateCtx (ctx : List Char) (sec : DocSection) : List Char :=
  match sec.title with
  | some t => if sec.stype = SectionType.heading ∧ ¬t.isEmpty then t else ctx
  | none => ctx

/-- Loop of `structureAwareChunking`: accumulate sections under the target
budget, sub-splitting oversized sections and carrying an overlap seed. -/
def saLoop (o : ResolvedOptions) :
    List DocSection → List (List Char) → Nat → List Char → Nat →
    List ContentChunk
  | [], buf, _, ctx, idx =>
    if 0 < buf.length then
      [createChunkFromContent (joinSep nl2 buf) idx (some ctx) none]
    else []
  | sec :: rest, buf, tokens, ctx, idx =>
    let ctx' := updateCtx ctx sec
    let sectionTokens := estimateTokens sec.content
    if o.maxTokens < sectionTokens then
      let flushed :=
        if 0 < buf.length then
          [createChunkFromContent (joinSep nl2 buf) idx (some ctx') (some sec)]
        else []
      let idx2 := if 0 < buf.length then idx + 1 else idx
      let lsChunks := splitLargeSection sec o idx2 ctx'
      flushed ++ lsChunks ++ saLoop o rest [] 0 ctx' (idx2 + lsChunks.length)
    else
      if o.targetTokens < tokens + sectionTokens ∧ 0 < buf.length then
        let flushed := createChunkFromContent (joinSep nl2 buf) idx
          (some ctx') (some sec)
        let ovl := createOverlap buf o.overlapTokens
        let buf' := if 0 < ovl.length then [ovl] else []
        let tok' := if 0 < ovl.length then estimateTokens ovl else 0
        flushed :: saLoop o rest (buf' ++ [sec.content])
          (tok' + sectionTokens) ctx' (idx + 1)
      else
        saLoop o rest (buf ++ [sec.content]) (tokens + sectionTokens) ctx' idx

/-- `rankAndOptimizeChunks` of `chunking.ts`: optional stable sort by
importance, noise filter, cap at 25 chunks. -/
def rankAndOptimizeChunks (chunks : List ContentChunk) (o : ResolvedOptions) :
    List ContentChunk :=
  let sorted :=
    if o.prioritizeImportant then
      List.insertionSort
        (fun a b => b.metadata.importance ≤ a.metadata.importance) chunks
    else chunks
  let meaningful := sorted.filter (fun c =>
    5 ≤ c.metadata.wordCount && 20 ≤ (jsTrim c.content).length)
  if 25 < meaningful.length then meaningful.take 25 else meaningful

/-- `structureAwareChunking` of `chunking.ts`. -/
def structureAwareChunking (content : ExtractedContent) (o : ResolvedOptions) :
    List ContentChunk :=
  rankAndOptimizeChunks (saLoop o content.sections [] 0 [] 0) o

/-- Loop of `semanticChunking`: accumulate refined paragraphs under the
target budget with an overlap seed. -/
def semLoop (o : ResolvedOptions) :
    List (List Char) → List (List Char) → Nat → Nat → List ContentChunk
  | [], buf, _, idx =>
    if 0 < buf.length then
      [createChunkFromContent (joinSep nl2 buf) idx none none]
    else []
  | p :: rest, buf, tokens, idx =>
    if o.targetTokens < tokens + estimateTokens p ∧ 0 < buf.length then
      let flushed := createChunkFromContent (joinSep nl2 buf) idx none none
      let ovl := createOverlap buf o.overlapTokens
      let buf' := if 0 < ovl.length then [ovl] else []
      let tok' := if 0 < ovl.length then estimateTokens ovl else 0
      flushed :: semLoop o rest (buf' ++ [p]) (tok' + estimateTokens p) (idx + 1)
    else
      semLoop o rest (buf ++ [p]) (tokens + estimateTokens p) idx

/-- `semanticChunking` of `chunking.ts`. -/
def semanticChunking (text : List Char) (o : ResolvedOptions) :
    List ContentChunk :=
  let paragraphs := (paraSplit text).filter (fun p => 0 < (jsTrim p).length)
  let refined := paragraphs.foldr (fun p acc =>
    (if o.maxTokens < estimateTokens p then
      (sentSplit p).filter (fun s => 10 < (jsTrim s).length)
    else [p]) ++ acc) []
  rankAndOptimizeChunks (semLoop o refined [] 0 0) o

/-- `intelligentChunking` of `chunking.ts`. -/
def intelligentChunking (content : ExtractedContent)
    (options : ChunkingOptions) : List ContentChunk :=
  let opts := resolveOptions options
  let totalTokens := estimateTokens content.text
  if totalTokens ≤ opts.targetTokens then
    [{ id := "chunk-0".toList
       content := content.text
       metadata :=
         { tokenCount := totalTokens
           wordCount := content.metadata.wordCount
           ctype := ChunkType.mixed
           importance := 100
           topics := extractTopics content.text
           context := none }
       sourceSection := none }]
  else if opts.preserveStructure && 0 < content.sections.length then
    structureAwareChunking content opts
  else
    semanticChunking content.text opts

/-! ### The chunk selector and the generator guard (`generate.ts`) -/

/-- `GenerationParams.difficulty`. -/
inductive Difficulty : Type
  | easy | medium | hard
deriving DecidableEq

/-- The question types of `GenerationParamsSchema`. -/
inductive QType : Type
  | mcq | trueFalse
deriving DecidableEq

/-- Validated `GenerationParams`. -/
structure GenerationParams : Type where
  numQuestions : Nat
  difficulty : Difficulty
  language : String
  questionTypes : List QType
  quizName : Option String
deriving DecidableEq

/-- Stable sort of chunks into document order by the numeric suffix of
their ids (`parseInt(id.split('-')[1] || '0')`). -/
def sortByNumId (chunks : List ContentChunk) : List ContentChunk :=
  List.insertionSort
    (fun a b => (chunkNumId a.id).getD 0 ≤ (chunkNumId b.id).getD 0) chunks

/-- `maxAllowedTokens` of `selectOptimalChunks`. -/
def maxAllowedTokens : Nat := 15000

/-- Greedy acceptance loop of `selectOptimalChunks` (skips chunks that do
not fit, keeps accumulating). -/
def selectGreedy : List ContentChunk → Nat → List ContentChunk
  | [], _ => []
  | c :: rest, current =>
    if current + c.metadata.tokenCount ≤ maxAllowedTokens then
      c :: selectGreedy rest (current + c.metadata.tokenCount)
    else selectGreedy rest current

/-- `selectOptimalChunks` of `src/lib/quiz/generate.ts`. -/
def selectOptimalChunks (chunks : List ContentChunk)
    (_params : GenerationParams) : List ContentChunk :=
  let sortedChunks := sortByNumId chunks
  let totalTokens := (sortedChunks.map (fun c => c.metadata.tokenCount)).sum
  if totalTokens ≤ maxAllowedTokens then sortedChunks
  else
    let importanceSorted := List.insertionSort
      (fun a b => b.metadata.importance ≤ a.metadata.importance) chunks
    sortByNumId (selectGreedy importanceSorted 0)

/-- Error kinds surfaced by the generator core. -/
inductive GenError : Type
  | contentTooLimited
  | noContent
  | malformedResponse
  | repairThrew (msg : String)
  | schemaValidationFailed
deriving DecidableEq

/-- The chunking options passed by `generateQuizFromExtractedContent`. -/
def generationChunkOptions : ChunkingOptions :=
  { targetTokens := some 2500
    maxTokens := some 3500
    minTokens := none
    overlapTokens := none
    preserveStructure := some true
    prioritizeImportant := some false }

/-- The stages of `generateQuizFromExtractedContent` before the model call:
the quality precondition, chunking, the zero-chunk check and chunk
selection, in the order of the source. -/
def generatePreModel (content : ExtractedContent) (params : GenerationParams) :
    Except GenError (List ContentChunk) :=
  if content.metadata.quality = Quality.low ∧ content.metadata.wordCount < 200
  then Except.error GenError.contentTooLimited
  else
    let chunks := intelligentChunking content generationChunkOptions
    if chunks.length = 0 then Except.error GenError.noContent
    else Except.ok (selectOptimalChunks chunks params)

/-! ### Subadditivity of the token estimate over whitespace joins -/

/-- Classification of the last character of `a` (falling back to `p`). -/
def lastFlag (f : Char → Bool) (p : Bool) (a : List Char) : Bool :=
  match a.getLast? with
  | some c => f c
  | none => p

theorem lastFlag_cons (f : Char → Bool) (p : Bool) (c : Char) (a : List Char) :
    lastFlag f p (c :: a) = lastFlag f (f c) a := by
  cases a with
  | nil => rfl
  | cons d tl =>
    simp only [lastFlag, List.getLast?_cons_cons]
    cases h : (d :: tl).getLast? with
    | none => simp at h
    | some x => rfl

theorem cwAux_append :
    ∀ (a b : List Char) (p : Bool),
      cwAux p (a ++ b) = cwAux p a + cwAux (lastFlag isWsChar p a) b
  | [], b, p => by simp [cwAux, lastFlag]
  | c :: a, b, p => by
    show (if !isWsChar c && p then 1 else 0) + cwAux (isWsChar c) (a ++ b) =
      (if !isWsChar c && p then 1 else 0) + cwAux (isWsChar c) a +
        cwAux (lastFlag isWsChar p (c :: a)) b
    rw [cwAux_append a b (isWsChar c), lastFlag_cons]
    omega

theorem cwAux_allWs :
    ∀ {sep : List Char}, (∀ c ∈ sep, isWsChar c = true) → ∀ p, cwAux p sep = 0
  | [], _, _ => rfl
  | c :: sep, h, p => by
    have hc : isWsChar c = true := h c (List.mem_cons_self _ _)
    simp only [cwAux, hc]
    simpa using cwAux_allWs (fun x hx => h x (List.mem_cons_of_mem _ hx)) true

theorem drAux_append :
    ∀ (a b : List Char) (p : Bool),
      drAux p (a ++ b) = drAux p a + drAux (lastFlag isDigitChar p a) b
  | [], b, p => by simp [drAux, lastFlag]
  | c :: a, b, p => by
    show (if isDigitChar c && !p then 1 else 0) + drAux (isDigitChar c) (a ++ b) =
      (if isDigitChar c && !p then 1 else 0) + drAux (isDigitChar c) a +
        drAux (lastFlag isDigitChar p (c :: a)) b
    rw [drAux_append a b (isDigitChar c), lastFlag_cons]
    omega

theorem ws_not_digit {c : Char} (h : isWsChar c = true) :
    isDigitChar c = false := by
  rw [isWsChar] at h
  rw [isDigitChar]
  simp only [Bool.or_eq_true_iff, Bool.and_eq_true_iff, decide_eq_true_eq] at h
  simp only [Bool.and_eq_false_iff, decide_eq_false_iff_not, Nat.not_le]
  omega

theorem ws_not_punct {c : Char} (h : isWsChar c = true) :
    isPunctChar c = false := by
  rw [isWsChar] at h
  rw [isPunctChar]
  simp only [Bool.or_eq_true_iff, Bool.and_eq_true_iff, decide_eq_true_eq] at h
  simp only [Bool.or_eq_false_iff, Bool.and_eq_false_iff,
    decide_eq_false_iff_not, Nat.not_le]
  omega

theorem drAux_allWs :
    ∀ {sep : List Char}, (∀ c ∈ sep, isWsChar c = true) → ∀ p, drAux p sep = 0
  | [], _, _ => rfl
  | c :: sep, h, p => by
    have hc := ws_not_digit (h c (List.mem_cons_self _ _))
    simp only [drAux, hc]
    simpa using drAux_allWs (fun x hx => h x (List.mem_cons_of_mem _ hx)) false

theorem lastFlag_allWs_true {sep : List Char} (hne : sep ≠ [])
    (h : ∀ c ∈ sep, isWsChar c = true) (p : Bool) :
    lastFlag isWsChar p sep = true := by
  induction sep generalizing p with
  | nil => exact absurd rfl hne
  | cons c tl ih =>
    cases tl with
    | nil => simpa [lastFlag] using h c (List.mem_cons_self _ _)
    | cons d tl' =>
      rw [lastFlag_cons]
      exact ih (by simp) (fun x hx => h x (List.mem_cons_of_mem _ hx)) _

theorem lastFlag_allWs_digit {sep : List Char} (hne : sep ≠ [])
    (h : ∀ c ∈ sep, isWsChar c = true) (p : Bool) :
    lastFlag isDigitChar p sep = false := by
  induction sep generalizing p with
  | nil => exact absurd rfl hne
  | cons c tl ih =>
    cases tl with
    | nil => simpa [lastFlag] using ws_not_digit (h c (List.mem_cons_self _ _))
    | cons d tl' =>
      rw [lastFlag_cons]
      exact ih (by simp) (fun x hx => h x (List.mem_cons_of_mem _ hx)) _

theorem lastFlag_append (f : Char → Bool) (p : Bool) (a b : List Char)
    (hb : b ≠ []) : lastFlag f p (a ++ b) = lastFlag f p b := by
  simp only [lastFlag, List.getLast?_append_of_ne_nil a hb]

theorem countPunct_allWs {sep : List Char}
    (h : ∀ c ∈ sep, isWsChar c = true) : countPunct sep = 0 := by
  rw [countPunct, List.countP_eq_zero]
  intro c hc
  simp [ws_not_punct (h c hc)]

theorem tokWeight_sep (a sep b : List Char) (hne : sep ≠ [])
    (hws : ∀ c ∈ sep, isWsChar c = true) :
    tokWeight (a ++ (sep ++ b)) = tokWeight a + tokWeight b := by
  have hw : countWords (a ++ (sep ++ b)) = countWords a + countWords b := by
    rw [countWords, countWords, countWords, cwAux_append,
      cwAux_append sep b, cwAux_allWs hws,
      lastFlag_allWs_true hne hws]
    omega
  have hn : countNums (a ++ (sep ++ b)) = countNums a + countNums b := by
    rw [countNums, countNums, countNums, drAux_append,
      drAux_append sep b, drAux_allWs hws,
      lastFlag_allWs_digit hne hws]
    omega
  have hp : countPunct (a ++ (sep ++ b)) = countPunct a + countPunct b := by
    rw [countPunct, countPunct, countPunct, List.countP_append,
      List.countP_append]
    have := countPunct_allWs hws
    rw [countPunct] at this
    omega
  rw [tokWeight, tokWeight, tokWeight, hw, hn, hp]
  ring

theorem estimateTokens_sep_le (a sep b : List Char) (hne : sep ≠ [])
    (hws : ∀ c ∈ sep, isWsChar c = true) :
    estimateTokens (a ++ (sep ++ b)) ≤ estimateTokens a + estimateTokens b := by
  rw [estimateTokens, estimateTokens, estimateTokens, tokWeight_sep a sep b hne hws]
  omega

theorem estimateTokens_nil : estimateTokens [] = 0 := rfl

theorem sp1_ws : ∀ c ∈ sp1, isWsChar c = true := by decide

theorem nl2_ws : ∀ c ∈ nl2, isWsChar c = true := by decide

/-! ### Bounds for `createOverlap` -/

theorem overlapSent_bound (budget : Nat) :
    ∀ (rest : List (List Char)) (ovl : List Char) (tokens : Nat),
      estimateTokens ovl ≤ tokens → tokens ≤ budget →
      estimateTokens (overlapSent budget rest ovl tokens) ≤ budget
  | [], ovl, tokens, h1, h2 => by
    rw [overlapSent]; exact h1.trans h2
  | s :: rest, ovl, tokens, h1, h2 => by
    rw [overlapSent]
    by_cases hb : budget ≤ tokens
    · rw [if_pos hb]; exact h1.trans h2
    · rw [if_neg hb]
      by_cases hf : tokens + estimateTokens s ≤ budget
      · rw [if_pos hf]
        refine overlapSent_bound budget rest _ _ ?_ hf
        by_cases he : ovl.isEmpty = true
        · rw [if_pos he, List.append_nil]
          omega
        · rw [if_neg he]
          have hle : estimateTokens (s ++ ' ' :: ovl) ≤
              estimateTokens s + estimateTokens ovl :=
            estimateTokens_sep_le s sp1 ovl (by simp [sp1]) sp1_ws
          omega
      · rw [if_neg hf]
        exact overlapSent_bound budget rest ovl tokens h1 (Nat.le_of_lt (Nat.lt_of_not_le hb))

theorem overlapGo_bound (budget : Nat) :
    ∀ (rest : List (List Char)) (ovl : List Char) (tokens : Nat),
      estimateTokens ovl ≤ tokens → tokens ≤ budget →
      estimateTokens (overlapGo budget rest ovl tokens) ≤ budget
  | [], ovl, tokens, h1, h2 => by
    rw [overlapGo]; exact h1.trans h2
  | item :: rest, ovl, tokens, h1, h2 => by
    rw [overlapGo]
    by_cases hb : budget ≤ tokens
    · rw [if_pos hb]; exact h1.trans h2
    · rw [if_neg hb]
      by_cases hf : tokens + estimateTokens item ≤ budget
      · rw [if_pos hf]
        refine overlapGo_bound budget rest _ _ ?_ hf
        by_cases he : ovl.isEmpty = true
        · rw [if_pos he, List.append_nil]
          omega
        · rw [if_neg he]
          have hle : estimateTokens (item ++ '\n' :: '\n' :: ovl) ≤
              estimateTokens item + estimateTokens ovl :=
            estimateTokens_sep_le item nl2 ovl (by simp [nl2]) nl2_ws
          omega
      · rw [if_neg hf]
        exact overlapSent_bound budget _ ovl tokens h1 (Nat.le_of_lt (Nat.lt_of_not_le hb))

theorem createOverlap_bound (chunks : List (List Char)) (budget : Nat) :
    estimateTokens (createOverlap chunks budget) ≤ budget := by
  rw [createOverlap]
  by_cases he : chunks.isEmpty
  · rw [if_pos he]; simp [estimateTokens_nil]
  · rw [if_neg he]
    exact overlapGo_bound budget chunks.reverse [] 0 (by simp [estimateTokens_nil])
      (Nat.zero_le _)

/-! ### Bounds for the chunking loops -/

theorem le_foldr_max {l : List Nat} {x : Nat} (hx : x ∈ l) :
    x ≤ l.foldr max 0 := by
  induction l with
  | nil => simp at hx
  | cons a tl ih =>
    rcases List.mem_cons.mp hx with h | h
    · subst h; exact Nat.le_max_left _ _
    · exact (ih h).trans (Nat.le_max_right _ _)

theorem joinSep_snoc_ne (sep : List Char) :
    ∀ (buf : List (List Char)) (s : List Char), buf ≠ [] →
      joinSep sep (buf ++ [s]) = joinSep sep buf ++ (sep ++ s)
  | [], _, h => absurd rfl h
  | [x], s, _ => by simp [joinSep]
  | x :: y :: tl, s, _ => by
    show x ++ sep ++ joinSep sep ((y :: tl) ++ [s]) = _
    rw [joinSep_snoc_ne sep (y :: tl) s (by simp)]
    show _ = (x ++ sep ++ joinSep sep (y :: tl)) ++ (sep ++ s)
    simp [List.append_assoc]

theorem est_joinSep_snoc_le {sep : List Char} (hne : sep ≠ [])
    (hws : ∀ c ∈ sep, isWsChar c = true) (buf : List (List Char))
    (s : List Char) :
    estimateTokens (joinSep sep (buf ++ [s])) ≤
      estimateTokens (joinSep sep buf) + estimateTokens s := by
  cases buf with
  | nil => simp [joinSep, estimateTokens_nil]
  | cons x tl =>
    rw [joinSep_snoc_ne sep (x :: tl) s (by simp)]
    exact estimateTokens_sep_le _ sep s hne hws

/-- The largest sentence estimate among the sentence splits of a section. -/
def secSentMax (sec : DocSection) : Nat :=
  ((sentSplit sec.content).map estimateTokens).foldr max 0

/-- The largest sentence estimate across all sections of a document. -/
def maxSentTok (content : ExtractedContent) : Nat :=
  (content.sections.map secSentMax).foldr max 0

theorem chunk_content (content : List Char) (i : Nat) (ctx : Option (List Char))
    (src : Option DocSection) :
    (createChunkFromContent content i ctx src).content = content := rfl

theorem slsLoop_bound (sec : DocSection) (o : ResolvedOptions)
    (startIndex : Nat) (ctx : List Char) (M : Nat) :
    ∀ (sents buf : List (List Char)) (tokens count : Nat),
      (∀ x ∈ sents, estimateTokens x ≤ M) →
      (∀ x ∈ buf, estimateTokens x ≤ M) →
      estimateTokens (joinSep sp1 buf) ≤ tokens →
      tokens ≤ max o.targetTokens (3 * M) →
      (buf = [] → tokens = 0) →
      ∀ c ∈ slsLoop sec o startIndex ctx sents buf tokens count,
        estimateTokens c.content ≤ max o.targetTokens (3 * M)
  | [], buf, tokens, count, _, _, hjoin, htok, _, c, hc => by
    rw [slsLoop] at hc
    by_cases hb : 0 < buf.length
    · rw [if_pos hb] at hc
      rcases List.mem_singleton.mp hc with rfl
      rw [chunk_content]
      exact hjoin.trans htok
    · rw [if_neg hb] at hc
      simp at hc
  | s :: rest, buf, tokens, count, hsents, hbuf, hjoin, htok, hz, c, hc => by
    have hsM : estimateTokens s ≤ M := hsents s (List.mem_cons_self _ _)
    have hsents' : ∀ x ∈ rest, estimateTokens x ≤ M :=
      fun x hx => hsents x (List.mem_cons_of_mem _ hx)
    rw [slsLoop] at hc
    by_cases hcond : o.targetTokens < tokens + estimateTokens s ∧ 0 < buf.length
    · rw [if_pos hcond] at hc
      rcases List.mem_cons.mp hc with rfl | hc'
      · rw [chunk_content]
        exact hjoin.trans htok
      · set buf2 := List.drop (buf.length - 2) buf with hbuf2
        have hlen2 : buf2.length ≤ 2 := by
          rw [hbuf2, List.length_drop]; omega
        have hbuf2M : ∀ x ∈ buf2, estimateTokens x ≤ M := fun x hx =>
          hbuf x (List.mem_of_mem_drop hx)
        have hjoin2 : estimateTokens (joinSep sp1 buf2) ≤ 2 * M := by
          match buf2, hlen2, hbuf2M with
          | [], _, _ => simp [joinSep, estimateTokens_nil]
          | [x], _, hm =>
            have := hm x (List.mem_cons_self _ _)
            simp only [joinSep]; omega
          | [x, y], _, hm =>
            have hx := hm x (by simp)
            have hy := hm y (by simp)
            show estimateTokens (x ++ sp1 ++ joinSep sp1 [y]) ≤ 2 * M
            have hle := estimateTokens_sep_le x sp1 y (by simp [sp1]) sp1_ws
            rw [show x ++ sp1 ++ joinSep sp1 [y] = x ++ (sp1 ++ y) by
              simp [joinSep, List.append_assoc]]
            omega
        refine slsLoop_bound sec o startIndex ctx M rest (buf2 ++ [s]) _ _
          hsents'
          (fun x hx => by
            rcases List.mem_append.mp hx with h1 | h1
            · exact hbuf2M x h1
            · rcases List.mem_singleton.mp h1 with rfl; exact hsM)
          (est_joinSep_snoc_le (by simp [sp1]) sp1_ws buf2 s)
          (by
            have := Nat.le_max_right o.targetTokens (3 * M)
            omega)
          (by intro h; simp at h)
          c hc'
    · rw [if_neg hcond] at hc
      have hbound : tokens + estimateTokens s ≤ max o.targetTokens (3 * M) := by
        rcases Decidable.not_and_iff_or_not.mp hcond with h1 | h1
        · exact le_trans (Nat.le_of_not_lt h1) (Nat.le_max_left _ _)
        · have hbnil : buf = [] := by
            cases buf with
            | nil => rfl
            | cons a tl => exact absurd (by simp) h1
          rw [hz hbnil]
          have := Nat.le_max_right o.targetTokens (3 * M)
          omega
      refine slsLoop_bound sec o startIndex ctx M rest (buf ++ [s]) _ _
        hsents'
        (fun x hx => by
          rcases List.mem_append.mp hx with h1 | h1
          · exact hbuf x h1
          · rcases List.mem_singleton.mp h1 with rfl; exact hsM)
        ((est_joinSep_snoc_le (by simp [sp1]) sp1_ws buf s).trans (by omega))
        hbound
        (by intro h; simp at h)
        c hc

theorem saLoop_bound (o : ResolvedOptions) (M : Nat) :
    ∀ (secs : List DocSection) (buf : List (List Char)) (tokens : Nat)
      (ctx : List Char) (idx : Nat),
      (∀ sec ∈ secs, secSentMax sec ≤ M) →
      estimateTokens (joinSep nl2 buf) ≤ tokens →
      tokens ≤ max o.targetTokens (o.maxTokens + o.overlapTokens) →
      (buf = [] → tokens = 0) →
      ∀ c ∈ saLoop o secs buf tokens ctx idx,
        estimateTokens c.content ≤
          max o.targetTokens (max (o.maxTokens + o.overlapTokens) (3 * M))
  | [], buf, tokens, ctx, idx, _, hjoin, htok, _, c, hc => by
    rw [saLoop] at hc
    by_cases hb : 0 < buf.length
    · rw [if_pos hb] at hc
      rcases List.mem_singleton.mp hc with rfl
      rw [chunk_content]
      refine (hjoin.trans htok).trans ?_
      have h1 := Nat.le_max_left o.targetTokens
        (max (o.maxTokens + o.overlapTokens) (3 * M))
      have h2 := Nat.le_max_right o.targetTokens
        (max (o.maxTokens + o.overlapTokens) (3 * M))
      have h3 := Nat.le_max_left (o.maxTokens + o.overlapTokens) (3 * M)
      omega
    · rw [if_neg hb] at hc
      simp at hc
  | sec :: rest, buf, tokens, ctx, idx, hsecs, hjoin, htok, hz, c, hc => by
    have hrest : ∀ s ∈ rest, secSentMax s ≤ M :=
      fun s hs => hsecs s (List.mem_cons_of_mem _ hs)
    have hBle : max o.targetTokens (o.maxTokens + o.overlapTokens) ≤
        max o.targetTokens (max (o.maxTokens + o.overlapTokens) (3 * M)) := by
      have h2 := Nat.le_max_right o.targetTokens
        (max (o.maxTokens + o.overlapTokens) (3 * M))
      have h3 := Nat.le_max_left (o.maxTokens + o.overlapTokens) (3 * M)
      have h4 := Nat.le_max_left o.targetTokens
        (max (o.maxTokens + o.overlapTokens) (3 * M))
      omega
    rw [saLoop] at hc
    by_cases hbig : o.maxTokens < estimateTokens sec.content
    · rw [if_pos hbig] at hc
      rcases List.mem_append.mp hc with h1 | h1
      · rcases List.mem_append.mp h1 with h2 | h2
        · by_cases hb : 0 < buf.length
          · rw [if_pos hb] at h2
            rcases List.mem_singleton.mp h2 with rfl
            rw [chunk_content]
            exact (hjoin.trans htok).trans hBle
          · rw [if_neg hb] at h2
            simp at h2
        · -- chunks produced by splitLargeSection
          have hsls := slsLoop_bound sec o _ (updateCtx ctx sec) (secSentMax sec)
            ((sentSplit sec.content).filter (fun s => 0 < (jsTrim s).length))
            [] 0 0
            (fun x hx => by
              have hx' := List.mem_of_mem_filter hx
              exact le_foldr_max (List.mem_map_of_mem estimateTokens hx'))
            (by intro x hx; simp at hx)
            (by simp [joinSep, estimateTokens_nil])
            (Nat.zero_le _)
            (fun _ => rfl)
            c h2
          refine hsls.trans ?_
          have hM := hsecs sec (List.mem_cons_self _ _)
          have h2' := Nat.le_max_right o.targetTokens
            (max (o.maxTokens + o.overlapTokens) (3 * M))
          have h3 := Nat.le_max_right (o.maxTokens + o.overlapTokens) (3 * M)
          have h4 := Nat.le_max_left o.targetTokens
            (max (o.maxTokens + o.overlapTokens) (3 * M))
          have h5 : max o.targetTokens (3 * secSentMax sec) ≤
              max o.targetTokens (3 * M) := by omega
          omega
      · exact saLoop_bound o M rest [] 0 _ _ hrest
          (by simp [joinSep, estimateTokens_nil]) (Nat.zero_le _)
          (fun _ => rfl) c h1
    · rw [if_neg hbig] at hc
      by_cases hcond : o.targetTokens < tokens + estimateTokens sec.content ∧
          0 < buf.length
      · rw [if_pos hcond] at hc
        rcases List.mem_cons.mp hc with rfl | hc'
        · rw [chunk_content]
          exact (hjoin.trans htok).trans hBle
        · set ovl := createOverlap buf o.overlapTokens with hovl
          have hob : estimateTokens ovl ≤ o.overlapTokens := by
            rw [hovl]; exact createOverlap_bound buf o.overlapTokens
          have hsec : estimateTokens sec.content ≤ o.maxTokens :=
            Nat.le_of_not_lt hbig
          by_cases hoe : 0 < ovl.length
          · simp only [if_pos hoe] at hc'
            refine saLoop_bound o M rest ([ovl] ++ [sec.content])
              (estimateTokens ovl + estimateTokens sec.content) _ _ hrest
              ?_ ?_ (by intro h; simp at h) c hc'
            · exact est_joinSep_snoc_le (by simp [nl2]) nl2_ws [ovl] sec.content
            · have h1 := Nat.le_max_right o.targetTokens
                (o.maxTokens + o.overlapTokens)
              omega
          · simp only [if_neg hoe] at hc'
            refine saLoop_bound o M rest ([] ++ [sec.content])
              (0 + estimateTokens sec.content) _ _ hrest
              ?_ ?_ (by intro h; simp at h) c hc'
            · simp [joinSep, estimateTokens_nil]
            · have h1 := Nat.le_max_right o.targetTokens
                (o.maxTokens + o.overlapTokens)
              omega
      · rw [if_neg hcond] at hc
        have hbound : tokens + estimateTokens sec.content ≤
            max o.targetTokens (o.maxTokens + o.overlapTokens) := by
          rcases Decidable.not_and_iff_or_not.mp hcond with h1 | h1
          · exact le_trans (Nat.le_of_not_lt h1) (Nat.le_max_left _ _)
          · have hbnil : buf = [] := by
              cases buf with
              | nil => rfl
              | cons a tl => exact absurd (by simp) h1
            rw [hz hbnil]
            have h2 := Nat.le_max_right o.targetTokens
              (o.maxTokens + o.overlapTokens)
            omega
        exact saLoop_bound o M rest (buf ++ [sec.content])
          (tokens + estimateTokens sec.content) _ _ hrest
          ((est_joinSep_snoc_le (by simp [nl2]) nl2_ws buf sec.content).trans
            (by omega))
          hbound (by intro h; simp at h) c hc

theorem mem_rankAndOptimizeChunks {c : ContentChunk} {l : List ContentChunk}
    {o : ResolvedOptions} (hc : c ∈ rankAndOptimizeChunks l o) : c ∈ l := by
  rw [rankAndOptimizeChunks] at hc
  have h1 : c ∈ (if o.prioritizeImportant then
      List.insertionSort
        (fun a b => b.metadata.importance ≤ a.metadata.importance) l
    else l) := by
    by_cases h25 : 25 < ((if o.prioritizeImportant then
        List.insertionSort
          (fun a b => b.metadata.importance ≤ a.metadata.importance) l
      else l).filter (fun c =>
        5 ≤ c.metadata.wordCount && 20 ≤ (jsTrim c.content).length)).length
    · rw [if_pos h25] at hc
      exact List.mem_of_mem_filter (List.take_subset _ _ hc)
    · rw [if_neg h25] at hc
      exact List.mem_of_mem_filter hc
  by_cases hp : o.prioritizeImportant = true
  · rw [if_pos hp] at h1
    exact (List.perm_insertionSort _ l).mem_iff.mp h1
  · rw [if_neg hp] at h1
    exact h1

/-! ### Claim C1: the chunk token bound -/

/-- C1 (amended).  Every chunk returned by `structureAwareChunking` has a
token estimate of at most
`max targetTokens (max (maxTokens + overlapTokens) (3 * maxSentTok))`, where
`maxSentTok` is the largest sentence estimate across the sections.  The
original bound `maxTokens` (with a single-oversized-sentence exception)
fails: a flushed buffer can hold a carried overlap plus a section of up to
`maxTokens`, and the sentence splitter carries a two-sentence overlap that
is not counted against any budget. -/
theorem C1_chunk_token_bound (content : ExtractedContent) (o : ResolvedOptions)
    (c : ContentChunk) (hc : c ∈ structureAwareChunking content o) :
    estimateTokens c.content ≤
      max o.targetTokens (max (o.maxTokens + o.overlapTokens)
        (3 * maxSentTok content)) := by
  refine saLoop_bound o (maxSentTok content) content.sections [] 0 [] 0
    (fun sec hs => le_foldr_max (List.mem_map_of_mem secSentMax hs))
    (by simp [joinSep, estimateTokens_nil]) (Nat.zero_le _) (fun _ => rfl)
    c (mem_rankAndOptimizeChunks hc)

/-- Chunking options used by the C1 counterexample. -/
def o1C1 : ChunkingOptions :=
  { targetTokens := some 10
    maxTokens := some 11
    minTokens := none
    overlapTokens := some 10
    preserveStructure := some true
    prioritizeImportant := some false }

/-- Document used by the C1 counterexample: three short paragraph sections. -/
def x1C1 : ExtractedContent :=
  { text := ("aa bb cc dd ee ff gg.\n\nhh ii jj kk ll mm nn oo.\n\npp qq rr ss tt uu").toList
    metadata :=
      { wordCount := 21
        pageCount := none
        hasImages := false
        hasStructure := true
        language := none
        quality := Quality.high
        warnings := [] }
    sections :=
      [{ title := none, content := ("aa bb cc dd ee ff gg.").toList,
         stype := SectionType.paragraph, confidence := 50 },
       { title := none, content := ("hh ii jj kk ll mm nn oo.").toList,
         stype := SectionType.paragraph, confidence := 50 },
       { title := none, content := ("pp qq rr ss tt uu").toList,
         stype := SectionType.paragraph, confidence := 50 }] }

/-- C1 counterexample.  With `targetTokens = 10`, `maxTokens = 11`,
`overlapTokens = 10`, the chunker returns a chunk whose content is two whole
sentences (an overlap-seeded section followed by the next section) with a
token estimate of 21, exceeding `maxTokens` even though no single sentence
does. -/
theorem C1_claim_false :
    ¬ (∀ c ∈ intelligentChunking x1C1 o1C1,
        estimateTokens c.content ≤ (resolveOptions o1C1).maxTokens ∨
        ((sentSplit c.content).filter
          (fun s => 0 < (jsTrim s).length)).length ≤ 1) := by
  decide

/-- Default chunk used only to state the C1 witness head. -/
def defaultChunk : ContentChunk :=
  { id := []
    content := []
    metadata :=
      { tokenCount := 0, wordCount := 0, ctype := ChunkType.mixed,
        importance := 0, topics := [], context := none }
    sourceSection := none }

/-- Witness for C1 at a concrete chunking run. -/
theorem C1_bound_witness :
    estimateTokens ((structureAwareChunking x1C1
        (resolveOptions o1C1)).headD defaultChunk).content ≤
      max (resolveOptions o1C1).targetTokens
        (max ((resolveOptions o1C1).maxTokens + (resolveOptions o1C1).overlapTokens)
          (3 * maxSentTok x1C1)) :=
  C1_chunk_token_bound x1C1 (resolveOptions o1C1) _ (by decide)

/-! ### Claim C10: the whole-document short circuit -/

/-- C10.  When the whole text estimate is at or below the effective
`targetTokens`, the chunker returns exactly one chunk with id `chunk-0`,
importance 1.0 and the whole text as content; consequently, with the
generator options (`targetTokens = 2500`) the zero-chunk `NoContent` branch
of the generator is unreachable under that precondition. -/
theorem C10_single_chunk (content : ExtractedContent)
    (options : ChunkingOptions) (params : GenerationParams) :
    (estimateTokens content.text ≤ (resolveOptions options).targetTokens →
      (intelligentChunking content options).length = 1 ∧
      ∀ c ∈ intelligentChunking content options,
        c.id = ("chunk-0").toList ∧ c.content = content.text ∧
        c.metadata.importance = 100 ∧
        c.metadata.tokenCount = estimateTokens content.text) ∧
    (estimateTokens content.text ≤ 2500 →
      generatePreModel content params ≠ Except.error GenError.noContent) := by
  constructor
  · intro h1
    rw [intelligentChunking, if_pos h1]
    refine ⟨rfl, ?_⟩
    intro c hc
    rcases List.mem_singleton.mp hc with rfl
    exact ⟨rfl, rfl, rfl, rfl⟩
  · intro h2
    rw [generatePreModel]
    by_cases hq : content.metadata.quality = Quality.low ∧
        content.metadata.wordCount < 200
    · rw [if_pos hq]
      intro h
      cases h
    · rw [if_neg hq]
      have hlen : (intelligentChunking content generationChunkOptions).length = 1 := by
        rw [intelligentChunking, if_pos (by exact h2)]
        rfl
      show (if (intelligentChunking content generationChunkOptions).length = 0
        then Except.error GenError.noContent
        else Except.ok (selectOptimalChunks
          (intelligentChunking content generationChunkOptions) params)) ≠
        Except.error GenError.noContent
      rw [hlen]
      simp

/-- Witness for C10 at a concrete short document. -/
theorem C10_witness :
    (intelligentChunking
        { text := ("hi there").toList
          metadata :=
            { wordCount := 2, pageCount := none, hasImages := false,
              hasStructure := false, language := none,
              quality := Quality.high, warnings := [] }
          sections := [] } generationChunkOptions).length = 1 ∧
    generatePreModel
        { text := ("hi there").toList
          metadata :=
            { wordCount := 2, pageCount := none, hasImages := false,
              hasStructure := false, language := none,
              quality := Quality.high, warnings := [] }
          sections := [] }
        { numQuestions := 10, difficulty := Difficulty.medium,
          language := "en", questionTypes := [QType.mcq],
          quizName := none } ≠ Except.error GenError.noContent :=
  ⟨((C10_single_chunk _ generationChunkOptions
      { numQuestions := 10, difficulty := Difficulty.medium,
        language := "en", questionTypes := [QType.mcq],
        quizName := none }).1 (by decide)).1,
   (C10_single_chunk _ generationChunkOptions
      { numQuestions := 10, difficulty := Difficulty.medium,
        language := "en", questionTypes := [QType.mcq],
        quizName := none }).2 (by decide)⟩

/-! ### Claim C2: the chunk selector -/

/-- Total of the stored token counts of a chunk list. -/
def sumTokens (l : List ContentChunk) : Nat :=
  (l.map (fun c => c.metadata.tokenCount)).sum

/-- Document order: sorted by the numeric suffix of the chunk ids. -/
def docOrdered (l : List ContentChunk) : Prop :=
  List.Sorted (fun a b => (chunkNumId a.id).getD 0 ≤ (chunkNumId b.id).getD 0) l

theorem sortByNumId_perm (l : List ContentChunk) : (sortByNumId l).Perm l :=
  List.perm_insertionSort _ l

theorem sortByNumId_sorted (l : List ContentChunk) :
    docOrdered (sortByNumId l) := by
  haveI : IsTotal ContentChunk
      (fun a b => (chunkNumId a.id).getD 0 ≤ (chunkNumId b.id).getD 0) :=
    ⟨fun a b => Nat.le_total _ _⟩
  haveI : IsTrans ContentChunk
      (fun a b => (chunkNumId a.id).getD 0 ≤ (chunkNumId b.id).getD 0) :=
    ⟨fun _ _ _ => Nat.le_trans⟩
  exact List.sorted_insertionSort _ l

theorem sumTokens_perm {l₁ l₂ : List ContentChunk} (h : l₁.Perm l₂) :
    sumTokens l₁ = sumTokens l₂ := by
  rw [sumTokens, sumTokens]
  exact (h.map (fun c => c.metadata.tokenCount)).sum_eq

theorem selectGreedy_sublist :
    ∀ (l : List ContentChunk) (cur : Nat), (selectGreedy l cur).Sublist l
  | [], _ => List.Sublist.refl _
  | c :: rest, cur => by
    rw [selectGreedy]
    by_cases hf : cur + c.metadata.tokenCount ≤ maxAllowedTokens
    · rw [if_pos hf]
      exact (selectGreedy_sublist rest _).cons₂ c
    · rw [if_neg hf]
      exact (selectGreedy_sublist rest cur).cons c

theorem selectGreedy_sum :
    ∀ (l : List ContentChunk) (cur : Nat), cur ≤ maxAllowedTokens →
      cur + sumTokens (selectGreedy l cur) ≤ maxAllowedTokens
  | [], cur, h => by simpa [sumTokens] using h
  | c :: rest, cur, h => by
    rw [selectGreedy]
    by_cases hf : cur + c.metadata.tokenCount ≤ maxAllowedTokens
    · rw [if_pos hf]
      have := selectGreedy_sum rest (cur + c.metadata.tokenCount) hf
      simp only [sumTokens, List.map_cons, List.sum_cons] at this ⊢
      omega
    · rw [if_neg hf]
      exact selectGreedy_sum rest cur h

theorem selectOptimalChunks_eq (chunks : List ContentChunk)
    (params : GenerationParams) :
    selectOptimalChunks chunks params =
      if sumTokens (sortByNumId chunks) ≤ maxAllowedTokens
      then sortByNumId chunks
      else sortByNumId (selectGreedy (List.insertionSort
        (fun a b => b.metadata.importance ≤ a.metadata.importance) chunks) 0) :=
  rfl

/-- C2.  If the total token count fits the budget, the selector returns
exactly the input chunks in document order; otherwise it returns a
sub-permutation of the input whose total fits the budget, in document
order.  The id hypothesis reflects that `parseInt` on a chunk id suffix
yields a number (on `NaN` the JS comparator is not a consistent order). -/
theorem C2_selector_spec (chunks : List ContentChunk)
    (params : GenerationParams)
    (hids : ∀ c ∈ chunks, (chunkNumId c.id).isSome = true) :
    (sumTokens chunks ≤ maxAllowedTokens →
      (selectOptimalChunks chunks params).Perm chunks ∧
      docOrdered (selectOptimalChunks chunks params)) ∧
    (maxAllowedTokens < sumTokens chunks →
      (selectOptimalChunks chunks params).Subperm chunks ∧
      sumTokens (selectOptimalChunks chunks params) ≤ maxAllowedTokens ∧
      docOrdered (selectOptimalChunks chunks params)) := by
  have hsum : sumTokens (sortByNumId chunks) = sumTokens chunks :=
    sumTokens_perm (sortByNumId_perm chunks)
  constructor
  · intro h
    rw [selectOptimalChunks_eq, if_pos (by rw [hsum]; exact h)]
    exact ⟨sortByNumId_perm chunks, sortByNumId_sorted chunks⟩
  · intro h
    rw [selectOptimalChunks_eq, if_neg (by rw [hsum]; omega)]
    set sel := selectGreedy (List.insertionSort
      (fun a b => b.metadata.importance ≤ a.metadata.importance) chunks) 0
      with hsel
    have hperm := sortByNumId_perm sel
    refine ⟨?_, ?_, sortByNumId_sorted sel⟩
    · refine (hperm.subperm).trans ?_
      refine ((selectGreedy_sublist _ 0).subperm).trans ?_
      exact (List.perm_insertionSort _ chunks).subperm
    · rw [sumTokens_perm hperm]
      have := selectGreedy_sum (List.insertionSort
        (fun a b => b.metadata.importance ≤ a.metadata.importance) chunks) 0
        (Nat.zero_le _)
      simpa [← hsel] using this

/-- A chunk literal used by the C2 and C4 witnesses. -/
def witChunk (n : Nat) (tok : Nat) (imp : Int) : ContentChunk :=
  { id := ("chunk-").toList ++ Nat.toDigits 10 n
    content := ("content").toList
    metadata :=
      { tokenCount := tok, wordCount := 10, ctype := ChunkType.paragraph,
        importance := imp, topics := [], context := none }
    sourceSection := none }

/-- Witness for C2 on a concrete chunk list (both budget branches). -/
theorem C2_selector_witness :
    ((selectOptimalChunks [witChunk 1 9000 50, witChunk 0 4000 80]
        { numQuestions := 10, difficulty := Difficulty.medium,
          language := "en", questionTypes := [QType.mcq], quizName := none }).Perm
      [witChunk 1 9000 50, witChunk 0 4000 80]) ∧
    ((selectOptimalChunks [witChunk 1 9000 50, witChunk 0 9000 80, witChunk 2 4000 60]
        { numQuestions := 10, difficulty := Difficulty.medium,
          language := "en", questionTypes := [QType.mcq], quizName := none }).Subperm
      [witChunk 1 9000 50, witChunk 0 9000 80, witChunk 2 4000 60]) ∧
    (sumTokens (selectOptimalChunks [witChunk 1 9000 50, witChunk 0 9000 80, witChunk 2 4000 60]
        { numQuestions := 10, difficulty := Difficulty.medium,
          language := "en", questionTypes := [QType.mcq], quizName := none }) ≤
      maxAllowedTokens) := by
  refine ⟨?_, ?_, ?_⟩
  · exact ((C2_selector_spec [witChunk 1 9000 50, witChunk 0 4000 80] _
      (by decide)).1 (by decide)).1
  · exact ((C2_selector_spec
      [witChunk 1 9000 50, witChunk 0 9000 80, witChunk 2 4000 60] _
      (by decide)).2 (by decide)).1
  · exact ((C2_selector_spec
      [witChunk 1 9000 50, witChunk 0 9000 80, witChunk 2 4000 60] _
      (by decide)).2 (by decide)).2.1

/-! ### Claim C4: the content-quality precondition -/

/-- C4.  A document with quality `low` and fewer than 200 words makes the
generator fail with `ContentTooLimited`; in the embedded pre-model stage the
guard is evaluated before chunking and before any selection. -/
theorem C4_content_too_limited (content : ExtractedContent)
    (params : GenerationParams)
    (h1 : content.metadata.quality = Quality.low)
    (h2 : content.metadata.wordCount < 200) :
    generatePreModel content params = Except.error GenError.contentTooLimited := by
  rw [generatePreModel, if_pos ⟨h1, h2⟩]

/-- Witness for C4 at a concrete 50-word low-quality document. -/
theorem C4_witness :
    generatePreModel
        { text := ("short doc").toList
          metadata :=
            { wordCount := 50, pageCount := none, hasImages := false,
              hasStructure := false, language := none,
              quality := Quality.low, warnings := [] }
          sections := [] }
        { numQuestions := 10, difficulty := Difficulty.medium,
          language := "en", questionTypes := [QType.mcq], quizName := none } =
      Except.error GenError.contentTooLimited :=
  C4_content_too_limited _ _ (by decide) (by decide)

/-! ## JSON values and the quiz repair pass (`src/lib/quiz/generate.ts`)

`JSON.parse` output is modeled by `JVal`: `null`, booleans, numbers,
strings, arrays and objects.  Objects are association lists in insertion
order with pairwise-distinct keys, as produced by `JSON.parse`; arrays
carry their elements and, because the repair pass may create named
properties on array nodes, a named-property list (always empty right
after parsing).  A property read yields `Option JVal`, where `none` is
`undefined`; reads on `null`, and writes on `null` or on primitives
(module code is strict mode), are `TypeError`s modeled in
`Except String`. -/

/-- A JavaScript value produced by `JSON.parse` (and mutated by the
repair pass). -/
inductive JVal : Type
  | null : JVal
  | bool : Bool → JVal
  | num : ℚ → JVal
  | str : String → JVal
  | arr : List JVal → List (String × JVal) → JVal
  | obj : List (String × JVal) → JVal

/-- First-match lookup in a property list (keys are distinct). -/
def getProp : List (String × JVal) → String → Option JVal
  | [], _ => none
  | (k, v) :: tl, key => if k = key then some v else getProp tl key

/-- JS property assignment on a property list: overwrite in place when
the key exists, else append. -/
def setProp : List (String × JVal) → String → JVal → List (String × JVal)
  | [], key, x => [(key, x)]
  | (k, v) :: tl, key, x =>
    if k = key then (k, x) :: tl else (k, v) :: setProp tl key x

/-- JS truthiness of a parsed value (`JSON.parse` cannot yield `NaN`). -/
def truthy : JVal → Bool
  | JVal.null => false
  | JVal.bool b => b
  | JVal.num q => !decide (q = 0)
  | JVal.str s => !decide (s = "")
  | JVal.arr _ _ => true
  | JVal.obj _ => true

/-- Truthiness of a property read (`none` is `undefined`, falsy). -/
def truthyO : Option JVal → Bool
  | none => false
  | some v => truthy v

/-- JS `typeof`. -/
def typeOf : JVal → String
  | JVal.null => "object"
  | JVal.bool _ => "boolean"
  | JVal.num _ => "number"
  | JVal.str _ => "string"
  | JVal.arr _ _ => "object"
  | JVal.obj _ => "object"

/-- `Array.isArray`. -/
def isArray : JVal → Bool
  | JVal.arr _ _ => true
  | _ => false

/-- The named-property table of an object or array node (`none` for
primitives, which have no own properties the repair pass could hit). -/
def getQ : JVal → String → Option JVal
  | JVal.obj props, k => getProp props k
  | JVal.arr _ props, k => getProp props k
  | _, _ => none

/-- Receivers on which property reads and writes both succeed: objects
and arrays. -/
def objLike : JVal → Bool
  | JVal.obj _ => true
  | JVal.arr _ _ => true
  | _ => false

/-- JS property read.  Reading on `null` throws; a missing property is
`undefined` (`none`); primitives autobox with no own properties (the
repair pass only reads fixed identifier keys, never `length` or an
index, so string exotic properties cannot arise). -/
def jsGet : JVal → String → Except String (Option JVal)
  | JVal.null, k => Except.error ("TypeError: cannot read " ++ k ++ " of null")
  | JVal.bool _, _ => Except.ok none
  | JVal.num _, _ => Except.ok none
  | JVal.str _, _ => Except.ok none
  | JVal.arr _ props, k => Except.ok (getProp props k)
  | JVal.obj props, k => Except.ok (getProp props k)

/-- JS property write in strict mode: writes on `null` or on a primitive
throw; object and array nodes are updated. -/
def jsSet : JVal → String → JVal → Except String JVal
  | JVal.null, k, _ => Except.error ("TypeError: cannot set " ++ k ++ " of null")
  | JVal.bool _, k, _ =>
    Except.error ("TypeError: cannot create property " ++ k ++ " on a boolean")
  | JVal.num _, k, _ =>
    Except.error ("TypeError: cannot create property " ++ k ++ " on a number")
  | JVal.str _, k, _ =>
    Except.error ("TypeError: cannot create property " ++ k ++ " on a string")
  | JVal.arr es props, k, x => Except.ok (JVal.arr es (setProp props k x))
  | JVal.obj props, k, x => Except.ok (JVal.obj (setProp props k x))

/-- JS strict equality on parse-tree values: primitives compare by
value; a comparison involving an object or array node is reference
equality, and the parse tree is sharing-free, so distinct nodes are
never reference-equal (the repair pass compares only nodes read from
disjoint paths, before any aliasing write). -/
def strictEq : JVal → JVal → Bool
  | JVal.null, JVal.null => true
  | JVal.bool a, JVal.bool b => decide (a = b)
  | JVal.num a, JVal.num b => decide (a = b)
  | JVal.str a, JVal.str b => decide (a = b)
  | _, _ => false

/-- `x === "lit"` where `x` is a property read (possibly `undefined`). -/
def oStrEqStr (o : Option JVal) (s : String) : Bool :=
  match o with
  | some (JVal.str t) => decide (t = s)
  | _ => false

/-- JS number-to-string for the nonnegative integers the repair pass
interpolates into template literals. -/
def natStr (n : Nat) : String := String.mk (Nat.toDigits 10 n)

/-- The wire string of a validated difficulty (`params.difficulty` is
one of `"easy" | "medium" | "hard"`). -/
def difficultyStr : Difficulty → String
  | Difficulty.easy => "easy"
  | Difficulty.medium => "medium"
  | Difficulty.hard => "hard"

/-- The four placeholder options of `generateFallbackOptions`. -/
def fallbackOptionList : List JVal :=
  [ JVal.obj [("id", JVal.str "opt-1"), ("text", JVal.str "Option A")]
  , JVal.obj [("id", JVal.str "opt-2"), ("text", JVal.str "Option B")]
  , JVal.obj [("id", JVal.str "opt-3"), ("text", JVal.str "Option C")]
  , JVal.obj [("id", JVal.str "opt-4"), ("text", JVal.str "Option D")] ]

/-- `generateFallbackOptions` of `src/lib/quiz/generate.ts` (its
`prompt` argument is unused by the source). -/
def generateFallbackOptions : JVal := JVal.arr fallbackOptionList []

/-- `generateFallbackExplanation`: `switch (question.type)` with MCQ,
true/false and default texts; the true/false text interpolates the
truthiness of `question.answer`. -/
def generateFallbackExplanation (question : JVal) : Except String String := do
  let ty ← jsGet question "type"
  if oStrEqStr ty "mcq" then
    pure "This question tests understanding of the key concepts presented in the document. The correct answer is based on specific information provided in the source material."
  else if oStrEqStr ty "true-false" then do
    let ans ← jsGet question "answer"
    pure ("This statement is " ++ (if truthyO ans then "true" else "false") ++
      " according to the information presented in the document.")
  else
    pure "This question is based on information provided in the document."

/-- The `if (!question.f) question.f = x;` defaulting pattern. -/
def ensureTruthy (v : JVal) (k : String) (x : JVal) : Except String JVal := do
  let cur ← jsGet v k
  if truthyO cur then pure v else jsSet v k x

/-- `if (!question.explanation) question.explanation =
generateFallbackExplanation(question);`. -/
def ensureExplanation (question : JVal) : Except String JVal := do
  let ev ← jsGet question "explanation"
  if truthyO ev then pure question
  else do
    let ex ← generateFallbackExplanation question
    jsSet question "explanation" (JVal.str ex)

/-- One step of the `question.options.forEach` repair: default a falsy
`id` to `opt-(idx+1)` and a falsy `text` to `Option (idx+1)`. -/
def fixOption (idx : Nat) (option : JVal) : Except String JVal := do
  let option ← ensureTruthy option "id" (JVal.str ("opt-" ++ natStr (idx + 1)))
  ensureTruthy option "text" (JVal.str ("Option " ++ natStr (idx + 1)))

/-- The `forEach` over the options array, with the running index. -/
def fixOptionsGo : Nat → List JVal → Except String (List JVal)
  | _, [] => pure []
  | idx, o :: tl => do
    let o2 ← fixOption idx o
    let tl2 ← fixOptionsGo (idx + 1) tl
    pure (o2 :: tl2)

/-- `opt.id === question.correctOptionId` for a read `opt.id`
(`undefined` strict-equals no parsed value). -/
def idMatches (idv : Option JVal) (c : JVal) : Bool :=
  match idv with
  | some v => strictEq v c
  | none => false

/-- `question.options.some(opt => opt.id === question.correctOptionId)`. -/
def someOptIdEq : List JVal → JVal → Except String Bool
  | [], _ => pure false
  | o :: tl, cid => do
    let idv ← jsGet o "id"
    if idMatches idv cid then pure true
    else someOptIdEq tl cid

/-- The `options` condition of the repair pass:
`Array.isArray(question.options) && question.options.length === 4`
applied to a read `options` value. -/
def optsIs4 (o : Option JVal) : Bool :=
  match o with
  | some (JVal.arr es _) => decide (es.length = 4)
  | _ => false

/-- The `forEach` write-back: repair the elements of the read `options`
value (which the previous step ensured is an array) in place. -/
def forEachOptions (question : JVal) (ov : Option JVal) : Except String JVal :=
  match ov with
  | some (JVal.arr es props) => do
      let es2 ← fixOptionsGo 0 es
      jsSet question "options" (JVal.arr es2 props)
  | _ =>
      -- unreachable: `options` was just ensured to be an array
      pure question

/-- `question.options.some(...)` dispatched on the read `options` value
(calling `.some` on a non-array would itself be a `TypeError`). -/
def someOnOptions (ov : Option JVal) (c : JVal) : Except String Bool :=
  match ov with
  | some (JVal.arr es _) => someOptIdEq es c
  | _ => Except.error "TypeError: question.options.some is not a function"

/-- `!question.correctOptionId || !question.options.some(...)` given the
read `correctOptionId` (the `some` runs only when the first disjunct is
false). -/
def correctIdNeedsFix (question : JVal) (cov : Option JVal) :
    Except String Bool :=
  match cov with
  | some c =>
    if truthy c then do
      let ov ← jsGet question "options"
      let b ← someOnOptions ov c
      pure (!b)
    else pure true
  | none => pure true

/-- `question.correctOptionId = question.options[0].id` given the read
`options` value. -/
def assignFirstOptionId (question : JVal) (ov : Option JVal) :
    Except String JVal :=
  match ov with
  | some (JVal.arr (o0 :: _) _) => do
      let idv ← jsGet o0 "id"
      -- `options[0].id` is truthy after the `forEach`, so an
      -- `undefined` assignment (`none`) is unreachable here
      jsSet question "correctOptionId" (idv.getD JVal.null)
  | _ => Except.error "TypeError: cannot read id of undefined"

/-- The MCQ branch of the per-question repair (lines 372–387 of
`src/lib/quiz/generate.ts`). -/
def fixMcq (question : JVal) : Except String JVal := do
  let ov ← jsGet question "options"
  let question ←
    if optsIs4 ov then pure question
    else do
      let _ ← jsGet question "prompt"
      jsSet question "options" generateFallbackOptions
  let ov2 ← jsGet question "options"
  let question ← forEachOptions question ov2
  let cov ← jsGet question "correctOptionId"
  let needsFix ← correctIdNeedsFix question cov
  if needsFix then do
    let ov4 ← jsGet question "options"
    assignFirstOptionId question ov4
  else pure question

/-- `typeof question.answer !== 'boolean'`, negated, on a read value. -/
def isBoolRead (o : Option JVal) : Bool :=
  match o with
  | some (JVal.bool _) => true
  | _ => false

/-- The true/false branch: a non-boolean `answer` defaults to `true`. -/
def fixTrueFalse (question : JVal) : Except String JVal := do
  let av ← jsGet question "answer"
  if isBoolRead av then pure question
  else jsSet question "answer" (JVal.bool true)

/-- The per-question repair of `validateAndCorrectQuiz` (lines 360–397);
`t` is the running `totalQuestions` before this question. -/
def fixQuestion (params : GenerationParams) (t : Nat) (question : JVal) :
    Except String JVal := do
  let question ← ensureTruthy question "id" (JVal.str ("q-" ++ natStr (t + 1)))
  let question ← ensureTruthy question "prompt" (JVal.str "Question prompt missing")
  let question ← ensureExplanation question
  let question ← ensureTruthy question "difficulty"
    (JVal.str (difficultyStr params.difficulty))
  let tyv ← jsGet question "type"
  let question ← if oStrEqStr tyv "mcq" then fixMcq question else pure question
  let tyv2 ← jsGet question "type"
  if oStrEqStr tyv2 "true-false" then fixTrueFalse question else pure question

/-- The inner `for` loop over `section.questions`; returns the repaired
questions and the updated `totalQuestions`. -/
def fixQuestionsGo (params : GenerationParams) :
    Nat → List JVal → Except String (List JVal × Nat)
  | t, [] => pure ([], t)
  | t, q :: tl => do
    let q2 ← fixQuestion params t q
    let r ← fixQuestionsGo params (t + 1) tl
    pure (q2 :: r.1, r.2)

/-- The body of the outer loop given the read `section.questions`: a
non-array is replaced by `[]` and the section skipped (`continue`); an
array is repaired element-wise. -/
def repairSectionQuestions (params : GenerationParams) (t : Nat) (s : JVal)
    (qv : Option JVal) : Except String (JVal × Nat) :=
  match qv with
  | some (JVal.arr qs props) => do
      let r ← fixQuestionsGo params t qs
      let s2 ← jsSet s "questions" (JVal.arr r.1 props)
      pure (s2, r.2)
  | _ => do
      let s2 ← jsSet s "questions" (JVal.arr [] [])
      pure (s2, t)

/-- One section of the outer loop. -/
def fixSection (params : GenerationParams) (t : Nat) (s : JVal) :
    Except String (JVal × Nat) := do
  let qv ← jsGet s "questions"
  repairSectionQuestions params t s qv

/-- `for (const section of quiz.sections)`. -/
def fixSectionsGo (params : GenerationParams) :
    Nat → List JVal → Except String (List JVal × Nat)
  | t, [] => pure ([], t)
  | t, s :: tl => do
    let r ← fixSection params t s
    let r2 ← fixSectionsGo params r.2 tl
    pure (r.1 :: r2.1, r2.2)

/-- The default section synthesized when `quiz.sections` is empty. -/
def defaultSection : JVal :=
  JVal.obj [("id", JVal.str "section-1"), ("title", JVal.str "Quiz Questions"),
            ("questions", JVal.arr [] [])]

/-- The default `meta` synthesized when `quiz.meta` is falsy (`now` is
`new Date().toISOString()`). -/
def defaultMeta (params : GenerationParams) (now : String) : JVal :=
  JVal.obj [("title", JVal.str "Generated Quiz"),
            ("language", JVal.str params.language),
            ("numQuestions", JVal.num (params.numQuestions : ℚ)),
            ("createdAt", JVal.str now)]

/-- `if (!quiz.meta) quiz.meta = { ... }` on the read value. -/
def ensureMetaObj (quiz : JVal) (mv : Option JVal) (params : GenerationParams)
    (now : String) : Except String JVal :=
  if truthyO mv then pure quiz else jsSet quiz "meta" (defaultMeta params now)

/-- `if (!Array.isArray(quiz.sections)) quiz.sections = [];` on the read
value. -/
def ensureSectionsArray (quiz : JVal) (sv : Option JVal) :
    Except String JVal :=
  match sv with
  | some (JVal.arr _ _) => pure quiz
  | _ => jsSet quiz "sections" (JVal.arr [] [])

/-- `if (quiz.sections.length === 0) quiz.sections = [defaultSection];`
on the read value. -/
def ensureSectionsNonempty (quiz : JVal) (sv : Option JVal) :
    Except String JVal :=
  match sv with
  | some (JVal.arr [] _) => jsSet quiz "sections" (JVal.arr [defaultSection] [])
  | _ => pure quiz

/-- `quiz.meta.numQuestions = totalQuestions` given the read `quiz.meta`
(in-place mutation of the meta node, written back to its unchanged
position). -/
def setMetaNumQuestions (quiz : JVal) (mv : Option JVal) (total : Nat) :
    Except String JVal :=
  match mv with
  | some m => do
      let m2 ← jsSet m "numQuestions" (JVal.num (total : ℚ))
      jsSet quiz "meta" m2
  | none => Except.error "TypeError: cannot set numQuestions of undefined"

/-- The section loop plus the final `meta.numQuestions` update, given
the read `quiz.sections` (an array at this point). -/
def repairSections (params : GenerationParams) (quiz : JVal)
    (sv : Option JVal) : Except String JVal :=
  match sv with
  | some (JVal.arr secs props) => do
      let r ← fixSectionsGo params 0 secs
      let quiz ← jsSet quiz "sections" (JVal.arr r.1 props)
      let mv2 ← jsGet quiz "meta"
      setMetaNumQuestions quiz mv2 r.2
  | _ =>
      -- unreachable: `sections` was just ensured to be an array
      Except.error "TypeError: quiz.sections is not iterable"

/-- `validateAndCorrectQuiz` of `src/lib/quiz/generate.ts`, with the
timestamp `new Date().toISOString()` passed in as `now`.  A JS exception
— the explicit throw for non-objects, or a `TypeError` raised by a
property access — is `Except.error`. -/
def validateAndCorrectQuiz (parsed : JVal) (params : GenerationParams)
    (now : String) : Except String JVal :=
  if !truthy parsed || typeOf parsed != "object" then
    Except.error "AI response is not a valid object"
  else do
    let mv ← jsGet parsed "meta"
    let quiz ← ensureMetaObj parsed mv params now
    let sv ← jsGet quiz "sections"
    let quiz ← ensureSectionsArray quiz sv
    let sv2 ← jsGet quiz "sections"
    let quiz ← ensureSectionsNonempty quiz sv2
    let sv3 ← jsGet quiz "sections"
    repairSections params quiz sv3

/-! ### The zod `QuizSchema` (`src/unnamed/part_000`) as a predicate -/

/-- JS string `.length` (UTF-16 code units). -/
def jsLength (s : String) : Nat :=
  (s.data.map (fun c => if c.toNat ≥ 65536 then 2 else 1)).sum

/-- `z.string()` acceptance of a property read. -/
def zStr : Option JVal → Bool
  | some (JVal.str _) => true
  | _ => false

/-- `z.string().min(1)`. -/
def zStrMin1 : Option JVal → Bool
  | some (JVal.str s) => decide (1 ≤ jsLength s)
  | _ => false

/-- `McqOptionSchema`: an object with a nonempty `id` string and a
`text` string of 1 to 200 UTF-16 units. -/
def mcqOptionValid (v : JVal) : Bool :=
  match v with
  | JVal.obj props =>
    zStrMin1 (getProp props "id") &&
    (match getProp props "text" with
     | some (JVal.str s) => decide (1 ≤ jsLength s) && decide (jsLength s ≤ 200)
     | _ => false)
  | _ => false

/-- `AnyQuestionSchema`: the discriminated union on `type` over
`McqQuestionSchema` and `TrueFalseQuestionSchema`, with the
`QuestionBaseSchema` fields (`difficulty` defaults when absent,
`sourceSpan` is optional) and the MCQ refinement that
`correctOptionId` matches an option id. -/
def anyQuestionValid (v : JVal) : Bool :=
  match v with
  | JVal.obj props =>
    zStr (getProp props "id") &&
    zStrMin1 (getProp props "prompt") &&
    (match getProp props "difficulty" with
     | none => true
     | some (JVal.str s) =>
       decide (s = "easy") || decide (s = "medium") || decide (s = "hard")
     | some _ => false) &&
    (match getProp props "sourceSpan" with
     | none => true
     | some (JVal.str _) => true
     | some _ => false) &&
    zStrMin1 (getProp props "explanation") &&
    (match getProp props "type" with
     | some (JVal.str t) =>
       if t = "mcq" then
         (match getProp props "options" with
          | some (JVal.arr os _) =>
            decide (os.length = 4) && os.all mcqOptionValid
          | _ => false) &&
         zStr (getProp props "correctOptionId") &&
         (match getProp props "correctOptionId", getProp props "options" with
          | some (JVal.str cid), some (JVal.arr os _) =>
            os.any (fun o => match o with
              | JVal.obj ops =>
                (match getProp ops "id" with
                 | some (JVal.str i) => decide (i = cid)
                 | _ => false)
              | _ => false)
          | _, _ => false)
       else if t = "true-false" then
         (match getProp props "answer" with
          | some (JVal.bool _) => true
          | _ => false)
       else false
     | _ => false)
  | _ => false

/-- `QuizSectionSchema`: id string, nonempty title, and a nonempty
array of valid questions. -/
def quizSectionValid (v : JVal) : Bool :=
  match v with
  | JVal.obj props =>
    zStr (getProp props "id") &&
    zStrMin1 (getProp props "title") &&
    (match getProp props "questions" with
     | some (JVal.arr qs _) => decide (1 ≤ qs.length) && qs.all anyQuestionValid
     | _ => false)
  | _ => false

/-- `QuizMetaSchema`: nonempty title, optional-with-default language,
positive integer `numQuestions`, `createdAt` string. -/
def quizMetaValid (v : JVal) : Bool :=
  match v with
  | JVal.obj props =>
    zStrMin1 (getProp props "title") &&
    (match getProp props "language" with
     | none => true
     | some (JVal.str _) => true
     | some _ => false) &&
    (match getProp props "numQuestions" with
     | some (JVal.num q) => decide (q.den = 1) && decide (0 < q.num)
     | _ => false) &&
    zStr (getProp props "createdAt")
  | _ => false

/-- `QuizSchema.safeParse` success, as a predicate: a plain object with
a valid `meta` and a nonempty array of valid `sections`. -/
def quizSchemaValid (v : JVal) : Bool :=
  match v with
  | JVal.obj props =>
    (match getProp props "meta" with
     | some m => quizMetaValid m
     | none => false) &&
    (match getProp props "sections" with
     | some (JVal.arr ss _) => decide (1 ≤ ss.length) && ss.all quizSectionValid
     | _ => false)
  | _ => false

/-- The post-parse stage of `generateQuizFromChunks` (lines 199–208): a
repair throw propagates out; a repaired quiz that fails the strict
`QuizSchema` check throws `Generated quiz failed validation`.  (On
success the zod-transformed quiz is returned to the caller; the success
value is not needed by any claim and is elided.) -/
def quizFromParsed (parsed : JVal) (params : GenerationParams)
    (now : String) : Except GenError Unit :=
  match validateAndCorrectQuiz parsed params now with
  | Except.error e => Except.error (GenError.repairThrew e)
  | Except.ok corrected =>
    if quizSchemaValid corrected then Except.ok ()
    else Except.error GenError.schemaValidationFailed

/-! ### Question counting and the safe domain of the repair pass -/

/-- The number of questions of a section node: the length of its
`questions` array (0 if absent or not an array). -/
def sectionQuestionCount (s : JVal) : Nat :=
  match getQ s "questions" with
  | some (JVal.arr qs _) => qs.length
  | _ => 0

/-- The total number of questions of a quiz node, summed across its
`sections`. -/
def quizQuestionCount (v : JVal) : Nat :=
  match getQ v "sections" with
  | some (JVal.arr ss _) => (ss.map sectionQuestionCount).sum
  | _ => 0

/-- An option entry the repair pass can process without a `TypeError`:
an object or array node. -/
def optionSafe (o : JVal) : Bool := objLike o

/-- A question entry the repair pass can process without a `TypeError`:
an object or array node whose `options` — when the question is
`mcq`-typed and `options` is an array of exactly 4 entries — holds only
objects or arrays. -/
def questionSafe (q : JVal) : Bool :=
  objLike q &&
  (match getQ q "type" with
   | some (JVal.str t) =>
     if t = "mcq" then
       match getQ q "options" with
       | some (JVal.arr os _) =>
         if os.length = 4 then os.all optionSafe else true
       | _ => true
     else true
   | _ => true)

/-- A section entry the repair pass can process without a `TypeError`. -/
def sectionSafe (s : JVal) : Bool :=
  objLike s &&
  (match getQ s "questions" with
   | some (JVal.arr qs _) => qs.all questionSafe
   | _ => true)

/-- Parsed values the repair pass accepts and completes on: an object or
array whose `meta`, when truthy, is an object or array, and whose
`sections` entries (with their questions and 4-entry mcq options) are
objects or arrays wherever the repair pass writes into them. -/
def repairSafe (parsed : JVal) : Bool :=
  objLike parsed &&
  (match getQ parsed "meta" with
   | some m => !truthy m || objLike m
   | none => true) &&
  (match getQ parsed "sections" with
   | some (JVal.arr ss _) => ss.all sectionSafe
   | _ => true)

/-! ### Plumbing lemmas for `Except` programs -/

theorem ok_bind {α β : Type} (a : α) (f : α → Except String β) :
    (Except.ok a >>= f : Except String β) = f a := rfl

theorem pure_bind_e {α β : Type} (a : α) (f : α → Except String β) :
    ((pure a : Except String α) >>= f) = f a := rfl

theorem error_bind {α β : Type} (e : String) (f : α → Except String β) :
    ((Except.error e : Except String α) >>= f) = Except.error e := rfl

theorem ebind_ok {α β : Type} {x : Except String α} {f : α → Except String β}
    {b : β} (h : (x >>= f) = Except.ok b) :
    ∃ a, x = Except.ok a ∧ f a = Except.ok b := by
  cases x with
  | error e => rw [error_bind] at h; exact Except.noConfusion h
  | ok a => exact ⟨a, rfl, by rw [ok_bind] at h; exact h⟩

theorem epure_ok {α : Type} {a b : α}
    (h : (pure a : Except String α) = Except.ok b) : a = b :=
  Except.ok.inj h

/-! ### Property-table lemmas -/

theorem getProp_setProp_self (ps : List (String × JVal)) (k : String) (x : JVal) :
    getProp (setProp ps k x) k = some x := by
  induction ps with
  | nil => simp [setProp, getProp]
  | cons hd tl ih =>
    obtain ⟨a, b⟩ := hd
    by_cases h : a = k
    · simp [setProp, getProp, h]
    · simp [setProp, getProp, h, ih]

theorem getProp_setProp_ne (ps : List (String × JVal)) {k k2 : String}
    (x : JVal) (h : k2 ≠ k) :
    getProp (setProp ps k x) k2 = getProp ps k2 := by
  induction ps with
  | nil => simp [setProp, getProp, Ne.symm h]
  | cons hd tl ih =>
    obtain ⟨a, b⟩ := hd
    by_cases ha : a = k
    · subst ha
      simp [setProp, getProp, Ne.symm h]
    · by_cases ha2 : a = k2
      · subst ha2
        simp [setProp, getProp, h, ha]
      · simp [setProp, getProp, ha, ha2, ih]

theorem jsGet_objLike {v : JVal} (h : objLike v = true) (k : String) :
    jsGet v k = Except.ok (getQ v k) := by
  cases v with
  | arr es props => rfl
  | obj props => rfl
  | null => simp [objLike] at h
  | bool b => simp [objLike] at h
  | num q => simp [objLike] at h
  | str s => simp [objLike] at h

theorem jsSet_objLike {v : JVal} (h : objLike v = true) (k : String) (x : JVal) :
    ∃ w, jsSet v k x = Except.ok w ∧ objLike w = true ∧
      getQ w k = some x ∧ ∀ k2, k2 ≠ k → getQ w k2 = getQ v k2 := by
  cases v with
  | arr es props =>
    exact ⟨JVal.arr es (setProp props k x), rfl, rfl,
      getProp_setProp_self props k x,
      fun k2 hk2 => getProp_setProp_ne props x hk2⟩
  | obj props =>
    exact ⟨JVal.obj (setProp props k x), rfl, rfl,
      getProp_setProp_self props k x,
      fun k2 hk2 => getProp_setProp_ne props x hk2⟩
  | null => simp [objLike] at h
  | bool b => simp [objLike] at h
  | num q => simp [objLike] at h
  | str s => simp [objLike] at h

theorem jsSet_ok {v w : JVal} {k : String} {x : JVal}
    (h : jsSet v k x = Except.ok w) :
    objLike w = true ∧ getQ w k = some x ∧
      ∀ k2, k2 ≠ k → getQ w k2 = getQ v k2 := by
  cases v with
  | arr es props =>
    cases h
    exact ⟨rfl, getProp_setProp_self props k x,
      fun k2 hk2 => getProp_setProp_ne props x hk2⟩
  | obj props =>
    cases h
    exact ⟨rfl, getProp_setProp_self props k x,
      fun k2 hk2 => getProp_setProp_ne props x hk2⟩
  | null => exact Except.noConfusion h
  | bool b => exact Except.noConfusion h
  | num q => exact Except.noConfusion h
  | str s => exact Except.noConfusion h

theorem objLike_truthy {v : JVal} (h : objLike v = true) : truthy v = true := by
  cases v <;> first | rfl | simp [objLike] at h

theorem objLike_typeOf {v : JVal} (h : objLike v = true) :
    typeOf v = "object" := by
  cases v <;> first | rfl | simp [objLike] at h

/-! ### Specifications of the defaulting steps -/

theorem ensureTruthy_spec {v : JVal} (h : objLike v = true) (k : String)
    (x : JVal) :
    ∃ w, ensureTruthy v k x = Except.ok w ∧ objLike w = true ∧
      ∀ k2, k2 ≠ k → getQ w k2 = getQ v k2 := by
  unfold ensureTruthy
  rw [jsGet_objLike h k, ok_bind]
  by_cases hts : truthyO (getQ v k) = true
  · rw [if_pos hts]; exact ⟨v, rfl, h, fun _ _ => rfl⟩
  · rw [if_neg hts]
    obtain ⟨w, hw, ho, _, hp⟩ := jsSet_objLike h k x
    exact ⟨w, hw, ho, hp⟩

theorem generateFallbackExplanation_ok {q : JVal} (h : objLike q = true) :
    ∃ s, generateFallbackExplanation q = Except.ok s := by
  unfold generateFallbackExplanation
  rw [jsGet_objLike h "type", ok_bind]
  by_cases h1 : oStrEqStr (getQ q "type") "mcq" = true
  · rw [if_pos h1]; exact ⟨_, rfl⟩
  · rw [if_neg h1]
    by_cases h2 : oStrEqStr (getQ q "type") "true-false" = true
    · rw [if_pos h2, jsGet_objLike h "answer", ok_bind]; exact ⟨_, rfl⟩
    · rw [if_neg h2]; exact ⟨_, rfl⟩

theorem ensureExplanation_spec {v : JVal} (h : objLike v = true) :
    ∃ w, ensureExplanation v = Except.ok w ∧ objLike w = true ∧
      ∀ k2, k2 ≠ "explanation" → getQ w k2 = getQ v k2 := by
  unfold ensureExplanation
  rw [jsGet_objLike h "explanation", ok_bind]
  by_cases hts : truthyO (getQ v "explanation") = true
  · rw [if_pos hts]; exact ⟨v, rfl, h, fun _ _ => rfl⟩
  · rw [if_neg hts]
    obtain ⟨s, hs⟩ := generateFallbackExplanation_ok h
    rw [hs, ok_bind]
    obtain ⟨w, hw, ho, _, hp⟩ := jsSet_objLike h "explanation" (JVal.str s)
    exact ⟨w, hw, ho, hp⟩

theorem fixOption_spec {o : JVal} (h : objLike o = true) (idx : Nat) :
    ∃ o2, fixOption idx o = Except.ok o2 ∧ objLike o2 = true := by
  unfold fixOption
  obtain ⟨o1, e1, h1, _⟩ := ensureTruthy_spec h "id"
    (JVal.str ("opt-" ++ natStr (idx + 1)))
  rw [e1, ok_bind]
  obtain ⟨o2, e2, h2, _⟩ := ensureTruthy_spec h1 "text"
    (JVal.str ("Option " ++ natStr (idx + 1)))
  exact ⟨o2, e2, h2⟩

theorem fixOptionsGo_total {os : List JVal}
    (h : ∀ o ∈ os, objLike o = true) (idx : Nat) :
    ∃ os2, fixOptionsGo idx os = Except.ok os2 ∧
      os2.length = os.length ∧ ∀ o2 ∈ os2, objLike o2 = true := by
  induction os generalizing idx with
  | nil => exact ⟨[], rfl, rfl, by simp⟩
  | cons hd tl ih =>
    obtain ⟨h2, eh, hh⟩ := fixOption_spec (h hd (by simp)) idx
    obtain ⟨tl2, et, hlen, htl⟩ := ih (fun o ho => h o (by simp [ho])) (idx + 1)
    refine ⟨h2 :: tl2, ?_, by simp [hlen], ?_⟩
    · show (do
        let o2 ← fixOption idx hd
        let tl3 ← fixOptionsGo (idx + 1) tl
        pure (o2 :: tl3)) = Except.ok (h2 :: tl2)
      rw [eh, ok_bind, et, ok_bind]
      rfl
    · intro o2 ho2
      rcases List.mem_cons.mp ho2 with h' | h'
      · rw [h']; exact hh
      · exact htl o2 h'

theorem someOptIdEq_total {os : List JVal}
    (h : ∀ o ∈ os, objLike o = true) (c : JVal) :
    ∃ b, someOptIdEq os c = Except.ok b := by
  induction os with
  | nil => exact ⟨false, rfl⟩
  | cons hd tl ih =>
    obtain ⟨b, hb⟩ := ih (fun o ho => h o (by simp [ho]))
    by_cases hc : idMatches (getQ hd "id") c = true
    · refine ⟨true, ?_⟩
      show (do
        let idv ← jsGet hd "id"
        if idMatches idv c then pure true else someOptIdEq tl c) = _
      rw [jsGet_objLike (h hd (by simp)) "id", ok_bind, if_pos hc]
      rfl
    · refine ⟨b, ?_⟩
      show (do
        let idv ← jsGet hd "id"
        if idMatches idv c then pure true else someOptIdEq tl c) = _
      rw [jsGet_objLike (h hd (by simp)) "id", ok_bind, if_neg hc]
      exact hb

theorem idMatches_true {idv : Option JVal} {c : JVal}
    (h : idMatches idv c = true) :
    ∃ v, idv = some v ∧ strictEq v c = true := by
  cases idv with
  | none => simp [idMatches] at h
  | some v => exact ⟨v, rfl, h⟩

theorem someOptIdEq_true {os : List JVal} {c : JVal}
    (h : someOptIdEq os c = Except.ok true) :
    ∃ o ∈ os, ∃ v, jsGet o "id" = Except.ok (some v) ∧ strictEq v c = true := by
  induction os with
  | nil => exact Bool.noConfusion (Except.ok.inj h)
  | cons hd tl ih =>
    rw [show someOptIdEq (hd :: tl) c = (do
      let idv ← jsGet hd "id"
      if idMatches idv c then pure true else someOptIdEq tl c) from rfl] at h
    obtain ⟨idv, hidv, h2⟩ := ebind_ok h
    by_cases hc : idMatches idv c = true
    · obtain ⟨v, rfl, hv⟩ := idMatches_true hc
      exact ⟨hd, by simp, v, hidv, hv⟩
    · rw [if_neg hc] at h2
      obtain ⟨o, ho, rest⟩ := ih h2
      exact ⟨o, by simp [ho], rest⟩

theorem strictEq_str {s : String} {c : JVal} (h : strictEq (JVal.str s) c = true) :
    c = JVal.str s := by
  cases c with
  | str t =>
    have hst : s = t := of_decide_eq_true h
    rw [hst]
  | null => simp [strictEq] at h
  | bool b => simp [strictEq] at h
  | num q => simp [strictEq] at h
  | arr es props => simp [strictEq] at h
  | obj props => simp [strictEq] at h

/-! ### Equation lemmas for the MCQ branch -/

theorem forEachOptions_arr (question : JVal) (es : List JVal)
    (props : List (String × JVal)) :
    forEachOptions question (some (JVal.arr es props)) = (do
      let es2 ← fixOptionsGo 0 es
      jsSet question "options" (JVal.arr es2 props)) := rfl

theorem someOnOptions_arr (es : List JVal) (props : List (String × JVal))
    (c : JVal) :
    someOnOptions (some (JVal.arr es props)) c = someOptIdEq es c := rfl

theorem correctIdNeedsFix_none (question : JVal) :
    correctIdNeedsFix question none = pure true := rfl

theorem correctIdNeedsFix_some (question : JVal) (c : JVal) :
    correctIdNeedsFix question (some c) =
      if truthy c then (do
        let ov ← jsGet question "options"
        let b ← someOnOptions ov c
        pure (!b))
      else pure true := rfl

theorem assignFirstOptionId_cons (question o0 : JVal) (rest : List JVal)
    (props : List (String × JVal)) :
    assignFirstOptionId question (some (JVal.arr (o0 :: rest) props)) = (do
      let idv ← jsGet o0 "id"
      jsSet question "correctOptionId" (idv.getD JVal.null)) := rfl

theorem assignFirst_fallback (question : JVal) :
    assignFirstOptionId question (some (JVal.arr fallbackOptionList [])) =
      jsSet question "correctOptionId" (JVal.str "opt-1") := rfl

theorem fixOptionsGo_fallback :
    fixOptionsGo 0 fallbackOptionList = Except.ok fallbackOptionList := rfl

theorem fallback_objLike : ∀ o ∈ fallbackOptionList, objLike o = true := by
  decide

theorem optsIs4_true {o : Option JVal} (h : optsIs4 o = true) :
    ∃ es props, o = some (JVal.arr es props) ∧ es.length = 4 := by
  cases o with
  | none => simp [optsIs4] at h
  | some v =>
    cases v with
    | arr es props => exact ⟨es, props, rfl, of_decide_eq_true h⟩
    | null => simp [optsIs4] at h
    | bool b => simp [optsIs4] at h
    | num q => simp [optsIs4] at h
    | str t => simp [optsIs4] at h
    | obj props => simp [optsIs4] at h

theorem someOptIdEq_fallback (c : JVal) :
    ∃ b, someOptIdEq fallbackOptionList c = Except.ok b ∧
      (b = true → c = JVal.str "opt-1" ∨ c = JVal.str "opt-2" ∨
        c = JVal.str "opt-3" ∨ c = JVal.str "opt-4") := by
  have e : someOptIdEq fallbackOptionList c =
      (if strictEq (JVal.str "opt-1") c then (pure true : Except String Bool)
       else if strictEq (JVal.str "opt-2") c then pure true
       else if strictEq (JVal.str "opt-3") c then pure true
       else if strictEq (JVal.str "opt-4") c then pure true
       else pure false) := rfl
  by_cases h1 : strictEq (JVal.str "opt-1") c = true
  · exact ⟨true, by rw [e, if_pos h1]; rfl, fun _ => Or.inl (strictEq_str h1)⟩
  · by_cases h2 : strictEq (JVal.str "opt-2") c = true
    · exact ⟨true, by rw [e, if_neg h1, if_pos h2]; rfl,
        fun _ => Or.inr (Or.inl (strictEq_str h2))⟩
    · by_cases h3 : strictEq (JVal.str "opt-3") c = true
      · exact ⟨true, by rw [e, if_neg h1, if_neg h2, if_pos h3]; rfl,
          fun _ => Or.inr (Or.inr (Or.inl (strictEq_str h3)))⟩
      · by_cases h4 : strictEq (JVal.str "opt-4") c = true
        · exact ⟨true, by rw [e, if_neg h1, if_neg h2, if_neg h3, if_pos h4]; rfl,
            fun _ => Or.inr (Or.inr (Or.inr (strictEq_str h4)))⟩
        · exact ⟨false,
            by rw [e, if_neg h1, if_neg h2, if_neg h3, if_neg h4]; rfl,
            fun hf => Bool.noConfusion hf⟩

/-- The closing step of the MCQ branch when `correctOptionId` must be
reassigned and `options` is the fallback array. -/
theorem fixMcq_tail_assigns {q6 : JVal} (ho6 : objLike q6 = true)
    (hg6 : getQ q6 "options" = some (JVal.arr fallbackOptionList [])) :
    ∃ q7, (do
        let ov4 ← jsGet q6 "options"
        assignFirstOptionId q6 ov4) = Except.ok q7 ∧
      objLike q7 = true ∧
      getQ q7 "correctOptionId" = some (JVal.str "opt-1") ∧
      ∀ k2, k2 ≠ "correctOptionId" → getQ q7 k2 = getQ q6 k2 := by
  obtain ⟨q7, e7, ho7, hg7, hp7⟩ :=
    jsSet_objLike ho6 "correctOptionId" (JVal.str "opt-1")
  refine ⟨q7, ?_, ho7, hg7, hp7⟩
  rw [jsGet_objLike ho6 "options", hg6]
  simp only [ok_bind]
  rw [assignFirst_fallback, e7]

/-- The MCQ branch on a question whose `options` is missing or not a
4-element array: the options become the four fallback placeholders and
`correctOptionId` one of their ids; all other properties are
untouched. -/
theorem fixMcq_fallback {q : JVal} (hobj : objLike q = true)
    (hopt : optsIs4 (getQ q "options") = false) :
    ∃ q2 cid, fixMcq q = Except.ok q2 ∧ objLike q2 = true ∧
      getQ q2 "options" = some (JVal.arr fallbackOptionList []) ∧
      getQ q2 "correctOptionId" = some (JVal.str cid) ∧
      (cid = "opt-1" ∨ cid = "opt-2" ∨ cid = "opt-3" ∨ cid = "opt-4") ∧
      ∀ k2, k2 ≠ "options" → k2 ≠ "correctOptionId" →
        getQ q2 k2 = getQ q k2 := by
  obtain ⟨q5, e5, ho5, hg5, hp5⟩ :=
    jsSet_objLike hobj "options" generateFallbackOptions
  have hg5f : getQ q5 "options" = some (JVal.arr fallbackOptionList []) := hg5
  obtain ⟨q6, e6, ho6, hg6, hp6⟩ :=
    jsSet_objLike ho5 "options" (JVal.arr fallbackOptionList [])
  have estep : fixMcq q = (do
      let cov ← jsGet q6 "correctOptionId"
      let needsFix ← correctIdNeedsFix q6 cov
      if needsFix then do
        let ov4 ← jsGet q6 "options"
        assignFirstOptionId q6 ov4
      else pure q6) := by
    unfold fixMcq
    rw [jsGet_objLike hobj "options"]
    simp only [ok_bind]
    rw [if_neg (by rw [hopt]; exact Bool.false_ne_true)]
    rw [jsGet_objLike hobj "prompt"]
    simp only [ok_bind]
    rw [e5]
    simp only [ok_bind]
    rw [jsGet_objLike ho5 "options"]
    simp only [ok_bind]
    rw [hg5f, forEachOptions_arr, fixOptionsGo_fallback]
    simp only [ok_bind]
    rw [e6]
    simp only [ok_bind]
  cases hcov : getQ q6 "correctOptionId" with
  | none =>
    obtain ⟨q7, e7, ho7, hg7, hp7⟩ := fixMcq_tail_assigns ho6 hg6
    refine ⟨q7, "opt-1", ?_, ho7, ?_, hg7, Or.inl rfl, ?_⟩
    · rw [estep, jsGet_objLike ho6 "correctOptionId", hcov]
      simp only [ok_bind]
      rw [correctIdNeedsFix_none]
      simp only [pure_bind_e]
      rw [if_pos trivial]
      exact e7
    · rw [hp7 "options" (by decide), hg6]
    · intro k2 h2 h3
      rw [hp7 k2 h3, hp6 k2 h2, hp5 k2 h2]
  | some c =>
    by_cases htc : truthy c = true
    · obtain ⟨b, hb, hbi⟩ := someOptIdEq_fallback c
      have hneed : correctIdNeedsFix q6 (some c) = Except.ok (!b) := by
        rw [correctIdNeedsFix_some, if_pos htc, jsGet_objLike ho6 "options",
          hg6]
        simp only [ok_bind]
        rw [someOnOptions_arr, hb]
        simp only [ok_bind]
        rfl
      cases b with
      | true =>
        have hrun : fixMcq q = Except.ok q6 := by
          rw [estep, jsGet_objLike ho6 "correctOptionId", hcov]
          simp only [ok_bind]
          rw [hneed]
          simp only [ok_bind]
          rw [if_neg (by decide)]
          rfl
        rcases hbi rfl with h1 | h1 | h1 | h1
        · exact ⟨q6, "opt-1", hrun, ho6, hg6, by rw [hcov, h1], Or.inl rfl,
            fun k2 h2 _ => by rw [hp6 k2 h2, hp5 k2 h2]⟩
        · exact ⟨q6, "opt-2", hrun, ho6, hg6, by rw [hcov, h1],
            Or.inr (Or.inl rfl),
            fun k2 h2 _ => by rw [hp6 k2 h2, hp5 k2 h2]⟩
        · exact ⟨q6, "opt-3", hrun, ho6, hg6, by rw [hcov, h1],
            Or.inr (Or.inr (Or.inl rfl)),
            fun k2 h2 _ => by rw [hp6 k2 h2, hp5 k2 h2]⟩
        · exact ⟨q6, "opt-4", hrun, ho6, hg6, by rw [hcov, h1],
            Or.inr (Or.inr (Or.inr rfl)),
            fun k2 h2 _ => by rw [hp6 k2 h2, hp5 k2 h2]⟩
      | false =>
        obtain ⟨q7, e7, ho7, hg7, hp7⟩ := fixMcq_tail_assigns ho6 hg6
        refine ⟨q7, "opt-1", ?_, ho7, ?_, hg7, Or.inl rfl, ?_⟩
        · rw [estep, jsGet_objLike ho6 "correctOptionId", hcov]
          simp only [ok_bind]
          rw [hneed]
          simp only [ok_bind]
          rw [if_pos (by decide)]
          exact e7
        · rw [hp7 "options" (by decide), hg6]
        · intro k2 h2 h3
          rw [hp7 k2 h3, hp6 k2 h2, hp5 k2 h2]
    · obtain ⟨q7, e7, ho7, hg7, hp7⟩ := fixMcq_tail_assigns ho6 hg6
      refine ⟨q7, "opt-1", ?_, ho7, ?_, hg7, Or.inl rfl, ?_⟩
      · rw [estep, jsGet_objLike ho6 "correctOptionId", hcov]
        simp only [ok_bind]
        rw [correctIdNeedsFix_some, if_neg htc]
        simp only [pure_bind_e]
        rw [if_pos trivial]
        exact e7
      · rw [hp7 "options" (by decide), hg6]
      · intro k2 h2 h3
        rw [hp7 k2 h3, hp6 k2 h2, hp5 k2 h2]

/-- The MCQ branch never throws on an object-or-array question whose
4-element `options` arrays hold only objects or arrays. -/
theorem fixMcq_total {q : JVal} (hobj : objLike q = true)
    (hops : ∀ es props, getQ q "options" = some (JVal.arr es props) →
      es.length = 4 → ∀ o ∈ es, objLike o = true) :
    ∃ q2, fixMcq q = Except.ok q2 ∧ objLike q2 = true := by
  by_cases h4 : optsIs4 (getQ q "options") = true
  · obtain ⟨es, props, heq, hlen⟩ := optsIs4_true h4
    have hall : ∀ o ∈ es, objLike o = true := hops es props heq hlen
    obtain ⟨es2, eos, hlen2, hall2⟩ := fixOptionsGo_total hall 0
    obtain ⟨q6, e6, ho6, hg6, hp6⟩ :=
      jsSet_objLike hobj "options" (JVal.arr es2 props)
    have hlen4 : es2.length = 4 := by rw [hlen2, hlen]
    obtain ⟨o0, rest, rfl⟩ : ∃ o0 rest, es2 = o0 :: rest := by
      cases es2 with
      | nil => simp at hlen4
      | cons a b => exact ⟨a, b, rfl⟩
    have estep : fixMcq q = (do
        let cov ← jsGet q6 "correctOptionId"
        let needsFix ← correctIdNeedsFix q6 cov
        if needsFix then do
          let ov4 ← jsGet q6 "options"
          assignFirstOptionId q6 ov4
        else pure q6) := by
      unfold fixMcq
      rw [jsGet_objLike hobj "options"]
      simp only [ok_bind]
      rw [if_pos h4]
      simp only [pure_bind_e]
      rw [jsGet_objLike hobj "options"]
      simp only [ok_bind]
      rw [heq, forEachOptions_arr, eos]
      simp only [ok_bind]
      rw [e6]
      simp only [ok_bind]
    have htail : ∃ q7, (do
        let ov4 ← jsGet q6 "options"
        assignFirstOptionId q6 ov4) = Except.ok q7 ∧ objLike q7 = true := by
      obtain ⟨q7, e7, ho7, _, _⟩ :=
        jsSet_objLike ho6 "correctOptionId" ((getQ o0 "id").getD JVal.null)
      refine ⟨q7, ?_, ho7⟩
      rw [jsGet_objLike ho6 "options", hg6]
      simp only [ok_bind]
      rw [assignFirstOptionId_cons, jsGet_objLike (hall2 o0 (by simp)) "id"]
      simp only [ok_bind]
      exact e7
    cases hcov : getQ q6 "correctOptionId" with
    | none =>
      obtain ⟨q7, e7, ho7⟩ := htail
      refine ⟨q7, ?_, ho7⟩
      rw [estep, jsGet_objLike ho6 "correctOptionId", hcov]
      simp only [ok_bind]
      rw [correctIdNeedsFix_none]
      simp only [pure_bind_e]
      rw [if_pos trivial]
      exact e7
    | some c =>
      by_cases htc : truthy c = true
      · obtain ⟨b, hb⟩ := someOptIdEq_total hall2 c
        have hneed : correctIdNeedsFix q6 (some c) = Except.ok (!b) := by
          rw [correctIdNeedsFix_some, if_pos htc, jsGet_objLike ho6 "options",
            hg6]
          simp only [ok_bind]
          rw [someOnOptions_arr, hb]
          simp only [ok_bind]
          rfl
        cases b with
        | true =>
          refine ⟨q6, ?_, ho6⟩
          rw [estep, jsGet_objLike ho6 "correctOptionId", hcov]
          simp only [ok_bind]
          rw [hneed]
          simp only [ok_bind]
          rw [if_neg (by decide)]
          rfl
        | false =>
          obtain ⟨q7, e7, ho7⟩ := htail
          refine ⟨q7, ?_, ho7⟩
          rw [estep, jsGet_objLike ho6 "correctOptionId", hcov]
          simp only [ok_bind]
          rw [hneed]
          simp only [ok_bind]
          rw [if_pos (by decide)]
          exact e7
      · obtain ⟨q7, e7, ho7⟩ := htail
        refine ⟨q7, ?_, ho7⟩
        rw [estep, jsGet_objLike ho6 "correctOptionId", hcov]
        simp only [ok_bind]
        rw [correctIdNeedsFix_some, if_neg htc]
        simp only [pure_bind_e]
        rw [if_pos trivial]
        exact e7
  · have hf : optsIs4 (getQ q "options") = false := by
      cases hh : optsIs4 (getQ q "options") with
      | false => rfl
      | true => exact absurd hh h4
    obtain ⟨q2, cid, hok, ho2, _⟩ := fixMcq_fallback hobj hf
    exact ⟨q2, hok, ho2⟩

theorem oStrEqStr_true {o : Option JVal} {s : String}
    (h : oStrEqStr o s = true) : o = some (JVal.str s) := by
  cases o with
  | none => simp [oStrEqStr] at h
  | some v =>
    cases v with
    | str t =>
      have : t = s := of_decide_eq_true h
      rw [this]
    | null => simp [oStrEqStr] at h
    | bool b => simp [oStrEqStr] at h
    | num q => simp [oStrEqStr] at h
    | arr es props => simp [oStrEqStr] at h
    | obj props => simp [oStrEqStr] at h

theorem fixTrueFalse_total {q : JVal} (h : objLike q = true) :
    ∃ q2, fixTrueFalse q = Except.ok q2 ∧ objLike q2 = true := by
  unfold fixTrueFalse
  rw [jsGet_objLike h "answer"]
  simp only [ok_bind]
  by_cases hb : isBoolRead (getQ q "answer") = true
  · rw [if_pos hb]; exact ⟨q, rfl, h⟩
  · rw [if_neg hb]
    obtain ⟨w, hw, ho, _, _⟩ := jsSet_objLike h "answer" (JVal.bool true)
    exact ⟨w, hw, ho⟩

theorem questionSafe_options {q : JVal} (hsafe : questionSafe q = true)
    (hgt : getQ q "type" = some (JVal.str "mcq"))
    {es : List JVal} {props : List (String × JVal)}
    (hgo : getQ q "options" = some (JVal.arr es props))
    (hlen : es.length = 4) : ∀ o ∈ es, objLike o = true := by
  unfold questionSafe at hsafe
  simp [hgt, hgo, hlen, Bool.and_eq_true, optionSafe] at hsafe
  exact fun o ho => hsafe.2 o ho

/-- The per-question repair, on an MCQ-typed question object whose
`options` is missing or not a 4-element array: the result has the four
fallback options and a `correctOptionId` among their ids. -/
theorem fixQuestion_mcq_fallback {params : GenerationParams} {t : Nat}
    {q : JVal} (hobj : objLike q = true)
    (hty : getQ q "type" = some (JVal.str "mcq"))
    (hopt : optsIs4 (getQ q "options") = false) :
    ∃ q2 cid, fixQuestion params t q = Except.ok q2 ∧
      getQ q2 "options" = some (JVal.arr fallbackOptionList []) ∧
      getQ q2 "correctOptionId" = some (JVal.str cid) ∧
      (cid = "opt-1" ∨ cid = "opt-2" ∨ cid = "opt-3" ∨ cid = "opt-4") := by
  obtain ⟨q1, e1, h1, hp1⟩ :=
    ensureTruthy_spec hobj "id" (JVal.str ("q-" ++ natStr (t + 1)))
  obtain ⟨qb, e2, h2, hp2⟩ :=
    ensureTruthy_spec h1 "prompt" (JVal.str "Question prompt missing")
  obtain ⟨qc, e3, h3, hp3⟩ := ensureExplanation_spec h2
  obtain ⟨q4, e4, h4, hp4⟩ := ensureTruthy_spec h3 "difficulty"
    (JVal.str (difficultyStr params.difficulty))
  have hty4 : getQ q4 "type" = some (JVal.str "mcq") := by
    rw [hp4 "type" (by decide), hp3 "type" (by decide), hp2 "type" (by decide),
      hp1 "type" (by decide), hty]
  have hopt4 : optsIs4 (getQ q4 "options") = false := by
    rw [hp4 "options" (by decide), hp3 "options" (by decide),
      hp2 "options" (by decide), hp1 "options" (by decide), hopt]
  obtain ⟨q5, cid, hmc, ho5, hgo5, hgc5, hcid, hpm⟩ := fixMcq_fallback h4 hopt4
  have hty5 : getQ q5 "type" = some (JVal.str "mcq") := by
    rw [hpm "type" (by decide) (by decide), hty4]
  refine ⟨q5, cid, ?_, hgo5, hgc5, hcid⟩
  unfold fixQuestion
  rw [e1]; simp only [ok_bind]
  rw [e2]; simp only [ok_bind]
  rw [e3]; simp only [ok_bind]
  rw [e4]; simp only [ok_bind]
  rw [jsGet_objLike h4 "type"]
  simp only [ok_bind]
  rw [hty4, if_pos (by decide), hmc]
  simp only [ok_bind]
  rw [jsGet_objLike ho5 "type"]
  simp only [ok_bind]
  rw [hty5, if_neg (by decide)]
  rfl

/-- The final `type === 'true-false'` step never throws on an
object-or-array question. -/
theorem tfStep_total {q5 : JVal} (ho5 : objLike q5 = true) :
    ∃ q6, (do
      let tyv2 ← jsGet q5 "type"
      if oStrEqStr tyv2 "true-false" then fixTrueFalse q5 else pure q5) =
        Except.ok q6 ∧ objLike q6 = true := by
  rw [jsGet_objLike ho5 "type"]
  simp only [ok_bind]
  by_cases h : oStrEqStr (getQ q5 "type") "true-false" = true
  · rw [if_pos h]; exact fixTrueFalse_total ho5
  · rw [if_neg h]; exact ⟨q5, rfl, ho5⟩

/-- The per-question repair never throws on a `questionSafe` value. -/
theorem fixQuestion_total {params : GenerationParams} {t : Nat} {q : JVal}
    (hsafe : questionSafe q = true) :
    ∃ q2, fixQuestion params t q = Except.ok q2 ∧ objLike q2 = true := by
  have hobj : objLike q = true := by
    unfold questionSafe at hsafe
    exact (Bool.and_eq_true _ _ ▸ hsafe).1
  obtain ⟨q1, e1, h1, hp1⟩ :=
    ensureTruthy_spec hobj "id" (JVal.str ("q-" ++ natStr (t + 1)))
  obtain ⟨qb, e2, h2, hp2⟩ :=
    ensureTruthy_spec h1 "prompt" (JVal.str "Question prompt missing")
  obtain ⟨qc, e3, h3, hp3⟩ := ensureExplanation_spec h2
  obtain ⟨q4, e4, h4, hp4⟩ := ensureTruthy_spec h3 "difficulty"
    (JVal.str (difficultyStr params.difficulty))
  have htyeq : getQ q4 "type" = getQ q "type" := by
    rw [hp4 "type" (by decide), hp3 "type" (by decide), hp2 "type" (by decide),
      hp1 "type" (by decide)]
  have hopeq : getQ q4 "options" = getQ q "options" := by
    rw [hp4 "options" (by decide), hp3 "options" (by decide),
      hp2 "options" (by decide), hp1 "options" (by decide)]
  by_cases hmcq : oStrEqStr (getQ q4 "type") "mcq" = true
  · have hgt : getQ q "type" = some (JVal.str "mcq") := by
      rw [← htyeq]; exact oStrEqStr_true hmcq
    have hops4 : ∀ es props, getQ q4 "options" = some (JVal.arr es props) →
        es.length = 4 → ∀ o ∈ es, objLike o = true := by
      intro es props hgo hlen
      rw [hopeq] at hgo
      exact questionSafe_options hsafe hgt hgo hlen
    obtain ⟨q5, e5m, ho5⟩ := fixMcq_total h4 hops4
    obtain ⟨q6, e6, ho6⟩ := tfStep_total ho5
    refine ⟨q6, ?_, ho6⟩
    unfold fixQuestion
    rw [e1]; simp only [ok_bind]
    rw [e2]; simp only [ok_bind]
    rw [e3]; simp only [ok_bind]
    rw [e4]; simp only [ok_bind]
    rw [jsGet_objLike h4 "type"]
    simp only [ok_bind]
    rw [if_pos hmcq, e5m]
    simp only [ok_bind]
    exact e6
  · obtain ⟨q6, e6, ho6⟩ := tfStep_total h4
    refine ⟨q6, ?_, ho6⟩
    unfold fixQuestion
    rw [e1]; simp only [ok_bind]
    rw [e2]; simp only [ok_bind]
    rw [e3]; simp only [ok_bind]
    rw [e4]; simp only [ok_bind]
    rw [jsGet_objLike h4 "type"]
    simp only [ok_bind]
    rw [if_neg hmcq]
    simp only [pure_bind_e]
    exact e6

/-! ### Section-level lemmas: the `totalQuestions` invariant and
totality -/

theorem fixQuestionsGo_ok {params : GenerationParams} {qs : List JVal}
    {t t2 : Nat} {qs2 : List JVal}
    (h : fixQuestionsGo params t qs = Except.ok (qs2, t2)) :
    t2 = t + qs2.length := by
  induction qs generalizing t qs2 with
  | nil =>
    have hinj := Except.ok.inj h
    cases hinj
    simp
  | cons hd tl ih =>
    obtain ⟨q2, hq2, h⟩ := ebind_ok h
    obtain ⟨r, hr, h⟩ := ebind_ok h
    obtain ⟨a, b⟩ := r
    have hinj := Except.ok.inj h
    cases hinj
    have ht := ih hr
    simp only [List.length_cons]
    omega

theorem fixSection_ok {params : GenerationParams} {t t2 : Nat} {s s2 : JVal}
    (h : fixSection params t s = Except.ok (s2, t2)) :
    t2 = t + sectionQuestionCount s2 := by
  unfold fixSection at h
  obtain ⟨qv, hqv, h⟩ := ebind_ok h
  cases qv with
  | none =>
    replace h : (jsSet s "questions" (JVal.arr [] []) >>= fun s3 =>
        pure (s3, t)) = Except.ok (s2, t2) := h
    obtain ⟨s3, hs3, h⟩ := ebind_ok h
    have hinj := Except.ok.inj h
    cases hinj
    obtain ⟨_, hq, _⟩ := jsSet_ok hs3
    unfold sectionQuestionCount
    rw [hq]
    simp
  | some v =>
    cases v with
    | arr qs props =>
      replace h : (fixQuestionsGo params t qs >>= fun r =>
          jsSet s "questions" (JVal.arr r.1 props) >>= fun s3 =>
          pure (s3, r.2)) = Except.ok (s2, t2) := h
      obtain ⟨r, hr, h⟩ := ebind_ok h
      obtain ⟨a, b⟩ := r
      obtain ⟨s3, hs3, h⟩ := ebind_ok h
      have hinj := Except.ok.inj h
      cases hinj
      have hlen := fixQuestionsGo_ok hr
      obtain ⟨_, hq, _⟩ := jsSet_ok hs3
      unfold sectionQuestionCount
      rw [hq]
      exact hlen
    | null =>
      replace h : (jsSet s "questions" (JVal.arr [] []) >>= fun s3 =>
          pure (s3, t)) = Except.ok (s2, t2) := h
      obtain ⟨s3, hs3, h⟩ := ebind_ok h
      have hinj := Except.ok.inj h
      cases hinj
      obtain ⟨_, hq, _⟩ := jsSet_ok hs3
      unfold sectionQuestionCount
      rw [hq]
      simp
    | bool b =>
      replace h : (jsSet s "questions" (JVal.arr [] []) >>= fun s3 =>
          pure (s3, t)) = Except.ok (s2, t2) := h
      obtain ⟨s3, hs3, h⟩ := ebind_ok h
      have hinj := Except.ok.inj h
      cases hinj
      obtain ⟨_, hq, _⟩ := jsSet_ok hs3
      unfold sectionQuestionCount
      rw [hq]
      simp
    | num n =>
      replace h : (jsSet s "questions" (JVal.arr [] []) >>= fun s3 =>
          pure (s3, t)) = Except.ok (s2, t2) := h
      obtain ⟨s3, hs3, h⟩ := ebind_ok h
      have hinj := Except.ok.inj h
      cases hinj
      obtain ⟨_, hq, _⟩ := jsSet_ok hs3
      unfold sectionQuestionCount
      rw [hq]
      simp
    | str v =>
      replace h : (jsSet s "questions" (JVal.arr [] []) >>= fun s3 =>
          pure (s3, t)) = Except.ok (s2, t2) := h
      obtain ⟨s3, hs3, h⟩ := ebind_ok h
      have hinj := Except.ok.inj h
      cases hinj
      obtain ⟨_, hq, _⟩ := jsSet_ok hs3
      unfold sectionQuestionCount
      rw [hq]
      simp
    | obj props =>
      replace h : (jsSet s "questions" (JVal.arr [] []) >>= fun s3 =>
          pure (s3, t)) = Except.ok (s2, t2) := h
      obtain ⟨s3, hs3, h⟩ := ebind_ok h
      have hinj := Except.ok.inj h
      cases hinj
      obtain ⟨_, hq, _⟩ := jsSet_ok hs3
      unfold sectionQuestionCount
      rw [hq]
      simp

theorem fixSectionsGo_ok {params : GenerationParams} {secs : List JVal}
    {t t2 : Nat} {secs2 : List JVal}
    (h : fixSectionsGo params t secs = Except.ok (secs2, t2)) :
    t2 = t + (secs2.map sectionQuestionCount).sum := by
  induction secs generalizing t secs2 with
  | nil =>
    have hinj := Except.ok.inj h
    cases hinj
    simp
  | cons hd tl ih =>
    obtain ⟨r, hr, h⟩ := ebind_ok h
    obtain ⟨a, b⟩ := r
    obtain ⟨r2, hr2, h⟩ := ebind_ok h
    obtain ⟨c, d⟩ := r2
    have hinj := Except.ok.inj h
    cases hinj
    have h1 := fixSection_ok hr
    have h2 := ih hr2
    simp only [List.map_cons, List.sum_cons]
    omega

theorem fixQuestionsGo_total {params : GenerationParams} {qs : List JVal}
    (h : ∀ x ∈ qs, questionSafe x = true) (t : Nat) :
    ∃ r : List JVal × Nat, fixQuestionsGo params t qs = Except.ok r := by
  induction qs generalizing t with
  | nil => exact ⟨([], t), rfl⟩
  | cons hd tl ih =>
    obtain ⟨q2, e1, _⟩ := @fixQuestion_total params t hd (h hd (by simp))
    obtain ⟨r, er⟩ := ih (fun x hx => h x (by simp [hx])) (t + 1)
    refine ⟨(q2 :: r.1, r.2), ?_⟩
    show (fixQuestion params t hd >>= fun q2 =>
      fixQuestionsGo params (t + 1) tl >>= fun r =>
      pure (q2 :: r.1, r.2)) = _
    rw [e1]
    simp only [ok_bind]
    rw [er]
    simp only [ok_bind]
    rfl

theorem fixSection_total {params : GenerationParams} {s : JVal}
    (hsafe : sectionSafe s = true) (t : Nat) :
    ∃ r : JVal × Nat, fixSection params t s = Except.ok r := by
  have hobj : objLike s = true := by
    unfold sectionSafe at hsafe
    exact (Bool.and_eq_true _ _ ▸ hsafe).1
  unfold fixSection
  rw [jsGet_objLike hobj "questions"]
  simp only [ok_bind]
  cases hqv : getQ s "questions" with
  | none =>
    obtain ⟨w, hw, _, _, _⟩ := jsSet_objLike hobj "questions" (JVal.arr [] [])
    refine ⟨(w, t), ?_⟩
    show (jsSet s "questions" (JVal.arr [] []) >>= fun s2 => pure (s2, t)) = _
    rw [hw]
    simp only [ok_bind]
    rfl
  | some v =>
    cases v with
    | arr qs props =>
      have hall : ∀ x ∈ qs, questionSafe x = true := by
        unfold sectionSafe at hsafe
        simp [hqv, Bool.and_eq_true] at hsafe
        exact fun x hx => hsafe.2 x hx
      obtain ⟨r, er⟩ := @fixQuestionsGo_total params qs hall t
      obtain ⟨w, hw, _, _, _⟩ := jsSet_objLike hobj "questions" (JVal.arr r.1 props)
      refine ⟨(w, r.2), ?_⟩
      show (fixQuestionsGo params t qs >>= fun r =>
        jsSet s "questions" (JVal.arr r.1 props) >>= fun s2 =>
        pure (s2, r.2)) = _
      rw [er]
      simp only [ok_bind]
      rw [hw]
      simp only [ok_bind]
      rfl
    | null =>
      obtain ⟨w, hw, _, _, _⟩ := jsSet_objLike hobj "questions" (JVal.arr [] [])
      refine ⟨(w, t), ?_⟩
      show (jsSet s "questions" (JVal.arr [] []) >>= fun s2 => pure (s2, t)) = _
      rw [hw]
      simp only [ok_bind]
      rfl
    | bool b =>
      obtain ⟨w, hw, _, _, _⟩ := jsSet_objLike hobj "questions" (JVal.arr [] [])
      refine ⟨(w, t), ?_⟩
      show (jsSet s "questions" (JVal.arr [] []) >>= fun s2 => pure (s2, t)) = _
      rw [hw]
      simp only [ok_bind]
      rfl
    | num n =>
      obtain ⟨w, hw, _, _, _⟩ := jsSet_objLike hobj "questions" (JVal.arr [] [])
      refine ⟨(w, t), ?_⟩
      show (jsSet s "questions" (JVal.arr [] []) >>= fun s2 => pure (s2, t)) = _
      rw [hw]
      simp only [ok_bind]
      rfl
    | str v2 =>
      obtain ⟨w, hw, _, _, _⟩ := jsSet_objLike hobj "questions" (JVal.arr [] [])
      refine ⟨(w, t), ?_⟩
      show (jsSet s "questions" (JVal.arr [] []) >>= fun s2 => pure (s2, t)) = _
      rw [hw]
      simp only [ok_bind]
      rfl
    | obj props =>
      obtain ⟨w, hw, _, _, _⟩ := jsSet_objLike hobj "questions" (JVal.arr [] [])
      refine ⟨(w, t), ?_⟩
      show (jsSet s "questions" (JVal.arr [] []) >>= fun s2 => pure (s2, t)) = _
      rw [hw]
      simp only [ok_bind]
      rfl

theorem fixSectionsGo_total {params : GenerationParams} {secs : List JVal}
    (h : ∀ x ∈ secs, sectionSafe x = true) (t : Nat) :
    ∃ r : List JVal × Nat, fixSectionsGo params t secs = Except.ok r := by
  induction secs generalizing t with
  | nil => exact ⟨([], t), rfl⟩
  | cons hd tl ih =>
    obtain ⟨r, er⟩ := @fixSection_total params hd (h hd (by simp)) t
    obtain ⟨r2, er2⟩ := ih (fun x hx => h x (by simp [hx])) r.2
    refine ⟨(r.1 :: r2.1, r2.2), ?_⟩
    show (fixSection params t hd >>= fun r =>
      fixSectionsGo params r.2 tl >>= fun r2 =>
      pure (r.1 :: r2.1, r2.2)) = _
    rw [er]
    simp only [ok_bind]
    rw [er2]
    simp only [ok_bind]
    rfl

/-! ### Top-level lemmas about `validateAndCorrectQuiz` -/

theorem repairSections_arr (params : GenerationParams) (quiz : JVal)
    (secs : List JVal) (props : List (String × JVal)) :
    repairSections params quiz (some (JVal.arr secs props)) = (do
      let r ← fixSectionsGo params 0 secs
      let quiz2 ← jsSet quiz "sections" (JVal.arr r.1 props)
      let mv2 ← jsGet quiz2 "meta"
      setMetaNumQuestions quiz2 mv2 r.2) := rfl

theorem setMetaNumQuestions_some (quiz m : JVal) (total : Nat) :
    setMetaNumQuestions quiz (some m) total = (do
      let m2 ← jsSet m "numQuestions" (JVal.num (total : ℚ))
      jsSet quiz "meta" m2) := rfl

/-- Any successful run of the repair pass ends with `meta.numQuestions`
equal to the total number of questions across the repaired quiz's
sections. -/
theorem validateAndCorrectQuiz_ok {parsed : JVal} {params : GenerationParams}
    {now : String} {q2 : JVal}
    (h : validateAndCorrectQuiz parsed params now = Except.ok q2) :
    ∃ m, getQ q2 "meta" = some m ∧
      getQ m "numQuestions" = some (JVal.num (quizQuestionCount q2 : ℚ)) := by
  unfold validateAndCorrectQuiz at h
  by_cases hg : (!truthy parsed || typeOf parsed != "object") = true
  · rw [if_pos hg] at h; exact Except.noConfusion h
  · rw [if_neg hg] at h
    obtain ⟨mv, hmv, h⟩ := ebind_ok h
    obtain ⟨quiz1, hq1, h⟩ := ebind_ok h
    obtain ⟨sv, hsv, h⟩ := ebind_ok h
    obtain ⟨quiz2, hq2e, h⟩ := ebind_ok h
    obtain ⟨sv2, hsv2, h⟩ := ebind_ok h
    obtain ⟨quiz3, hq3, h⟩ := ebind_ok h
    obtain ⟨sv3, hsv3, h⟩ := ebind_ok h
    cases sv3 with
    | none =>
      replace h : (Except.error "TypeError: quiz.sections is not iterable" :
        Except String JVal) = Except.ok q2 := h
      exact Except.noConfusion h
    | some v =>
      cases v with
      | arr secs props =>
        rw [repairSections_arr] at h
        obtain ⟨r, hr, h⟩ := ebind_ok h
        obtain ⟨a, b⟩ := r
        obtain ⟨quiz4, hq4, h⟩ := ebind_ok h
        obtain ⟨mv2, hmv2, h⟩ := ebind_ok h
        cases mv2 with
        | none =>
          replace h : (Except.error
            "TypeError: cannot set numQuestions of undefined" :
            Except String JVal) = Except.ok q2 := h
          exact Except.noConfusion h
        | some m =>
          rw [setMetaNumQuestions_some] at h
          obtain ⟨m2, hm2, h⟩ := ebind_ok h
          obtain ⟨_, hqm, hqp⟩ := jsSet_ok h
          obtain ⟨_, hm2n, _⟩ := jsSet_ok hm2
          obtain ⟨_, hq4s, _⟩ := jsSet_ok hq4
          have hsec : getQ q2 "sections" = some (JVal.arr a props) := by
            rw [hqp "sections" (by decide), hq4s]
          have hcount : quizQuestionCount q2 = (a.map sectionQuestionCount).sum := by
            unfold quizQuestionCount
            rw [hsec]
          have hb : b = (a.map sectionQuestionCount).sum := by
            have hz := fixSectionsGo_ok hr
            simpa using hz
          refine ⟨m2, hqm, ?_⟩
          rw [hm2n, hcount, ← hb]
      | null =>
        replace h : (Except.error "TypeError: quiz.sections is not iterable" :
          Except String JVal) = Except.ok q2 := h
        exact Except.noConfusion h
      | bool b2 =>
        replace h : (Except.error "TypeError: quiz.sections is not iterable" :
          Except String JVal) = Except.ok q2 := h
        exact Except.noConfusion h
      | num n =>
        replace h : (Except.error "TypeError: quiz.sections is not iterable" :
          Except String JVal) = Except.ok q2 := h
        exact Except.noConfusion h
      | str v2 =>
        replace h : (Except.error "TypeError: quiz.sections is not iterable" :
          Except String JVal) = Except.ok q2 := h
        exact Except.noConfusion h
      | obj props =>
        replace h : (Except.error "TypeError: quiz.sections is not iterable" :
          Except String JVal) = Except.ok q2 := h
        exact Except.noConfusion h

theorem defaultSection_safe : sectionSafe defaultSection = true := by decide

theorem repairSafe_sections {parsed : JVal} (hsafe : repairSafe parsed = true) :
    ∀ ss props, getQ parsed "sections" = some (JVal.arr ss props) →
      ∀ x ∈ ss, sectionSafe x = true := by
  intro ss props hgp x hx
  unfold repairSafe at hsafe
  simp [hgp, Bool.and_eq_true] at hsafe
  exact hsafe.2 x hx

theorem repairSafe_meta {parsed : JVal} (hsafe : repairSafe parsed = true) :
    ∀ m, getQ parsed "meta" = some m → truthy m = true → objLike m = true := by
  intro m hm htm
  unfold repairSafe at hsafe
  simp [hm, Bool.and_eq_true, htm] at hsafe
  tauto

theorem ensureMetaObj_spec {parsed : JVal} (hobj : objLike parsed = true)
    (params : GenerationParams) (now : String)
    (hmeta : ∀ m, getQ parsed "meta" = some m → truthy m = true →
      objLike m = true) :
    ∃ quiz1, ensureMetaObj parsed (getQ parsed "meta") params now =
      Except.ok quiz1 ∧ objLike quiz1 = true ∧
      (∃ m, getQ quiz1 "meta" = some m ∧ objLike m = true) ∧
      getQ quiz1 "sections" = getQ parsed "sections" := by
  unfold ensureMetaObj
  by_cases ht : truthyO (getQ parsed "meta") = true
  · rw [if_pos ht]
    cases hm : getQ parsed "meta" with
    | none => rw [hm] at ht; exact absurd ht (by simp [truthyO])
    | some m =>
      have htm : truthy m = true := by rw [hm] at ht; exact ht
      exact ⟨parsed, rfl, hobj, ⟨m, hm, hmeta m hm htm⟩, rfl⟩
  · rw [if_neg ht]
    obtain ⟨w, hw, ho, hgm, hp⟩ :=
      jsSet_objLike hobj "meta" (defaultMeta params now)
    exact ⟨w, hw, ho, ⟨defaultMeta params now, hgm, rfl⟩,
      hp "sections" (by decide)⟩

theorem ensureSectionsArray_spec {quiz1 : JVal} (ho1 : objLike quiz1 = true)
    (hsafe : ∀ ss props, getQ quiz1 "sections" = some (JVal.arr ss props) →
      ∀ x ∈ ss, sectionSafe x = true)
    (hm1 : ∃ m, getQ quiz1 "meta" = some m ∧ objLike m = true) :
    ∃ quiz2 ss2 props2,
      ensureSectionsArray quiz1 (getQ quiz1 "sections") = Except.ok quiz2 ∧
      objLike quiz2 = true ∧
      getQ quiz2 "sections" = some (JVal.arr ss2 props2) ∧
      (∀ x ∈ ss2, sectionSafe x = true) ∧
      (∃ m, getQ quiz2 "meta" = some m ∧ objLike m = true) := by
  have hset : ∃ quiz2 ss2 props2,
      (jsSet quiz1 "sections" (JVal.arr [] []) = Except.ok quiz2) ∧
      objLike quiz2 = true ∧
      getQ quiz2 "sections" = some (JVal.arr ss2 props2) ∧
      (∀ x ∈ ss2, sectionSafe x = true) ∧
      (∃ m, getQ quiz2 "meta" = some m ∧ objLike m = true) := by
    obtain ⟨w, hw, ho, hg, hp⟩ := jsSet_objLike ho1 "sections" (JVal.arr [] [])
    obtain ⟨m, hm, hmo⟩ := hm1
    exact ⟨w, [], [], hw, ho, hg, by simp,
      ⟨m, by rw [hp "meta" (by decide)]; exact hm, hmo⟩⟩
  cases hsv : getQ quiz1 "sections" with
  | none => exact hset
  | some v =>
    cases v with
    | arr ss props =>
      exact ⟨quiz1, ss, props, rfl, ho1, hsv, hsafe ss props hsv, hm1⟩
    | null => exact hset
    | bool b => exact hset
    | num n => exact hset
    | str v2 => exact hset
    | obj props => exact hset

theorem ensureSectionsNonempty_spec {quiz2 : JVal} {ss2 : List JVal}
    {props2 : List (String × JVal)} (ho2 : objLike quiz2 = true)
    (hg2 : getQ quiz2 "sections" = some (JVal.arr ss2 props2))
    (hsafe2 : ∀ x ∈ ss2, sectionSafe x = true)
    (hm2 : ∃ m, getQ quiz2 "meta" = some m ∧ objLike m = true) :
    ∃ quiz3 ss3 props3,
      ensureSectionsNonempty quiz2 (getQ quiz2 "sections") = Except.ok quiz3 ∧
      objLike quiz3 = true ∧
      getQ quiz3 "sections" = some (JVal.arr ss3 props3) ∧
      (∀ x ∈ ss3, sectionSafe x = true) ∧
      (∃ m, getQ quiz3 "meta" = some m ∧ objLike m = true) := by
  rw [hg2]
  cases ss2 with
  | nil =>
    obtain ⟨w, hw, ho, hg, hp⟩ :=
      jsSet_objLike ho2 "sections" (JVal.arr [defaultSection] [])
    obtain ⟨m, hm, hmo⟩ := hm2
    refine ⟨w, [defaultSection], [], hw, ho, hg, ?_, ⟨m, ?_, hmo⟩⟩
    · intro x hx
      simp at hx
      rw [hx]
      exact defaultSection_safe
    · rw [hp "meta" (by decide)]; exact hm
  | cons hd tl =>
    exact ⟨quiz2, hd :: tl, props2, rfl, ho2, hg2, hsafe2, hm2⟩

/-- The repair pass completes (returns `ok`) on every `repairSafe` parse
tree. -/
theorem validateAndCorrectQuiz_total {parsed : JVal}
    (params : GenerationParams) (now : String)
    (hsafe : repairSafe parsed = true) :
    ∃ q2, validateAndCorrectQuiz parsed params now = Except.ok q2 := by
  have hobj : objLike parsed = true := by
    have hs2 := hsafe
    unfold repairSafe at hs2
    simp only [Bool.and_eq_true] at hs2
    exact hs2.1.1
  obtain ⟨quiz1, e1, ho1, hm1, hs1⟩ :=
    ensureMetaObj_spec hobj params now (repairSafe_meta hsafe)
  have hsafe1 : ∀ ss props, getQ quiz1 "sections" = some (JVal.arr ss props) →
      ∀ x ∈ ss, sectionSafe x = true := by
    intro ss props hq
    rw [hs1] at hq
    exact repairSafe_sections hsafe ss props hq
  obtain ⟨quiz2, ss2, props2, e2, ho2, hg2, hsafe2, hm2⟩ :=
    ensureSectionsArray_spec ho1 hsafe1 hm1
  obtain ⟨quiz3, ss3, props3, e3, ho3, hg3, hsafe3, m3, hm3, hm3o⟩ :=
    ensureSectionsNonempty_spec ho2 hg2 hsafe2 hm2
  obtain ⟨r, er⟩ := @fixSectionsGo_total params ss3 hsafe3 0
  obtain ⟨quiz4, e4, ho4, hg4, hp4⟩ :=
    jsSet_objLike ho3 "sections" (JVal.arr r.1 props3)
  have hm4 : getQ quiz4 "meta" = some m3 := by
    rw [hp4 "meta" (by decide)]; exact hm3
  obtain ⟨m5, e5, _, _, _⟩ :=
    jsSet_objLike hm3o "numQuestions" (JVal.num (r.2 : ℚ))
  obtain ⟨q2, e6, _, _, _⟩ := jsSet_objLike ho4 "meta" m5
  refine ⟨q2, ?_⟩
  unfold validateAndCorrectQuiz
  rw [if_neg (by rw [objLike_truthy hobj, objLike_typeOf hobj]; decide)]
  rw [jsGet_objLike hobj "meta"]
  simp only [ok_bind]
  rw [e1]
  simp only [ok_bind]
  rw [jsGet_objLike ho1 "sections"]
  simp only [ok_bind]
  rw [e2]
  simp only [ok_bind]
  rw [jsGet_objLike ho2 "sections"]
  simp only [ok_bind]
  rw [e3]
  simp only [ok_bind]
  rw [jsGet_objLike ho3 "sections"]
  simp only [ok_bind]
  rw [hg3, repairSections_arr, er]
  simp only [ok_bind]
  rw [e4]
  simp only [ok_bind]
  rw [jsGet_objLike ho4 "meta"]
  simp only [ok_bind]
  rw [hm4, setMetaNumQuestions_some, e5]
  simp only [ok_bind]
  exact e6

/-! ### Claim theorems C3, C7, C8, C9 -/

/-- Concrete generation parameters used by witnesses. -/
def sampleParams : GenerationParams :=
  { numQuestions := 10, difficulty := Difficulty.medium, language := "en",
    questionTypes := [QType.mcq], quizName := none }

/-- **C3.** For every MCQ question object of the parsed model response
(an object or array node whose `type` is the string `"mcq"`) whose
`options` field is missing or is not an array of exactly 4 entries, the
per-question repair of `validateAndCorrectQuiz` returns a question with
exactly 4 options, each having a non-empty `id` and a non-empty `text`,
and with `correctOptionId` equal to one of those option ids. -/
theorem C3_mcq_options_repaired (params : GenerationParams) (t : Nat)
    (q : JVal) (hobj : objLike q = true)
    (hty : getQ q "type" = some (JVal.str "mcq"))
    (hopt : optsIs4 (getQ q "options") = false) :
    ∃ q2 opts cid, fixQuestion params t q = Except.ok q2 ∧
      getQ q2 "options" = some (JVal.arr opts []) ∧
      opts.length = 4 ∧
      (∀ o ∈ opts, ∃ i s2, getQ o "id" = some (JVal.str i) ∧ i ≠ "" ∧
        getQ o "text" = some (JVal.str s2) ∧ s2 ≠ "") ∧
      getQ q2 "correctOptionId" = some (JVal.str cid) ∧
      (∃ o ∈ opts, getQ o "id" = some (JVal.str cid)) := by
  obtain ⟨q2, cid, hfix, hgo, hgc, hcid⟩ := fixQuestion_mcq_fallback hobj hty hopt
  refine ⟨q2, fallbackOptionList, cid, hfix, hgo, by decide, ?_, hgc, ?_⟩
  · intro o ho
    simp [fallbackOptionList] at ho
    rcases ho with rfl | rfl | rfl | rfl
    · exact ⟨"opt-1", "Option A", rfl, by decide, rfl, by decide⟩
    · exact ⟨"opt-2", "Option B", rfl, by decide, rfl, by decide⟩
    · exact ⟨"opt-3", "Option C", rfl, by decide, rfl, by decide⟩
    · exact ⟨"opt-4", "Option D", rfl, by decide, rfl, by decide⟩
  · rcases hcid with h | h | h | h
    · exact ⟨JVal.obj [("id", JVal.str "opt-1"), ("text", JVal.str "Option A")],
        by simp [fallbackOptionList], by rw [h]; rfl⟩
    · exact ⟨JVal.obj [("id", JVal.str "opt-2"), ("text", JVal.str "Option B")],
        by simp [fallbackOptionList], by rw [h]; rfl⟩
    · exact ⟨JVal.obj [("id", JVal.str "opt-3"), ("text", JVal.str "Option C")],
        by simp [fallbackOptionList], by rw [h]; rfl⟩
    · exact ⟨JVal.obj [("id", JVal.str "opt-4"), ("text", JVal.str "Option D")],
        by simp [fallbackOptionList], by rw [h]; rfl⟩

/-- Witness for C3: a concrete MCQ question with no `options` at all. -/
theorem C3_mcq_options_repaired_witness :
    ∃ q2 opts cid,
      fixQuestion sampleParams 0 (JVal.obj [("type", JVal.str "mcq")]) =
        Except.ok q2 ∧
      getQ q2 "options" = some (JVal.arr opts []) ∧
      opts.length = 4 ∧
      (∀ o ∈ opts, ∃ i s2, getQ o "id" = some (JVal.str i) ∧ i ≠ "" ∧
        getQ o "text" = some (JVal.str s2) ∧ s2 ≠ "") ∧
      getQ q2 "correctOptionId" = some (JVal.str cid) ∧
      (∃ o ∈ opts, getQ o "id" = some (JVal.str cid)) :=
  C3_mcq_options_repaired sampleParams 0 (JVal.obj [("type", JVal.str "mcq")])
    (by decide) rfl rfl

/-- The repaired value of `{"foo":"bar"}`: the original key plus a
default `meta` (whose `numQuestions` ends up overwritten to 0) and one
default section holding no questions. -/
def c7Expected (params : GenerationParams) (now : String) : JVal :=
  JVal.obj
    [("foo", JVal.str "bar"),
     ("meta", JVal.obj
       [("title", JVal.str "Generated Quiz"),
        ("language", JVal.str params.language),
        ("numQuestions", JVal.num ((0 : Nat) : ℚ)),
        ("createdAt", JVal.str now)]),
     ("sections", JVal.arr [defaultSection] [])]

/-- **C7.** On the valid-JSON, wrong-shape response `{"foo":"bar"}` the
repair pass synthesizes a default meta and a single default section
containing zero questions (and fabricates no question content), the
strict schema validation then fails — the default section violates the
nonempty-`questions` rule — and the generator surfaces the
schema-validation failure. -/
theorem C7_wrong_shape_fails_schema (params : GenerationParams)
    (now : String) :
    validateAndCorrectQuiz (JVal.obj [("foo", JVal.str "bar")]) params now =
      Except.ok (c7Expected params now) ∧
    getQ (c7Expected params now) "sections" =
      some (JVal.arr [defaultSection] []) ∧
    sectionQuestionCount defaultSection = 0 ∧
    quizSectionValid defaultSection = false ∧
    quizSchemaValid (c7Expected params now) = false ∧
    quizFromParsed (JVal.obj [("foo", JVal.str "bar")]) params now =
      Except.error GenError.schemaValidationFailed :=
  ⟨rfl, rfl, rfl, rfl, rfl, rfl⟩

/-- **C8.** Every parsed model response the repair pass accepts comes
out with `meta.numQuestions` equal to the total number of questions
summed across the repaired quiz's sections. -/
theorem C8_num_questions_consistent (parsed : JVal)
    (params : GenerationParams) (now : String) (q2 : JVal)
    (h : validateAndCorrectQuiz parsed params now = Except.ok q2) :
    ∃ m, getQ q2 "meta" = some m ∧
      getQ m "numQuestions" = some (JVal.num (quizQuestionCount q2 : ℚ)) :=
  validateAndCorrectQuiz_ok h

/-- Concrete parsed input for the C8 witness: one section with two
partly-broken questions. -/
def c8Input : JVal :=
  JVal.obj
    [("sections", JVal.arr
      [JVal.obj [("questions", JVal.arr
        [JVal.obj [("type", JVal.str "true-false"), ("prompt", JVal.str "P")],
         JVal.obj [("type", JVal.str "mcq")]] [])]] [])]

/-- The repaired value of `c8Input`. -/
def c8Result : JVal :=
  match validateAndCorrectQuiz c8Input sampleParams "T" with
  | Except.ok v => v
  | Except.error _ => JVal.null

/-- Witness for C8 on `c8Input` (two questions; `numQuestions` is 2). -/
theorem C8_num_questions_witness :
    ∃ m, getQ c8Result "meta" = some m ∧
      getQ m "numQuestions" =
        some (JVal.num (quizQuestionCount c8Result : ℚ)) :=
  C8_num_questions_consistent c8Input sampleParams "T" c8Result rfl

/-- **C9 (counterexample).** The repair pass is not total over parsed
model responses: on the valid JSON value `42` it throws the explicit
"AI response is not a valid object" error instead of returning a
repaired quiz. -/
theorem C9_repair_throws :
    validateAndCorrectQuiz (JVal.num 42) sampleParams "T" =
      Except.error "AI response is not a valid object" := rfl

/-- **C9 (amended).** The repair pass completes without throwing on
every `repairSafe` parsed value: an object or array whose `meta`, when
truthy, is an object or array, and whose `sections` entries (and their
question entries, and the options of their `mcq` questions with
4-element option arrays) are objects or arrays.  Outside this set it can
throw: primitives and `null` are rejected by the explicit guard, and a
`TypeError` is raised when the repair writes into a primitive (or reads
from `null`) at any of the positions above. -/
theorem C9_repair_total_on_safe (parsed : JVal) (params : GenerationParams)
    (now : String) (hsafe : repairSafe parsed = true) :
    ∃ q2, validateAndCorrectQuiz parsed params now = Except.ok q2 :=
  validateAndCorrectQuiz_total params now hsafe

/-- Witness for C9 on a falsy `meta` and a non-array `sections`. -/
theorem C9_repair_total_witness :
    ∃ q2, validateAndCorrectQuiz
      (JVal.obj [("meta", JVal.bool false), ("sections", JVal.str "nope")])
      sampleParams "T" = Except.ok q2 :=
  C9_repair_total_on_safe
    (JVal.obj [("meta", JVal.bool false), ("sections", JVal.str "nope")])
    sampleParams "T" (by decide)

end QuizIt
